import Mathlib

/-! Shapes: rendering and recognising flat shapes on a grayscale grid.

A shallow embedding of `Image.cpp`, `Shapes.cpp` and `main.cpp`.

Conventions of the embedding:

* C++ `int` is `Int`.  Signed overflow is undefined behaviour in C++, so the
  embedding describes the executions in which no overflow occurs.  The one place
  where ordinary inputs overflow is the pair of products of `isPointInHalfSpace`;
  there a second set of definitions (`crossInt32`, `Shape._isPointInShapeInt32`,
  `Shape.drawInt32`) follows the compiled code, whose `int` operations wrap to
  32 bits, and `Shape.NoOverflowAt` says where the two agree.
* `unsigned char` colours are `Nat`; the code only stores, copies and compares
  colours, it never does arithmetic on them.
* An `Image` is its two dimensions and the cell contents `matrix y x`
  (the C++ `_matrix[y][x]`).  Every access of the code is bounds-checked or
  guarded by `isPixelValid`, so cells outside `[0,width) x [0,height)` are never
  read or written.
* A thrown `ImageDimException` is an `Except.error`.  A call that mutates an image
  in place and may throw half-way returns an `Effect`: the outcome together with
  the image as it is left behind.
* A `for` loop runs on the number of iterations it has left; a `while` loop
  runs on a bound of that number computed from the grid size.
-/

namespace Shapes

/-! ## Image.h / Image.cpp -/

/-- Two dimensional vector (`struct Vector2`). -/
structure Vector2 where
  x : Int
  y : Int
deriving DecidableEq, Repr

/-- Exception for problems with location input in Image. -/
inductive ImageDimException where
  | mk
deriving DecidableEq, Repr

deriving instance DecidableEq for Except

/-- Class representing a 2d grayscale image: `_height`, `_width`, `_matrix`. -/
structure Image where
  height : Int
  width : Int
  matrix : Int → Int → Nat

/-- Outcome of a call that mutates an image in place: normal return or the
exception thrown, and the image as the call leaves it. -/
abbrev Effect := Except ImageDimException Unit × Image

/-- The constructor `Image(height, width, color)`: every cell is `color`. -/
def Image.create (height width : Int) (color : Nat) : Image :=
  { height := height, width := width, matrix := fun _ _ => color }

/-- The accessor `Image::getWidth`. -/
def Image.getWidth (img : Image) : Int := img.width

/-- The accessor `Image::getHeight`. -/
def Image.getHeight (img : Image) : Int := img.height

/-- `Image::isPixelValid(x, y)`. -/
def Image.isPixelValid (img : Image) (x y : Int) : Bool :=
  decide (x ≥ 0) && decide (x < img.width) && decide (y ≥ 0) && decide (y < img.height)

/-- `Image::getPixel(x, y)`: throws outside the image, else reads `_matrix[y][x]`. -/
def Image.getPixel (img : Image) (x y : Int) : Except ImageDimException Nat :=
  if x < 0 ∨ x ≥ img.width ∨ y < 0 ∨ y ≥ img.height then
    .error .mk
  else
    .ok (img.matrix y x)

/-- `Image::drawPixel(location, color)`: throws outside the image (before any
write), else stores `color` in `_matrix[location.y][location.x]`. -/
def Image.drawPixel (img : Image) (location : Vector2) (color : Nat) :
    Except ImageDimException Image :=
  if location.x < 0 ∨ location.x ≥ img.width ∨ location.y < 0 ∨ location.y ≥ img.height then
    .error .mk
  else
    .ok { img with
          matrix := fun y x =>
            if y = location.y ∧ x = location.x then color else img.matrix y x }

/-- The rows of the image, top to bottom, each left to right (what
`operator<<` prints). -/
def Image.toRows (img : Image) : List (List Nat) :=
  (List.range img.height.toNat).map fun i =>
    (List.range img.width.toNat).map fun j => img.matrix (i : Int) (j : Int)

/-! ## Shapes.cpp: the shape model and polygon containment -/

/-- The constant `BACKGROUND`. -/
def BACKGROUND : Nat := 0

/-- The base class `Shape`: `_vertices` (with `_verticesSize` its length) and `_color`. -/
structure Shape where
  vertices : List Vector2
  color : Nat
deriving DecidableEq, Repr

/-- The field `_verticesSize`. -/
def Shape.verticesSize (s : Shape) : Nat := s.vertices.length

/-- The array read `_vertices[i]` (every read of the code is in range when the
shape has at least one vertex). -/
def Shape.vertex (s : Shape) (i : Nat) : Vector2 := s.vertices.getD i ⟨0, 0⟩

/-- The copy constructor `Shape(other, color)`: same vertices, new colour. -/
def Shape.recolor (other : Shape) (color : Nat) : Shape :=
  { vertices := other.vertices, color := color }

/-- The body of the loop of `setBoundingBox` for one vertex `current`; the state is
`(minX, minY, maxX, maxY)`. -/
def boundingBoxStep (box : Int × Int × Int × Int) (current : Vector2) : Int × Int × Int × Int :=
  let (minX, minY, maxX, maxY) := box
  let (minX, maxX) :=
    if current.x < minX then (current.x, maxX)
    else if current.x > maxX then (minX, current.x)
    else (minX, maxX)
  let (minY, maxY) :=
    if current.y < minY then (current.y, maxY)
    else if current.y > maxY then (minY, current.y)
    else (minY, maxY)
  (minX, minY, maxX, maxY)

/-- `setBoundingBox`: returns `(minX, minY, maxX, maxY)`, starting from
`vertices[0]` and visiting `vertices[1..size-1]` in order. -/
def setBoundingBox (vertices : List Vector2) : Int × Int × Int × Int :=
  let v0 := vertices.getD 0 ⟨0, 0⟩
  (vertices.drop 1).foldl boundingBoxStep (v0.x, v0.y, v0.x, v0.y)

/-- The expression tested by `isPointInHalfSpace`, computed on the integers: the
value the source computes when none of its `int` operations overflows
(`crossInt32` is the value as compiled). -/
def cross (a b point : Vector2) : Int :=
  (point.x - a.x) * (b.y - a.y) - (point.y - a.y) * (b.x - a.x)

/-- `isPointInHalfSpace(a, b, point)`. -/
def isPointInHalfSpace (a b point : Vector2) : Bool :=
  decide (cross a b point ≤ 0)

/-- The loop of `Shape::_isPointInShape` from index `i` with `n` iterations left,
followed by the closing test of the edge from the last vertex to the first. -/
def Shape.isPointInShapeLoop (s : Shape) (point : Vector2) : Nat → Nat → Bool
  | 0, _ => isPointInHalfSpace (s.vertex (s.verticesSize - 1)) (s.vertex 0) point
  | n + 1, i =>
    if !isPointInHalfSpace (s.vertex (i - 1)) (s.vertex i) point then false
    else s.isPointInShapeLoop point n (i + 1)

/-- `Shape::_isPointInShape(point)`: the loop runs for `i = 1 .. _verticesSize - 1`. -/
def Shape._isPointInShape (s : Shape) (point : Vector2) : Bool :=
  s.isPointInShapeLoop point (s.verticesSize - 1) 1

/-- The inner loop of `Shape::draw` on row `y`, at column `x` with `n` columns
left (`x .. maxX`).  A throwing `drawPixel` ends the draw and leaves the image
as it is at that moment. -/
def Shape.drawRow (s : Shape) (y : Int) : Nat → Int → Image → Effect
  | 0, _, img => (.ok (), img)
  | n + 1, x, img =>
    if s._isPointInShape ⟨x, y⟩ then
      match img.drawPixel ⟨x, y⟩ s.color with
      | .error e => (.error e, img)
      | .ok img1 => s.drawRow y n (x + 1) img1
    else
      s.drawRow y n (x + 1) img

/-- The outer loop of `Shape::draw`, at row `y` with `m` rows left (`y .. maxY`);
every row starts again at `minX` and has `cols` columns. -/
def Shape.drawRows (s : Shape) (minX : Int) (cols : Nat) : Nat → Int → Image → Effect
  | 0, _, img => (.ok (), img)
  | m + 1, y, img =>
    match s.drawRow y cols minX img with
    | (.error e, img1) => (.error e, img1)
    | (.ok _, img1) => s.drawRows minX cols m (y + 1) img1

/-- `Shape::draw(img)`: scan the bounding box row by row and write the colour at
every point that passes the containment test. -/
def Shape.draw (s : Shape) (img : Image) : Effect :=
  let (minX, minY, maxX, maxY) := setBoundingBox s.vertices
  s.drawRows minX (maxX + 1 - minX).toNat (maxY + 1 - minY).toNat minY img

/-- The constructor `Rectangle(topLeft, topRight, bottomRight, bottomLeft, color)`. -/
def Rectangle.mk4 (topLeft topRight bottomRight bottomLeft : Vector2) (color : Nat) : Shape :=
  { vertices := [topLeft, topRight, bottomRight, bottomLeft], color := color }

/-- The constructor `Rectangle(topLeft, bottomRight, color)`. -/
def Rectangle.mk2 (topLeft bottomRight : Vector2) (color : Nat) : Shape :=
  Rectangle.mk4 topLeft ⟨bottomRight.x, topLeft.y⟩ bottomRight ⟨topLeft.x, bottomRight.y⟩ color

/-- The constructor `Triangle(a, b, c, color)`. -/
def Triangle.mk3 (a b c : Vector2) (color : Nat) : Shape :=
  { vertices := [a, b, c], color := color }

/-! ## Shapes.cpp: the containment test as compiled

`cross` above is the tested expression on the integers.  In the compiled code each of
its operations is a 32-bit `int` operation; for shapes with large coordinates the
products overflow, and the code as compiled wraps.  The definitions below follow the
same source lines with every `int` operation of the test wrapping. -/

/-- The value of a C++ `int` expression as the compiled code computes it when the
mathematical value is `z`: reduced modulo 2^32 into -2^31 .. 2^31 - 1. -/
def wrapInt32 (z : Int) : Int := (z + 2147483648) % 4294967296 - 2147483648

/-- The expression tested by `isPointInHalfSpace` as the compiled code computes
it: each of its four subtractions, two multiplications and final subtraction is an
`int` operation and wraps to 32 bits. -/
def crossInt32 (a b point : Vector2) : Int :=
  wrapInt32 (wrapInt32 (wrapInt32 (point.x - a.x) * wrapInt32 (b.y - a.y)) -
    wrapInt32 (wrapInt32 (point.y - a.y) * wrapInt32 (b.x - a.x)))

/-- `isPointInHalfSpace(a, b, point)` as compiled. -/
def isPointInHalfSpaceInt32 (a b point : Vector2) : Bool :=
  decide (crossInt32 a b point ≤ 0)

/-- The loop of `Shape::_isPointInShape` and its closing test, with the half-space
test as compiled. -/
def Shape.isPointInShapeLoopInt32 (s : Shape) (point : Vector2) : Nat → Nat → Bool
  | 0, _ => isPointInHalfSpaceInt32 (s.vertex (s.verticesSize - 1)) (s.vertex 0) point
  | n + 1, i =>
    if !isPointInHalfSpaceInt32 (s.vertex (i - 1)) (s.vertex i) point then false
    else s.isPointInShapeLoopInt32 point n (i + 1)

/-- `Shape::_isPointInShape(point)` as compiled. -/
def Shape._isPointInShapeInt32 (s : Shape) (point : Vector2) : Bool :=
  s.isPointInShapeLoopInt32 point (s.verticesSize - 1) 1

/-- The loop guard `img.isPixelValid(x, y) && (img.getPixel(x, y) == color)`:
`getPixel` is evaluated only when the first operand is true. -/
def sameColorAt (img : Image) (x y : Int) (color : Nat) : Except ImageDimException Bool :=
  if img.isPixelValid x y then do
    let c ← img.getPixel x y
    pure (c == color)
  else
    pure false

/-- The loop guard `img.isPixelValid(x, y) && img.getPixel(x, y) != BACKGROUND`. -/
def foregroundAt (img : Image) (x y : Int) : Except ImageDimException Bool :=
  if img.isPixelValid x y then do
    let c ← img.getPixel x y
    pure (c != BACKGROUND)
  else
    pure false

/-- The `while (true)` loop of `setTriangleBottomLeft` from `(x, y)`: prefer
diagonally left, then straight down, then diagonally right, else stop.  Every
step increases `y`, and a step needs `y + 1 < height`, so `n` bounds the steps
left when it is at least `height - 1 - y`. -/
def triangleDescend (img : Image) (color : Nat) : Nat → Int → Int →
    Except ImageDimException (Int × Int)
  | 0, x, y => pure (x, y)
  | n + 1, x, y => do
    let left ← sameColorAt img (x - 1) (y + 1) color
    if left then triangleDescend img color n (x - 1) (y + 1)
    else do
      let down ← sameColorAt img x (y + 1) color
      if down then triangleDescend img color n x (y + 1)
      else do
        let right ← sameColorAt img (x + 1) (y + 1) color
        if right then triangleDescend img color n (x + 1) (y + 1)
        else pure (x, y)

/-- The second loop of `setTriangleBottomLeft`: go as left as possible on row `y`.
A step needs `x - 1 >= 0`, so `n` bounds the steps left when it is at least `x`. -/
def triangleGoLeft (img : Image) (color : Nat) (y : Int) : Nat → Int →
    Except ImageDimException Int
  | 0, x => pure x
  | n + 1, x => do
    let more ← sameColorAt img (x - 1) y color
    if more then triangleGoLeft img color y n (x - 1) else pure x

/-- `setTriangleBottomLeft(img, topLeft, bottomLeft, color)`; returns `bottomLeft`. -/
def setTriangleBottomLeft (img : Image) (topLeft : Vector2) (color : Nat) :
    Except ImageDimException Vector2 := do
  let (x, y) ← triangleDescend img color (img.height - 1 - topLeft.y).toNat topLeft.x topLeft.y
  let x ← triangleGoLeft img color y x.toNat x
  pure ⟨x, y⟩

/-- The loop of `getTriangleHorizontalLength` on row `y`; returns the final `x`.
A step needs `x + 1 < width`, so `n` bounds the steps left when it is at least
`width - 1 - x`. -/
def triangleGoRight (img : Image) (color : Nat) (y : Int) : Nat → Int →
    Except ImageDimException Int
  | 0, x => pure x
  | n + 1, x => do
    let more ← sameColorAt img (x + 1) y color
    if more then triangleGoRight img color y n (x + 1) else pure x

/-- `getTriangleHorizontalLength(img, leftPoint, color)`. -/
def getTriangleHorizontalLength (img : Image) (leftPoint : Vector2) (color : Nat) :
    Except ImageDimException Int := do
  let x ← triangleGoRight img color leftPoint.y (img.width - 1 - leftPoint.x).toNat leftPoint.x
  pure (x - leftPoint.x)

/-- `Triangle::recognizeTriangle(img, topLeft, innerTriangle)`; returns the
triangle stored in `*innerTriangle`.  `/` on the non-negative run length is the
C++ integer division. -/
def Triangle.recognizeTriangle (img : Image) (topLeft : Vector2) :
    Except ImageDimException Shape := do
  let color ← img.getPixel topLeft.x topLeft.y
  let bottomLeft ← setTriangleBottomLeft img topLeft color
  let topLength ← getTriangleHorizontalLength img topLeft color
  let bottomLength ← getTriangleHorizontalLength img bottomLeft color
  if topLength > bottomLength then
    let first := topLeft
    let second : Vector2 := ⟨topLeft.x + topLength, topLeft.y⟩
    let third : Vector2 := ⟨bottomLeft.x + Int.tdiv bottomLength 2, topLeft.y⟩
    pure (Triangle.mk3 first second third color)
  else
    let first : Vector2 := ⟨topLeft.x + Int.tdiv bottomLength 2, topLeft.y⟩
    let second : Vector2 := ⟨bottomLeft.x + bottomLength, bottomLeft.y⟩
    let third := bottomLeft
    pure (Triangle.mk3 first second third color)

/-! ## Shapes.cpp: the rectangle tracer -/

/-- The first loop of `setBottomRightRectangleCorner`: go diagonally right while
the cell is foreground.  A step needs `x < width`, so `n` bounds the steps left
when it is at least `width - x`. -/
def rectangleGoDiagonal (img : Image) : Nat → Int → Int → Except ImageDimException (Int × Int)
  | 0, x, y => pure (x, y)
  | n + 1, x, y => do
    let more ← foregroundAt img x y
    if more then rectangleGoDiagonal img n (x + 1) (y + 1) else pure (x, y)

/-- The loop `while (img.isPixelValid(x, ++y) && img.getPixel(x, y) != BACKGROUND);`
returns `y` as the loop leaves it (the first row that fails the test).  A passed
test needs `y + 1 < height`, so `n` bounds the passes left when it is at least
`height - 1 - y`. -/
def rectangleGoDown (img : Image) (x : Int) : Nat → Int → Except ImageDimException Int
  | 0, y => pure (y + 1)
  | n + 1, y => do
    let more ← foregroundAt img x (y + 1)
    if more then rectangleGoDown img x n (y + 1) else pure (y + 1)

/-- The loop `while (img.isPixelValid(++x, y) && img.getPixel(x, y) != BACKGROUND);`
returns `x` as the loop leaves it.  A passed test needs `x + 1 < width`, so `n`
bounds the passes left when it is at least `width - 1 - x`. -/
def rectangleGoRight (img : Image) (y : Int) : Nat → Int → Except ImageDimException Int
  | 0, x => pure (x + 1)
  | n + 1, x => do
    let more ← foregroundAt img (x + 1) y
    if more then rectangleGoRight img y n (x + 1) else pure (x + 1)

/-- `setBottomRightRectangleCorner(img, start, bottomRight)`; returns `bottomRight`. -/
def setBottomRightRectangleCorner (img : Image) (start : Vector2) :
    Except ImageDimException Vector2 := do
  let (x, y) ← rectangleGoDiagonal img (img.width - (start.x + 1)).toNat (start.x + 1) (start.y + 1)
  let below ← foregroundAt img (x - 1) y
  if below then
    let x := x - 1
    let y ← rectangleGoDown img x (img.height - 1 - y).toNat y
    let y := y - 1
    pure ⟨x, y⟩
  else do
    let beside ← foregroundAt img x (y - 1)
    if beside then
      let y := y - 1
      let x ← rectangleGoRight img y (img.width - 1 - x).toNat x
      let x := x - 1
      pure ⟨x, y⟩
    else
      let x := x - 1
      let y := y - 1
      pure ⟨x, y⟩

/-- `Rectangle::recognizeRectangle(img, topLeft, rectangle)`; returns the rectangle
stored in `*rectangle`. -/
def Rectangle.recognizeRectangle (img : Image) (topLeft : Vector2) :
    Except ImageDimException Shape := do
  let color ← img.getPixel topLeft.x topLeft.y
  let bottomRight ← setBottomRightRectangleCorner img topLeft
  pure (Rectangle.mk2 topLeft bottomRight color)

/-- The inner loop of the scan of `recognizeRectangleWithTriangle` on row `y`, at
column `x` with `n` columns left: the first cell whose colour differs from `color`. -/
def findOtherColorInRow (img : Image) (color : Nat) (y : Int) : Nat → Int →
    Except ImageDimException (Option Vector2)
  | 0, _ => pure none
  | n + 1, x => do
    let c ← img.getPixel x y
    if c != color then pure (some ⟨x, y⟩) else findOtherColorInRow img color y n (x + 1)

/-- The outer loop of the scan of `recognizeRectangleWithTriangle`, at row `y` with
`m` rows left; every row starts at `minX` and has `cols` columns. -/
def findOtherColor (img : Image) (color : Nat) (minX : Int) (cols : Nat) : Nat → Int →
    Except ImageDimException (Option Vector2)
  | 0, _ => pure none
  | m + 1, y => do
    match (← findOtherColorInRow img color y cols minX) with
    | some p => pure (some p)
    | none => findOtherColor img color minX cols m (y + 1)

/-- `Rectangle::recognizeRectangleWithTriangle(img, topLeft, rectangle, innerTriangle)`;
returns the rectangle stored in `*rectangle` and, when the C++ function returns
`true`, the triangle stored in `*innerTriangle` (`none` when it returns `false`). -/
def Rectangle.recognizeRectangleWithTriangle (img : Image) (topLeft : Vector2) :
    Except ImageDimException (Shape × Option Shape) := do
  let color ← img.getPixel topLeft.x topLeft.y
  let bottomRight ← setBottomRightRectangleCorner img topLeft
  let rectangle := Rectangle.mk2 topLeft bottomRight color
  let found ← findOtherColor img color topLeft.x (bottomRight.x + 1 - topLeft.x).toNat
    (bottomRight.y + 1 - topLeft.y).toNat topLeft.y
  match found with
  | some p => do
    let innerTriangle ← Triangle.recognizeTriangle img p
    pure (rectangle, some innerTriangle)
  | none => pure (rectangle, none)

/-! ## Shapes.cpp: the extraction driver -/

/-- An element of a `Shape **` array: a pointer to a shape, with its dynamic type. -/
inductive ShapePtr where
  | rectangle (s : Shape)
  | triangle (s : Shape)
deriving DecidableEq, Repr

/-- The virtual call `shape->draw(img)`; rectangles and triangles inherit `Shape::draw`. -/
def ShapePtr.draw : ShapePtr → Image → Effect
  | .rectangle s, img => s.draw img
  | .triangle s, img => s.draw img

/-- `Shape::drawShapesToImage(img, shapes, size)`: draw the shapes in array order. -/
def drawShapesToImage : Image → List ShapePtr → Effect
  | img, [] => (.ok (), img)
  | img, shape :: rest =>
    match shape.draw img with
    | (.error e, img1) => (.error e, img1)
    | (.ok _, img1) => drawShapesToImage img1 rest

/-- The inner loop of `Shape::getRectanglesFromImage` on row `y`, at column `x`
with `n` columns left.  The state is the list `rectangles` and `tempImg`. -/
def getRectanglesRow (y : Int) : Nat → Int → List ShapePtr × Image →
    Except ImageDimException (List ShapePtr × Image)
  | 0, _, st => pure st
  | n + 1, x, (rectangles, tempImg) => do
    let c ← tempImg.getPixel x y
    if c != BACKGROUND then
      let newRect ← Rectangle.recognizeRectangle tempImg ⟨x, y⟩
      let rectangles := ShapePtr.rectangle newRect :: rectangles
      match (newRect.recolor BACKGROUND).draw tempImg with
      | (.error e, _) => .error e
      | (.ok _, tempImg1) => getRectanglesRow y n (x + 1) (rectangles, tempImg1)
    else
      getRectanglesRow y n (x + 1) (rectangles, tempImg)

/-- The outer loop of `Shape::getRectanglesFromImage`, at row `y` with `m` rows left. -/
def getRectanglesRows (width : Nat) : Nat → Int → List ShapePtr × Image →
    Except ImageDimException (List ShapePtr × Image)
  | 0, _, st => pure st
  | m + 1, y, st => do
    let st1 ← getRectanglesRow y width 0 st
    getRectanglesRows width m (y + 1) st1

/-- `Shape::getRectanglesFromImage(img, arrSize)`; returns the output array.  Both
`width` and `height` are `img.getWidth()`, and `push_front` puts each new rectangle
at the head of the list. -/
def getRectanglesFromImage (img : Image) : Except ImageDimException (List ShapePtr) := do
  let tempImg := img
  let width := img.getWidth
  let height := img.getWidth
  let (rectangles, _) ← getRectanglesRows width.toNat height.toNat 0 ([], tempImg)
  pure rectangles

/-- The inner loop of `Shape::getRectanglesAndTrianglesFromImage` on row `y`:
a found triangle is pushed at the back, then the rectangle at the front. -/
def getRectanglesAndTrianglesRow (y : Int) : Nat → Int → List ShapePtr × Image →
    Except ImageDimException (List ShapePtr × Image)
  | 0, _, st => pure st
  | n + 1, x, (shapes, tempImg) => do
    let c ← tempImg.getPixel x y
    if c != BACKGROUND then
      let (newRect, newTriangle) ← Rectangle.recognizeRectangleWithTriangle tempImg ⟨x, y⟩
      let shapes :=
        match newTriangle with
        | some t => shapes ++ [ShapePtr.triangle t]
        | none => shapes
      let shapes := ShapePtr.rectangle newRect :: shapes
      match (newRect.recolor BACKGROUND).draw tempImg with
      | (.error e, _) => .error e
      | (.ok _, tempImg1) => getRectanglesAndTrianglesRow y n (x + 1) (shapes, tempImg1)
    else
      getRectanglesAndTrianglesRow y n (x + 1) (shapes, tempImg)

/-- The outer loop of `Shape::getRectanglesAndTrianglesFromImage`. -/
def getRectanglesAndTrianglesRows (width : Nat) : Nat → Int → List ShapePtr × Image →
    Except ImageDimException (List ShapePtr × Image)
  | 0, _, st => pure st
  | m + 1, y, st => do
    let st1 ← getRectanglesAndTrianglesRow y width 0 st
    getRectanglesAndTrianglesRows width m (y + 1) st1

/-- `Shape::getRectanglesAndTrianglesFromImage(img, arrSize)`; returns the output array. -/
def getRectanglesAndTrianglesFromImage (img : Image) :
    Except ImageDimException (List ShapePtr) := do
  let tempImg := img
  let width := img.getWidth
  let height := img.getWidth
  let (shapes, _) ← getRectanglesAndTrianglesRows width.toNat height.toNat 0 ([], tempImg)
  pure shapes

/-! ## Image.cpp: drawPixel as a call, drawHorizontalLine -/

/-- `Image::drawPixel(location, color)` as a call on an image held by the caller:
the outcome and the image afterwards; the throw comes before the write. -/
def Image.drawPixelInPlace (img : Image) (location : Vector2) (color : Nat) : Effect :=
  match img.drawPixel location color with
  | .error e => (.error e, img)
  | .ok img1 => (.ok (), img1)

/-- The loop of `Image::drawHorizontalLine` on row `y`: the array write
`row[x] = color` at column `x` and the `n - 1` columns after it. -/
def Image.fillRow (y : Int) (color : Nat) : Nat → Int → Image → Image
  | 0, _, img => img
  | n + 1, x, img =>
    Image.fillRow y color n (x + 1)
      { img with matrix := fun b a => if b = y ∧ a = x then color else img.matrix b a }

/-- `Image::drawHorizontalLine(start, xFinish, color)`: throws before any write, else
writes the columns `start.x .. xFinish` of row `start.y`. -/
def Image.drawHorizontalLine (img : Image) (start : Vector2) (xFinish : Int) (color : Nat) :
    Effect :=
  if start.x < 0 ∨ start.y < 0 ∨ start.y ≥ img.height ∨ xFinish ≥ img.width ∨
      start.x > xFinish then
    (.error .mk, img)
  else
    (.ok (), Image.fillRow start.y color (xFinish + 1 - start.x).toNat start.x img)

/-! ## Shapes.cpp: the circle -/

/-- The class `Circle`: a `Shape` (whose `_vertices[0]` is the centre) and `_radius`. -/
structure Circle where
  shape : Shape
  radius : Int
deriving DecidableEq, Repr

/-- The default constructor `Circle()`: no vertices, colour 0, radius -1. -/
def Circle.default : Circle := { shape := { vertices := [], color := 0 }, radius := -1 }

/-- The constructor `Circle(center, radius, color)`. -/
def Circle.mk3 (center : Vector2) (radius : Int) (color : Nat) : Circle :=
  { shape := { vertices := [center], color := color }, radius := radius }

/-- `drawCirclePart(img, center, currentPart, color)`: four horizontal lines, in
the order of the source; a throwing line ends the call. -/
def drawCirclePart (img : Image) (center currentPart : Vector2) (color : Nat) : Effect :=
  let xLeft := center.x - currentPart.x
  let xRight := center.x + currentPart.x
  let xDown := center.x - currentPart.y
  let xUp := center.x + currentPart.y
  let yDown := center.y - currentPart.y
  let yUp := center.y + currentPart.y
  let yLeft := center.y - currentPart.x
  let yRight := center.y + currentPart.x
  match img.drawHorizontalLine ⟨xLeft, yUp⟩ xRight color with
  | (.error e, img1) => (.error e, img1)
  | (.ok _, img1) =>
    match img1.drawHorizontalLine ⟨xLeft, yDown⟩ xRight color with
    | (.error e, img2) => (.error e, img2)
    | (.ok _, img2) =>
      match img2.drawHorizontalLine ⟨xDown, yRight⟩ xUp color with
      | (.error e, img3) => (.error e, img3)
      | (.ok _, img3) => img3.drawHorizontalLine ⟨xDown, yLeft⟩ xUp color

/-- The `while (currentPart.y >= currentPart.x)` loop of `Circle::draw`.  Every
iteration decreases `currentPart.y - currentPart.x`, so `n` bounds the iterations
left when it is at least `currentPart.y - currentPart.x + 1`. -/
def circleLoop (center : Vector2) (color : Nat) : Nat → Vector2 → Int → Image → Effect
  | 0, _, _, img => (.ok (), img)
  | n + 1, currentPart, decision, img =>
    if currentPart.y ≥ currentPart.x then
      let x := currentPart.x + 1
      let y := if decision > 0 then currentPart.y - 1 else currentPart.y
      let decision :=
        if decision > 0 then decision + (4 * (x - y) + 10) else decision + (4 * x + 6)
      match drawCirclePart img center ⟨x, y⟩ color with
      | (.error e, img1) => (.error e, img1)
      | (.ok _, img1) => circleLoop center color n ⟨x, y⟩ decision img1
    else
      (.ok (), img)

/-- `Circle::draw(img)`. -/
def Circle.draw (c : Circle) (img : Image) : Effect :=
  if c.radius = -1 then
    (.ok (), img)
  else
    let center := c.shape.vertex 0
    let color := c.shape.color
    match drawCirclePart img center ⟨0, c.radius⟩ color with
    | (.error e, img1) => (.error e, img1)
    | (.ok _, img1) =>
      circleLoop center color (c.radius + 1).toNat ⟨0, c.radius⟩ (3 - 2 * c.radius) img1

/-! ## main.cpp: the demo -/

/-- `rect1` of `main`. -/
def rect1 : Shape := Rectangle.mk2 ⟨1, 1⟩ ⟨3, 2⟩ 70

/-- `rect2` of `main`. -/
def rect2 : Shape := Rectangle.mk2 ⟨3, 4⟩ ⟨4, 5⟩ 140

/-- `triangle` of `main`. -/
def triangle : Shape := Triangle.mk3 ⟨2, 1⟩ ⟨3, 2⟩ ⟨1, 2⟩ 210

/-- `shapesOriginal` of `main`. -/
def shapesOriginal : List ShapePtr :=
  [ShapePtr.rectangle rect1, ShapePtr.rectangle rect2, ShapePtr.triangle triangle]

/-- `img1` of `main` after `drawShapesToImage(img1, shapesOriginal, 2)`. -/
def img1 : Image := (drawShapesToImage (Image.create 6 6 0) (shapesOriginal.take 2)).2

/-- `img2` of `main` after `drawShapesToImage(img2, shapesOriginal, 3)`. -/
def img2 : Image := (drawShapesToImage (Image.create 6 6 0) (shapesOriginal.take 3)).2

/-- The grid of the rectangle scenario: `rect1` drawn on a blank 6x6 image. -/
def rect1Image : Image := (rect1.draw (Image.create 6 6 0)).2

/-- `img1Compare` / `img2Compare` of `main`: a blank 6x6 image with the extracted
array drawn on it in array order (`none` when the extraction threw). -/
def redraw (shapes : Except ImageDimException (List ShapePtr)) : Option Effect :=
  match shapes with
  | .error _ => none
  | .ok l => some (drawShapesToImage (Image.create 6 6 0) l)

/-- The grid of the top-base scenario: a triangle with its horizontal edge on top,
drawn on a blank 6x6 image. -/
def topBaseImage : Image := ((Triangle.mk3 ⟨1, 1⟩ ⟨3, 1⟩ ⟨2, 2⟩ 210).draw (Image.create 6 6 0)).2

/-- `img2Compare` of `main`: a blank 6x6 image with the array extracted from `img2`
drawn on it (the blank image when the extraction threw). -/
def img2Compare : Image :=
  match redraw (getRectanglesAndTrianglesFromImage img2) with
  | some e => e.2
  | none => Image.create 6 6 0

/-- A blank image of height 1 and width 2. -/
def wideImage : Image := Image.create 1 2 0

/-- An image of height 2 and width 1 whose cell (0,1) holds colour 9. -/
def tallImage : Image := ((Rectangle.mk2 ⟨0, 1⟩ ⟨0, 1⟩ 9).draw (Image.create 2 1 0)).2

/-! ## Vocabulary of the statements -/

/-- The point `(x, y)` lies in the box `(minX, minY, maxX, maxY)`. -/
def inBox (box : Int × Int × Int × Int) (x y : Int) : Prop :=
  box.1 ≤ x ∧ x ≤ box.2.2.1 ∧ box.2.1 ≤ y ∧ y ≤ box.2.2.2

instance (box : Int × Int × Int × Int) (x y : Int) : Decidable (inBox box x y) := by
  unfold inBox; infer_instance

/-- The point `(x, y)` comes strictly before `(qx, qy)` in row-major order. -/
def rowMajorBefore (x y qx qy : Int) : Prop := y < qy ∨ (y = qy ∧ x < qx)

instance (x y qx qy : Int) : Decidable (rowMajorBefore x y qx qy) := by
  unfold rowMajorBefore; infer_instance

/-- The shape an array element points to. -/
def ShapePtr.shape : ShapePtr → Shape
  | .rectangle s => s
  | .triangle s => s

/-- The first vertex of the shape an array element points to; for a rectangle
made by the tracer it is the seed the tracer was started at. -/
def ShapePtr.seed (p : ShapePtr) : Vector2 := p.shape.vertex 0

/-- The image `img` with the colour of `s` written at the cells selected by `sel`. -/
def paint (s : Shape) (img : Image) (sel : Int → Int → Bool) : Image :=
  { img with matrix := fun y x => if sel x y then s.color else img.matrix y x }

/-- The cell `(x, y)` is a valid cell holding a colour other than `BACKGROUND`. -/
def isForeground (img : Image) (x y : Int) : Bool :=
  img.isPixelValid x y && (img.matrix y x != BACKGROUND)

/-- The cell `(x, y)` is a valid cell holding `color`. -/
def hasColor (img : Image) (x y : Int) (color : Nat) : Bool :=
  img.isPixelValid x y && (img.matrix y x == color)

/-- The cells written by one `drawCirclePart`: the four spans of the state `(px, py)`
around the centre `(cx, cy)`. -/
def inCirclePart (cx cy px py a b : Int) : Prop :=
  ((b = cy + py ∨ b = cy - py) ∧ cx - px ≤ a ∧ a ≤ cx + px) ∨
    ((b = cy + px ∨ b = cy - px) ∧ cx - py ≤ a ∧ a ≤ cx + py)

instance (cx cy px py a b : Int) : Decidable (inCirclePart cx cy px py a b) := by
  unfold inCirclePart; infer_instance

/-- The half-width of row `cy + e` after one more `drawCirclePart` for the state
`(x, y)`: the largest of the old half-width `k e` and the half-widths of the spans
the state puts on that row (`-1` stands for an empty row). -/
def circleHalfWidth (k : Int → Int) (x y : Int) (e : Int) : Int :=
  max (k e) (max (if e = y ∨ e = -y then x else -1) (if e = x ∨ e = -x then y else -1))

/-- The relation between the decision variable and the state in `Circle::draw`,
for radius `r`. -/
def CircleArith (r x y d : Int) : Prop :=
  d = 2 * x * x + 8 * x + 2 * y * y - 6 * y + 3 + 4 * r - 2 * r * r ∧
    0 ≤ x ∧ y ≤ r ∧ (y = r → x ≤ r - 1)

/-- The picture drawn so far by `Circle::draw` on a blank image, after the state
`(x, y)`: row `cy + e` holds the colour exactly on the centred interval of
half-width `k e`. -/
def CircleInv (cx cy r : Int) (col : Nat) (k : Int → Int) (img : Image) (x y : Int) : Prop :=
  (∀ a e : Int, img.matrix (cy + e) a = if -(k e) ≤ a - cx ∧ a - cx ≤ k e then col else 0) ∧
    (∀ a e : Int, -(k e) ≤ a - cx → a - cx ≤ k e → img.isPixelValid a (cy + e) = true) ∧
    (∀ e : Int, k (-e) = k e) ∧ (∀ e : Int, k e ≤ r) ∧
    (∀ e : Int, 0 ≤ k e ↔ ((-x ≤ e ∧ e ≤ x) ∨ (y ≤ e ∧ e ≤ r) ∨ (-r ≤ e ∧ e ≤ -y))) ∧
    x ≤ r ∧ 0 ≤ y

/-- The circle of the colour-0 examples: centre (1,1), radius 1, colour 0, drawn on a
blank image of height 3 and width 10. -/
def zeroColorCircleImage : Image := ((Circle.mk3 ⟨1, 1⟩ 1 0).draw (Image.create 3 10 0)).2

/-- An axis-aligned rectangle given by its corners and colour, as passed to
`Rectangle(topLeft, bottomRight, color)`. -/
structure RectSpec where
  x0 : Int
  y0 : Int
  x1 : Int
  y1 : Int
  color : Nat
deriving DecidableEq, Repr

/-- The rectangle `Rectangle((x0,y0), (x1,y1), color)`. -/
def RectSpec.shape (r : RectSpec) : Shape :=
  Rectangle.mk2 ⟨r.x0, r.y0⟩ ⟨r.x1, r.y1⟩ r.color

/-- The array element pointing to the rectangle. -/
def RectSpec.ptr (r : RectSpec) : ShapePtr := ShapePtr.rectangle r.shape

/-- The cell `(a, b)` lies in the box of the rectangle. -/
def RectSpec.contains (r : RectSpec) (a b : Int) : Prop :=
  r.x0 ≤ a ∧ a ≤ r.x1 ∧ r.y0 ≤ b ∧ b ≤ r.y1

instance (r : RectSpec) (a b : Int) : Decidable (r.contains a b) := by
  unfold RectSpec.contains; infer_instance

/-- The rectangle is well-formed, has a non-zero colour and fits in a grid of
width `w` and height `h`. -/
def RectSpec.fits (r : RectSpec) (w h : Int) : Prop :=
  r.x0 ≤ r.x1 ∧ r.y0 ≤ r.y1 ∧ 0 ≤ r.x0 ∧ r.x1 < w ∧ 0 ≤ r.y0 ∧ r.y1 < h ∧ r.color ≠ 0

instance (r : RectSpec) (w h : Int) : Decidable (r.fits w h) := by
  unfold RectSpec.fits; infer_instance

/-- The two rectangles do not touch: no cell of one is equal or 8-adjacent
(diagonals included) to a cell of the other. -/
def RectSpec.apart (r s : RectSpec) : Prop :=
  ∀ a b c d : Int, r.contains a b → s.contains c d →
    (1 < c - a ∨ 1 < a - c ∨ 1 < d - b ∨ 1 < b - d)

/-- The two rectangles do not overlap: they have no cell in common. -/
def RectSpec.disjoint (r s : RectSpec) : Prop :=
  ∀ a b : Int, r.contains a b → ¬ s.contains a b

/-- The image has width `w`, height `h` and shows exactly the rectangles of `l`:
a cell in the box of one of them holds its colour, every other cell holds 0. -/
def Depicts (w h : Int) (img : Image) (l : List RectSpec) : Prop :=
  img.width = w ∧ img.height = h ∧
    ∀ a b : Int, (∀ r ∈ l, r.contains a b → img.matrix b a = r.color) ∧
      ((∀ r ∈ l, ¬ r.contains a b) → img.matrix b a = 0)

/-- The grid of the touching example: two one-cell rectangles side by side, of
colours 1 and 2, drawn on a blank 2x2 image. -/
def touchingImage : Image :=
  (drawShapesToImage (Image.create 2 2 0)
    [RectSpec.ptr ⟨0, 0, 0, 0, 1⟩, RectSpec.ptr ⟨1, 0, 1, 0, 2⟩]).2

/-! ## Vocabulary of the invariants -/

/-- The invariant of the loop of `setBoundingBox`: the box is the exact bounding
box of the vertices `S` seen so far. -/
def BoxOf (box : Int × Int × Int × Int) (S : Vector2 → Prop) : Prop :=
  (∀ v, S v → box.1 ≤ v.x ∧ v.x ≤ box.2.2.1 ∧ box.2.1 ≤ v.y ∧ v.y ≤ box.2.2.2) ∧
    (∃ v, S v ∧ v.x = box.1) ∧ (∃ v, S v ∧ v.x = box.2.2.1) ∧
    (∃ v, S v ∧ v.y = box.2.1) ∧ (∃ v, S v ∧ v.y = box.2.2.2)

/-- The foreground cells of the image: the valid cells `(x, y)` holding a colour
other than `BACKGROUND`, listed row by row. -/
def foregroundCells (img : Image) : List (Int × Int) :=
  ((List.range img.height.toNat).flatMap fun (j : Nat) =>
    (List.range img.width.toNat).map fun (i : Nat) => ((i : Int), (j : Int))).filter
      fun q => isForeground img q.1 q.2

/-- The invariant of the loops of `getRectanglesFromImage` on the input `orig`: the
working copy has the size of the input and every cell of it holds what the input
holds or has been erased; every array element is a rectangle whose first vertex is a
foreground cell of the input and whose colour is the input's colour there. -/
def SeedsOf (orig : Image) (st : List ShapePtr × Image) : Prop :=
  st.2.width = orig.width ∧ st.2.height = orig.height ∧
    (∀ a b : Int, st.2.matrix b a = orig.matrix b a ∨ st.2.matrix b a = 0) ∧
    ∀ p ∈ st.1, (∃ s : Shape, p = ShapePtr.rectangle s) ∧
      isForeground orig p.seed.x p.seed.y = true ∧
      p.shape.color = orig.matrix p.seed.y p.seed.x

/-- The array lists rectangles first and triangles after them, and has at most as
many triangles as rectangles. -/
def RectanglesFirst (l : List ShapePtr) : Prop :=
  ∃ rects tris : List Shape,
    l = rects.map ShapePtr.rectangle ++ tris.map ShapePtr.triangle ∧ tris.length ≤ rects.length

/-! ## The circle procedure of the specification -/

/-- The step "draw 4 horizontal spans" of the circle procedure of the specification
(section 4.2), for the state `(dx, dy)`: the rows `center.y+dy` and `center.y-dy` from
`center.x-dx` to `center.x+dx`, then the rows `center.y+dx` and `center.y-dx` from
`center.x-dy` to `center.x+dy`.  A span is a `drawHorizontalLine`; a failing span
ends the procedure. -/
def specDrawSpans (img : Image) (center : Vector2) (dx dy : Int) (color : Nat) : Effect :=
  match img.drawHorizontalLine ⟨center.x - dx, center.y + dy⟩ (center.x + dx) color with
  | (.error e, img1) => (.error e, img1)
  | (.ok _, img1) =>
    match img1.drawHorizontalLine ⟨center.x - dx, center.y - dy⟩ (center.x + dx) color with
    | (.error e, img2) => (.error e, img2)
    | (.ok _, img2) =>
      match img2.drawHorizontalLine ⟨center.x - dy, center.y + dx⟩ (center.x + dy) color with
      | (.error e, img3) => (.error e, img3)
      | (.ok _, img3) =>
        img3.drawHorizontalLine ⟨center.x - dy, center.y - dx⟩ (center.x + dy) color

/-- The `repeat ... until dy < dx` loop of the circle procedure of the specification
(section 4.2), from the state `(dx, dy, decision)`: draw the four spans, then
`dx += 1`, then update `dy` and `decision`, and leave when `dy < dx`.  It runs on
a bound `n` of the number of rounds left; a round keeps `dy` or decreases it and
increases `dx`, so `n` is enough when it is positive and at least `dy - dx + 1`. -/
def specCircleLoop (center : Vector2) (color : Nat) : Nat → Int → Int → Int → Image → Effect
  | 0, _, _, _, img => (.ok (), img)
  | n + 1, dx, dy, decision, img =>
    match specDrawSpans img center dx dy color with
    | (.error e, img1) => (.error e, img1)
    | (.ok _, img1) =>
      let dx1 := dx + 1
      let dy1 := if decision > 0 then dy - 1 else dy
      let decision1 :=
        if decision > 0 then decision + (4 * (dx1 - dy1) + 10) else decision + (4 * dx1 + 6)
      if dy1 < dx1 then (.ok (), img1)
      else specCircleLoop center color n dx1 dy1 decision1 img1

/-- The circle procedure of the specification (section 4.2): nothing for the
sentinel radius -1, else the loop started from `dx = 0`, `dy = radius`,
`decision = 3 - 2 * radius`. -/
def specCircleDraw (center : Vector2) (radius : Int) (color : Nat) (img : Image) : Effect :=
  if radius = -1 then (.ok (), img)
  else specCircleLoop center color (radius + 1).toNat 0 radius (3 - 2 * radius) img

/-- Every cell of the four spans of the state `(px, py)` already holds the colour. -/
def Covered (img : Image) (cx cy : Int) (col : Nat) (px py : Int) : Prop :=
  ∀ a b : Int, inCirclePart cx cy px py a b → img.matrix b a = col

/-- What the loops of the circle know at the state `(x, y)` with decision `d`, before
the spans of that state are drawn on `img`: the relation of `d` to the state, the
loop test, the sign of the decisions taken on the way, the spans of the state
before when the last round decreased `y`, and the square of the circle lying in the
image. -/
def CircleSync (cx cy r : Int) (col : Nat) (x y d : Int) (img : Image) : Prop :=
  CircleArith r x y d ∧ y ≥ x ∧ (x = 0 → y = r) ∧
    (y < r → d - 4 * x + 4 * y - 10 > 0) ∧
    ((1 ≤ x ∧ Covered img cx cy col (x - 1) (y + 1)) ∨
      ((1 ≤ x → d - 4 * x - 6 ≤ 0) ∧ (y < r → d - 8 * x + 4 * y - 12 > 0))) ∧
    (0 ≤ cx - r ∧ cx + r < img.width ∧ 0 ≤ cy - r ∧ cy + r < img.height)

/-! ## Vocabulary of overflow -/

/-- The value fits a C++ `int`. -/
def inInt32 (z : Int) : Prop := -2147483648 ≤ z ∧ z ≤ 2147483647

instance (z : Int) : Decidable (inInt32 z) := by
  unfold inInt32; infer_instance

/-- No `int` operation of `isPointInHalfSpace(a, b, point)` overflows: the four
differences, the two products and the result fit a C++ `int`. -/
def EdgeNoOverflow (a b point : Vector2) : Prop :=
  inInt32 (point.x - a.x) ∧ inInt32 (b.y - a.y) ∧ inInt32 ((point.x - a.x) * (b.y - a.y)) ∧
    inInt32 (point.y - a.y) ∧ inInt32 (b.x - a.x) ∧ inInt32 ((point.y - a.y) * (b.x - a.x)) ∧
    inInt32 (cross a b point)

instance (a b point : Vector2) : Decidable (EdgeNoOverflow a b point) := by
  unfold EdgeNoOverflow; infer_instance

/-- No `int` operation of `_isPointInShape(point)` overflows, on any edge the test
may visit. -/
def Shape.NoOverflowAt (s : Shape) (point : Vector2) : Prop :=
  (∀ j : Nat, j < s.verticesSize → EdgeNoOverflow (s.vertex (j - 1)) (s.vertex j) point) ∧
    EdgeNoOverflow (s.vertex (s.verticesSize - 1)) (s.vertex 0) point

instance (s : Shape) (point : Vector2) : Decidable (s.NoOverflowAt point) := by
  unfold Shape.NoOverflowAt; infer_instance

/-- Both coordinates of the point lie in -16383 .. 16383. -/
def Vector2.small (v : Vector2) : Prop :=
  -16383 ≤ v.x ∧ v.x ≤ 16383 ∧ -16383 ≤ v.y ∧ v.y ≤ 16383

instance (v : Vector2) : Decidable v.small := by
  unfold Vector2.small; infer_instance

/-! ## Polygon containment -/

theorem isPointInShapeLoop_iff (s : Shape) (p : Vector2) (n i : Nat) :
    s.isPointInShapeLoop p n i = true ↔
      (∀ j : Nat, i ≤ j → j < i + n → cross (s.vertex (j - 1)) (s.vertex j) p ≤ 0) ∧
        cross (s.vertex (s.verticesSize - 1)) (s.vertex 0) p ≤ 0 := by
  induction n generalizing i with
  | zero =>
    simp only [Shape.isPointInShapeLoop, isPointInHalfSpace, decide_eq_true_eq]
    constructor
    · intro h
      exact ⟨fun j h1 h2 => by omega, h⟩
    · exact fun h => h.2
  | succ n ih =>
    simp only [Shape.isPointInShapeLoop, isPointInHalfSpace]
    by_cases hc : cross (s.vertex (i - 1)) (s.vertex i) p ≤ 0
    · simp only [hc, decide_True, Bool.not_true, Bool.false_eq_true, if_false, ih]
      constructor
      · rintro ⟨h1, h2⟩
        refine ⟨fun j hj1 hj2 => ?_, h2⟩
        rcases Nat.eq_or_lt_of_le hj1 with h | h
        · subst h; exact hc
        · exact h1 j h (by omega)
      · rintro ⟨h1, h2⟩
        exact ⟨fun j hj1 hj2 => h1 j (by omega) (by omega), h2⟩
    · simp only [hc, decide_False, Bool.not_false, if_true, Bool.false_eq_true, false_iff]
      rintro ⟨h1, -⟩
      exact hc (h1 i le_rfl (by omega))

/-- C1: for a polygon with at least one vertex, `_isPointInShape` holds exactly
when the cross product of every cyclic edge `(v[(i-1) mod n], v[i])`, `i = 0 .. n-1`,
is at most zero at the point. -/
theorem isPointInShape_iff_all_edges (s : Shape) (p : Vector2) (hn : 1 ≤ s.verticesSize) :
    s._isPointInShape p = true ↔
      ∀ i : Nat, i < s.verticesSize →
        cross (s.vertex (((i : Int) - 1) % (s.verticesSize : Int)).toNat) (s.vertex i) p ≤ 0 := by
  unfold Shape._isPointInShape
  rw [isPointInShapeLoop_iff]
  constructor
  · rintro ⟨h1, h2⟩ i hi
    rcases Nat.eq_zero_or_pos i with h0 | hpos
    · subst h0
      have e : (((0 : Nat) : Int) - 1) % (s.verticesSize : Int) = ((s.verticesSize - 1 : Nat) : Int) := by
        rw [← Int.add_emod_self, Int.emod_eq_of_lt (by omega) (by omega)]; omega
      rw [e, Int.toNat_ofNat]
      exact h2
    · have e : ((i : Int) - 1) % (s.verticesSize : Int) = ((i - 1 : Nat) : Int) := by
        rw [Int.emod_eq_of_lt (by omega) (by omega)]; omega
      rw [e, Int.toNat_ofNat]
      exact h1 i hpos (by omega)
  · intro h
    refine ⟨fun j hj1 hj2 => ?_, ?_⟩
    · have hj := h j (by omega)
      have e : ((j : Int) - 1) % (s.verticesSize : Int) = ((j - 1 : Nat) : Int) := by
        rw [Int.emod_eq_of_lt (by omega) (by omega)]; omega
      rwa [e, Int.toNat_ofNat] at hj
    · have h0 := h 0 (by omega)
      have e : (((0 : Nat) : Int) - 1) % (s.verticesSize : Int) = ((s.verticesSize - 1 : Nat) : Int) := by
        rw [← Int.add_emod_self, Int.emod_eq_of_lt (by omega) (by omega)]; omega
      rwa [e, Int.toNat_ofNat] at h0

/-! ## Rectangle containment -/

theorem rectangle_isPointInShape_eq (x0 y0 x1 y1 : Int) (c : Nat) (p : Vector2) :
    (Rectangle.mk2 ⟨x0, y0⟩ ⟨x1, y1⟩ c)._isPointInShape p = true ↔
      (0 ≤ (p.y - y0) * (x1 - x0) ∧ (p.x - x1) * (y1 - y0) ≤ 0 ∧
        (p.y - y1) * (x1 - x0) ≤ 0 ∧ 0 ≤ (p.x - x0) * (y1 - y0)) := by
  simp only [Shape._isPointInShape, Rectangle.mk2, Rectangle.mk4, Shape.verticesSize,
    List.length_cons, List.length_nil, Shape.isPointInShapeLoop, Shape.vertex,
    isPointInHalfSpace, cross, List.getD_cons_zero, List.getD_cons_succ]
  simp only [Nat.reduceAdd, Nat.reduceSub, List.getD_cons_zero, List.getD_cons_succ, sub_self,
    mul_zero, zero_sub, sub_zero, Bool.not_eq_true', decide_eq_false_iff_not, not_le,
    Bool.if_false_left, Bool.and_eq_true, Bool.not_eq_true', decide_eq_true_eq,
    decide_eq_false_iff_not, not_lt, not_not, neg_nonpos]
  constructor
  · rintro ⟨h1, h2, h3, h4⟩
    refine ⟨h1, h2, ?_, ?_⟩ <;> nlinarith
  · rintro ⟨h1, h2, h3, h4⟩
    refine ⟨h1, h2, ?_, ?_⟩ <;> nlinarith

theorem mul_pos_nonneg_iff (a d : Int) (hd : 0 < d) : 0 ≤ a * d ↔ 0 ≤ a := by
  constructor
  · intro h
    by_contra hn
    push_neg at hn
    nlinarith
  · intro h
    exact mul_nonneg h hd.le

theorem mul_pos_nonpos_iff (a d : Int) (hd : 0 < d) : a * d ≤ 0 ↔ a ≤ 0 := by
  constructor
  · intro h
    by_contra hn
    push_neg at hn
    nlinarith
  · intro h
    nlinarith

theorem rectangle_isPointInShape_char (x0 y0 x1 y1 : Int) (c : Nat) (p : Vector2)
    (hx : x0 ≤ x1) (hy : y0 ≤ y1) :
    (Rectangle.mk2 ⟨x0, y0⟩ ⟨x1, y1⟩ c)._isPointInShape p = true ↔
      ((x0 = x1 ∨ (y0 ≤ p.y ∧ p.y ≤ y1)) ∧ (y0 = y1 ∨ (x0 ≤ p.x ∧ p.x ≤ x1))) := by
  rw [rectangle_isPointInShape_eq]
  rcases eq_or_lt_of_le hx with hx0 | hx0 <;> rcases eq_or_lt_of_le hy with hy0 | hy0
  · subst hx0; subst hy0; simp
  · subst hx0
    have hd : 0 < y1 - y0 := by omega
    simp only [sub_self, mul_zero, le_refl, true_and, mul_pos_nonpos_iff _ _ hd,
      mul_pos_nonneg_iff _ _ hd, true_or]
    constructor
    · rintro ⟨h1, h2⟩
      exact Or.inr ⟨by omega, by omega⟩
    · rintro (h | ⟨h1, h2⟩)
      · omega
      · exact ⟨by omega, by omega⟩
  · subst hy0
    have hd : 0 < x1 - x0 := by omega
    simp only [sub_self, mul_zero, le_refl, true_and, and_true, mul_pos_nonpos_iff _ _ hd,
      mul_pos_nonneg_iff _ _ hd, true_or]
    constructor
    · rintro ⟨h1, h2⟩
      exact Or.inr ⟨by omega, by omega⟩
    · rintro (h | ⟨h1, h2⟩)
      · omega
      · exact ⟨by omega, by omega⟩
  · have hd : 0 < x1 - x0 := by omega
    have he : 0 < y1 - y0 := by omega
    simp only [mul_pos_nonpos_iff _ _ hd, mul_pos_nonneg_iff _ _ hd,
      mul_pos_nonpos_iff _ _ he, mul_pos_nonneg_iff _ _ he]
    constructor
    · rintro ⟨h1, h2, h3, h4⟩
      exact ⟨Or.inr ⟨by omega, by omega⟩, Or.inr ⟨by omega, by omega⟩⟩
    · rintro ⟨h1 | ⟨h1, h2⟩, h3 | ⟨h3, h4⟩⟩ <;> omega

/-! ## Drawing a polygon -/

theorem Image.eq_of (a b : Image) (hh : a.height = b.height) (hw : a.width = b.width)
    (hm : ∀ y x, a.matrix y x = b.matrix y x) : a = b := by
  cases a
  cases b
  simp only at hh hw hm
  subst hh
  subst hw
  congr
  funext y x
  exact hm y x

theorem drawPixel_of_valid (img : Image) (x y : Int) (c : Nat)
    (h : img.isPixelValid x y = true) :
    img.drawPixel ⟨x, y⟩ c =
      .ok { img with matrix := fun b a => if b = y ∧ a = x then c else img.matrix b a } := by
  simp only [Image.isPixelValid, Bool.and_eq_true, decide_eq_true_eq] at h
  have : ¬ (x < 0 ∨ x ≥ img.width ∨ y < 0 ∨ y ≥ img.height) := by omega
  simp only [Image.drawPixel, this, if_false]

theorem drawPixel_of_invalid (img : Image) (x y : Int) (c : Nat)
    (h : img.isPixelValid x y = false) :
    img.drawPixel ⟨x, y⟩ c = .error .mk := by
  have h1 : ¬ (img.isPixelValid x y = true) := by simp [h]
  simp only [Image.isPixelValid, Bool.and_eq_true, decide_eq_true_eq] at h1
  have : x < 0 ∨ x ≥ img.width ∨ y < 0 ∨ y ≥ img.height := by omega
  simp only [Image.drawPixel, this, if_true]

theorem isPixelValid_congr (img img1 : Image) (hw : img1.width = img.width)
    (hh : img1.height = img.height) (x y : Int) :
    img1.isPixelValid x y = img.isPixelValid x y := by
  simp only [Image.isPixelValid, hw, hh]

/-- The inner loop of `draw` when no contained point of the row segment is invalid. -/
theorem drawRow_ok (s : Shape) (y : Int) (n : Nat) (x : Int) (img : Image)
    (h : ∀ i : Nat, i < n → s._isPointInShape ⟨x + i, y⟩ = true →
      img.isPixelValid (x + i) y = true) :
    s.drawRow y n x img =
      (.ok (), paint s img fun a b =>
        decide (b = y ∧ x ≤ a ∧ a < x + n) && s._isPointInShape ⟨a, b⟩) := by
  induction n generalizing x img with
  | zero =>
    simp only [Shape.drawRow, paint, Prod.mk.injEq, true_and]
    refine Image.eq_of _ _ (by rfl) (by rfl) ?_
    intro b a
    simp only [paint, Bool.and_eq_true, decide_eq_true_eq]
    rw [if_neg]
    rintro ⟨h1, -⟩
    omega
  | succ n ih =>
    simp only [Shape.drawRow]
    by_cases hc : s._isPointInShape ⟨x, y⟩ = true
    · have hv : img.isPixelValid x y = true := by
        have := h 0 (by omega) (by simpa using hc)
        simpa using this
      rw [if_pos hc, drawPixel_of_valid img x y s.color hv]
      simp only
      rw [ih]
      · simp only [paint, Prod.mk.injEq, true_and]
        refine Image.eq_of _ _ (by rfl) (by rfl) ?_
        intro b a
        simp only
        by_cases h1 : b = y ∧ a = x
        · obtain ⟨rfl, rfl⟩ := h1
          have : (b = b ∧ a ≤ a ∧ a < a + ((n + 1 : Nat) : Int)) := by omega
          have h2 : ¬ (b = b ∧ a + 1 ≤ a ∧ a < a + 1 + (n : Int)) := by omega
          simp [this, h2, hc]
        · have : (b = y ∧ x + 1 ≤ a ∧ a < x + 1 + (n : Int)) ↔
              (b = y ∧ x ≤ a ∧ a < x + ((n + 1 : Nat) : Int)) := by
            push_cast; omega
          simp only [h1, if_false, this]
      · intro i hi hci
        rw [isPixelValid_congr img _ (by rfl) (by rfl)]
        have := h (i + 1) (by omega) (by rw [← hci]; congr 2; push_cast; ring)
        rw [← this]; congr 1; push_cast; ring
    · rw [if_neg hc, ih]
      · simp only [paint, Prod.mk.injEq, true_and]
        refine Image.eq_of _ _ (by rfl) (by rfl) ?_
        intro b a
        simp only
        by_cases h1 : b = y ∧ a = x
        · obtain ⟨rfl, rfl⟩ := h1
          have h2 : ¬ (b = b ∧ a + 1 ≤ a ∧ a < a + 1 + (n : Int)) := by omega
          have h3 : s._isPointInShape ⟨a, b⟩ = false := by simpa using hc
          simp [h2, h3]
        · have : (b = y ∧ x + 1 ≤ a ∧ a < x + 1 + (n : Int)) ↔
              (b = y ∧ x ≤ a ∧ a < x + ((n + 1 : Nat) : Int)) := by
            push_cast; omega
          simp only [this]
      · intro i hi hci
        have := h (i + 1) (by omega) (by rw [← hci]; congr 2; push_cast; ring)
        rw [← this]; congr 1; push_cast; ring

theorem paint_paint (s : Shape) (img : Image) (f g : Int → Int → Bool) :
    paint s (paint s img f) g = paint s img fun a b => g a b || f a b := by
  refine Image.eq_of _ _ (by rfl) (by rfl) ?_
  intro y x
  simp only [paint]
  by_cases hg : g x y = true <;> by_cases hf : f x y = true <;> simp [hg, hf]

theorem paint_congr (s : Shape) (img : Image) (f g : Int → Int → Bool)
    (h : ∀ a b, f a b = g a b) : paint s img f = paint s img g := by
  have : f = g := by funext a b; exact h a b
  rw [this]

theorem paint_isPixelValid (s : Shape) (img : Image) (f : Int → Int → Bool) (x y : Int) :
    (paint s img f).isPixelValid x y = img.isPixelValid x y :=
  isPixelValid_congr img _ (by rfl) (by rfl) x y

/-- Running the inner loop for `k + m` columns is running it for `k` columns and,
unless that threw, for `m` more. -/
theorem drawRow_add (s : Shape) (y : Int) (k m : Nat) (x : Int) (img : Image) :
    s.drawRow y (k + m) x img =
      match s.drawRow y k x img with
      | (.error e, img1) => (.error e, img1)
      | (.ok _, img1) => s.drawRow y m (x + k) img1 := by
  induction k generalizing x img with
  | zero => simp [Shape.drawRow]
  | succ k ih =>
    have e : k + 1 + m = (k + m) + 1 := by omega
    have e2 : ∀ z : Int, z + 1 + (k : Int) = z + ((k + 1 : Nat) : Int) := by
      intro z; push_cast; ring
    rw [e]
    simp only [Shape.drawRow]
    by_cases hc : s._isPointInShape ⟨x, y⟩ = true
    · rw [if_pos hc, if_pos hc]
      cases hd : img.drawPixel ⟨x, y⟩ s.color with
      | error err => rfl
      | ok img1 =>
        simp only
        rw [ih, e2]
    · rw [if_neg hc, if_neg hc, ih, e2]

/-- The inner loop of `draw` when the first contained invalid point of the row
segment is at offset `k`: the draw throws there, with the earlier contained
points of the segment written. -/
theorem drawRow_err (s : Shape) (y : Int) (n k : Nat) (x : Int) (img : Image) (hk : k < n)
    (hbad : s._isPointInShape ⟨x + k, y⟩ = true ∧ img.isPixelValid (x + k) y = false)
    (h : ∀ i : Nat, i < k → s._isPointInShape ⟨x + i, y⟩ = true →
      img.isPixelValid (x + i) y = true) :
    s.drawRow y n x img =
      (.error .mk, paint s img fun a b =>
        decide (b = y ∧ x ≤ a ∧ a < x + k) && s._isPointInShape ⟨a, b⟩) := by
  obtain ⟨m, rfl⟩ : ∃ m, n = k + (m + 1) := ⟨n - k - 1, by omega⟩
  rw [drawRow_add, drawRow_ok s y k x img h]
  simp only [Shape.drawRow]
  rw [if_pos hbad.1, drawPixel_of_invalid _ _ _ _ (by rw [paint_isPixelValid]; exact hbad.2)]

/-- The outer loop of `draw` when no contained point of the rows is invalid. -/
theorem drawRows_ok (s : Shape) (minX : Int) (cols m : Nat) (y : Int) (img : Image)
    (h : ∀ j : Nat, j < m → ∀ i : Nat, i < cols → s._isPointInShape ⟨minX + i, y + j⟩ = true →
      img.isPixelValid (minX + i) (y + j) = true) :
    s.drawRows minX cols m y img =
      (.ok (), paint s img fun a b =>
        decide (y ≤ b ∧ b < y + m ∧ minX ≤ a ∧ a < minX + cols) && s._isPointInShape ⟨a, b⟩) := by
  induction m generalizing y img with
  | zero =>
    simp only [Shape.drawRows, Prod.mk.injEq, true_and]
    refine Image.eq_of _ _ (by rfl) (by rfl) ?_
    intro b a
    simp only [paint, Bool.and_eq_true, decide_eq_true_eq]
    rw [if_neg]
    rintro ⟨h1, -⟩
    omega
  | succ m ih =>
    simp only [Shape.drawRows]
    rw [drawRow_ok s y cols minX img (fun i hi hc => by
      have := h 0 (by omega) i hi (by simpa using hc)
      simpa using this)]
    simp only
    rw [ih, paint_paint]
    · simp only [Prod.mk.injEq, true_and]
      apply paint_congr
      intro a b
      by_cases hc : s._isPointInShape ⟨a, b⟩ = true
      · simp only [hc, Bool.and_true]
        rw [Bool.eq_iff_iff]
        simp only [Bool.or_eq_true, decide_eq_true_eq]
        push_cast
        omega
      · rw [Bool.not_eq_true] at hc
        simp only [hc, Bool.and_false, Bool.or_false]
    · intro j hj i hi hc
      rw [paint_isPixelValid]
      have := h (j + 1) (by omega) i hi (by rw [← hc]; congr 2; push_cast; ring)
      rw [← this]; congr 1; push_cast; ring

/-- Running the outer loop for `j + m` rows is running it for `j` rows and,
unless that threw, for `m` more. -/
theorem drawRows_add (s : Shape) (minX : Int) (cols j m : Nat) (y : Int) (img : Image) :
    s.drawRows minX cols (j + m) y img =
      match s.drawRows minX cols j y img with
      | (.error e, img1) => (.error e, img1)
      | (.ok _, img1) => s.drawRows minX cols m (y + j) img1 := by
  induction j generalizing y img with
  | zero => simp [Shape.drawRows]
  | succ j ih =>
    have e : j + 1 + m = (j + m) + 1 := by omega
    have e2 : ∀ z : Int, z + 1 + (j : Int) = z + ((j + 1 : Nat) : Int) := by
      intro z; push_cast; ring
    rw [e]
    simp only [Shape.drawRows]
    rcases hd : s.drawRow y cols minX img with ⟨r, img1⟩
    cases r with
    | error err => rfl
    | ok u =>
      simp only
      rw [ih, e2]

/-- The outer loop of `draw` when the first contained invalid point in row-major
order is at row offset `j` and column offset `i`: the draw throws there, with the
earlier contained points written. -/
theorem drawRows_err (s : Shape) (minX : Int) (cols m j i : Nat) (y : Int) (img : Image)
    (hj : j < m) (hi : i < cols)
    (hbad : s._isPointInShape ⟨minX + i, y + j⟩ = true ∧
      img.isPixelValid (minX + i) (y + j) = false)
    (hrows : ∀ j1 : Nat, j1 < j → ∀ i1 : Nat, i1 < cols →
      s._isPointInShape ⟨minX + i1, y + j1⟩ = true →
        img.isPixelValid (minX + i1) (y + j1) = true)
    (hrow : ∀ i1 : Nat, i1 < i → s._isPointInShape ⟨minX + i1, y + j⟩ = true →
      img.isPixelValid (minX + i1) (y + j) = true) :
    s.drawRows minX cols m y img =
      (.error .mk, paint s img fun a b =>
        decide ((y ≤ b ∧ b < y + j ∧ minX ≤ a ∧ a < minX + cols) ∨
          (b = y + j ∧ minX ≤ a ∧ a < minX + i)) && s._isPointInShape ⟨a, b⟩) := by
  obtain ⟨m1, rfl⟩ : ∃ m1, m = j + (m1 + 1) := ⟨m - j - 1, by omega⟩
  rw [drawRows_add, drawRows_ok s minX cols j y img hrows]
  simp only [Shape.drawRows]
  rw [drawRow_err s (y + j) cols i minX _ hi
    ⟨hbad.1, by rw [paint_isPixelValid]; exact hbad.2⟩
    (fun i1 hi1 hc => by rw [paint_isPixelValid]; exact hrow i1 hi1 hc)]
  simp only [paint_paint, Prod.mk.injEq, true_and]
  apply paint_congr
  intro a b
  by_cases hc : s._isPointInShape ⟨a, b⟩ = true
  · simp only [hc, Bool.and_true]
    rw [Bool.eq_iff_iff]
    simp only [Bool.or_eq_true, decide_eq_true_eq]
    omega
  · rw [Bool.not_eq_true] at hc
    simp only [hc, Bool.and_false, Bool.or_false]

theorem draw_eq_drawRows (s : Shape) (img : Image) :
    s.draw img =
      s.drawRows (setBoundingBox s.vertices).1
        ((setBoundingBox s.vertices).2.2.1 + 1 - (setBoundingBox s.vertices).1).toNat
        ((setBoundingBox s.vertices).2.2.2 + 1 - (setBoundingBox s.vertices).2.1).toNat
        (setBoundingBox s.vertices).2.1 img := rfl

/-- A successful `draw`, as an equation on the whole image. -/
theorem draw_ok_eq (s : Shape) (img : Image)
    (h : ∀ x y : Int, inBox (setBoundingBox s.vertices) x y → s._isPointInShape ⟨x, y⟩ = true →
      img.isPixelValid x y = true) :
    s.draw img =
      (.ok (), paint s img fun a b =>
        decide (inBox (setBoundingBox s.vertices) a b) && s._isPointInShape ⟨a, b⟩) := by
  rw [draw_eq_drawRows, drawRows_ok]
  · simp only [Prod.mk.injEq, true_and]
    apply paint_congr
    intro a b
    congr 1
    rw [Bool.eq_iff_iff]
    simp only [decide_eq_true_eq, inBox]
    omega
  · intro j hj i hi hc
    apply h _ _ _ hc
    simp only [inBox]
    omega

/-- A `draw` that throws, as an equation on the whole image: `(qx, qy)` is the
first contained invalid point of the box in row-major order. -/
theorem draw_err_eq (s : Shape) (img : Image) (qx qy : Int)
    (hq : inBox (setBoundingBox s.vertices) qx qy)
    (hc : s._isPointInShape ⟨qx, qy⟩ = true) (hv : img.isPixelValid qx qy = false)
    (hfirst : ∀ x y : Int, inBox (setBoundingBox s.vertices) x y →
      s._isPointInShape ⟨x, y⟩ = true → rowMajorBefore x y qx qy → img.isPixelValid x y = true) :
    s.draw img =
      (.error .mk, paint s img fun a b =>
        decide (inBox (setBoundingBox s.vertices) a b ∧ rowMajorBefore a b qx qy) &&
          s._isPointInShape ⟨a, b⟩) := by
  simp only [inBox] at hq
  have ex : qx = (setBoundingBox s.vertices).1 + ((qx - (setBoundingBox s.vertices).1).toNat : Int) := by
    omega
  have ey : qy = (setBoundingBox s.vertices).2.1 +
      ((qy - (setBoundingBox s.vertices).2.1).toNat : Int) := by
    omega
  rw [draw_eq_drawRows,
    drawRows_err s _ _ _ (qy - (setBoundingBox s.vertices).2.1).toNat
      (qx - (setBoundingBox s.vertices).1).toNat _ img (by omega) (by omega)
      ⟨by rw [← ex, ← ey]; exact hc, by rw [← ex, ← ey]; exact hv⟩]
  · simp only [Prod.mk.injEq, true_and]
    apply paint_congr
    intro a b
    congr 1
    rw [Bool.eq_iff_iff]
    simp only [decide_eq_true_eq, inBox, rowMajorBefore]
    omega
  · intro j1 hj1 i1 hi1 hc1
    apply hfirst _ _ _ hc1
    · simp only [rowMajorBefore]; omega
    · simp only [inBox]; omega
  · intro i1 hi1 hc1
    apply hfirst _ _ _ hc1
    · simp only [rowMajorBefore]; omega
    · simp only [inBox]; omega

/-- Among the contained invalid points of a box there is a first one in
row-major order. -/
theorem exists_first_invalid (s : Shape) (img : Image) (box : Int × Int × Int × Int)
    (h : ∃ x y : Int, inBox box x y ∧ s._isPointInShape ⟨x, y⟩ = true ∧
      img.isPixelValid x y = false) :
    ∃ qx qy : Int, inBox box qx qy ∧ s._isPointInShape ⟨qx, qy⟩ = true ∧
      img.isPixelValid qx qy = false ∧
      ∀ x y : Int, inBox box x y → s._isPointInShape ⟨x, y⟩ = true →
        rowMajorBefore x y qx qy → img.isPixelValid x y = true := by
  classical
  obtain ⟨x0, y0, hb0, hc0, hv0⟩ := h
  have hP : ∃ j : Nat, ∃ x : Int, inBox box x (box.2.1 + j) ∧
      s._isPointInShape ⟨x, box.2.1 + j⟩ = true ∧ img.isPixelValid x (box.2.1 + j) = false := by
    refine ⟨(y0 - box.2.1).toNat, x0, ?_⟩
    have e : box.2.1 + ((y0 - box.2.1).toNat : Int) = y0 := by
      simp only [inBox] at hb0; omega
    rw [e]
    exact ⟨hb0, hc0, hv0⟩
  have hj := Nat.find_spec hP
  have hjmin := fun k => Nat.find_min hP (m := k)
  generalize Nat.find hP = j0 at hj hjmin
  obtain ⟨x1, hb1, hc1, hv1⟩ := hj
  have hQ : ∃ i : Nat, inBox box (box.1 + i) (box.2.1 + j0) ∧
      s._isPointInShape ⟨box.1 + i, box.2.1 + j0⟩ = true ∧
      img.isPixelValid (box.1 + i) (box.2.1 + j0) = false := by
    refine ⟨(x1 - box.1).toNat, ?_⟩
    have e : box.1 + ((x1 - box.1).toNat : Int) = x1 := by
      simp only [inBox] at hb1; omega
    rw [e]
    exact ⟨hb1, hc1, hv1⟩
  have hi := Nat.find_spec hQ
  have himin := fun k => Nat.find_min hQ (m := k)
  generalize Nat.find hQ = i0 at hi himin
  refine ⟨box.1 + i0, box.2.1 + j0, hi.1, hi.2.1, hi.2.2, ?_⟩
  intro x y hb hc hlt
  by_contra hv
  rw [Bool.not_eq_true] at hv
  simp only [rowMajorBefore] at hlt
  simp only [inBox] at hb
  rcases hlt with hlt | ⟨hy, hlt⟩
  · apply hjmin (y - box.2.1).toNat (by omega)
    have e : box.2.1 + ((y - box.2.1).toNat : Int) = y := by omega
    rw [e]
    exact ⟨x, hb, hc, hv⟩
  · apply himin (x - box.1).toNat (by omega)
    have e : box.1 + ((x - box.1).toNat : Int) = x := by omega
    rw [e, ← hy]
    exact ⟨hb, hc, hv⟩

/-- C3: when every contained point of the bounding box is a valid cell, `draw`
returns normally, keeps the dimensions, and the resulting grid holds the shape's
colour at exactly the cells of the bounding box that pass the containment test and
its previous value at every other cell. -/
theorem draw_succeeds_and_paints_contained (s : Shape) (img : Image)
    (h : ∀ x y : Int, inBox (setBoundingBox s.vertices) x y → s._isPointInShape ⟨x, y⟩ = true →
      img.isPixelValid x y = true) :
    (s.draw img).1 = .ok () ∧
      (s.draw img).2.width = img.width ∧ (s.draw img).2.height = img.height ∧
      ∀ x y : Int, (s.draw img).2.matrix y x =
        if inBox (setBoundingBox s.vertices) x y ∧ s._isPointInShape ⟨x, y⟩ = true
        then s.color else img.matrix y x := by
  rw [draw_ok_eq s img h]
  refine ⟨rfl, rfl, rfl, fun x y => ?_⟩
  simp only [paint, Bool.and_eq_true, decide_eq_true_eq]

/-- C4: `draw` throws exactly when some point of the bounding box that passes the
containment test is not a valid cell; and when `(qx, qy)` is the first such point
in row-major order, the grid is left with the colour written at the contained box
points that precede it and is otherwise unchanged. -/
theorem draw_fails_iff_and_keeps_partial_writes (s : Shape) (img : Image) :
    ((s.draw img).1 = .error .mk ↔
        ∃ x y : Int, inBox (setBoundingBox s.vertices) x y ∧ s._isPointInShape ⟨x, y⟩ = true ∧
          img.isPixelValid x y = false) ∧
      ∀ qx qy : Int, inBox (setBoundingBox s.vertices) qx qy →
        s._isPointInShape ⟨qx, qy⟩ = true → img.isPixelValid qx qy = false →
        (∀ x y : Int, inBox (setBoundingBox s.vertices) x y → s._isPointInShape ⟨x, y⟩ = true →
          rowMajorBefore x y qx qy → img.isPixelValid x y = true) →
        (s.draw img).1 = .error .mk ∧
          (s.draw img).2.width = img.width ∧ (s.draw img).2.height = img.height ∧
          ∀ x y : Int, (s.draw img).2.matrix y x =
            if inBox (setBoundingBox s.vertices) x y ∧ s._isPointInShape ⟨x, y⟩ = true ∧
                rowMajorBefore x y qx qy
            then s.color else img.matrix y x := by
  constructor
  · constructor
    · intro herr
      by_contra hne
      have hall : ∀ x y : Int, inBox (setBoundingBox s.vertices) x y →
          s._isPointInShape ⟨x, y⟩ = true → img.isPixelValid x y = true := by
        intro x y hb hc
        by_contra hv
        rw [Bool.not_eq_true] at hv
        exact hne ⟨x, y, hb, hc, hv⟩
      rw [draw_ok_eq s img hall] at herr
      cases herr
    · intro hex
      obtain ⟨qx, qy, hb, hc, hv, hfirst⟩ := exists_first_invalid s img _ hex
      rw [draw_err_eq s img qx qy hb hc hv hfirst]
  · intro qx qy hb hc hv hfirst
    rw [draw_err_eq s img qx qy hb hc hv hfirst]
    refine ⟨rfl, rfl, rfl, fun x y => ?_⟩
    simp only [paint, Bool.and_eq_true, decide_eq_true_eq]
    congr 1
    rw [eq_iff_iff]
    tauto

/-! ## The guards of the tracers -/

theorem getPixel_of_valid (img : Image) (x y : Int) (h : img.isPixelValid x y = true) :
    img.getPixel x y = .ok (img.matrix y x) := by
  simp only [Image.isPixelValid, Bool.and_eq_true, decide_eq_true_eq] at h
  have : ¬ (x < 0 ∨ x ≥ img.width ∨ y < 0 ∨ y ≥ img.height) := by omega
  simp only [Image.getPixel, this, if_false]

theorem getPixel_of_invalid (img : Image) (x y : Int) (h : img.isPixelValid x y = false) :
    img.getPixel x y = .error .mk := by
  have h1 : ¬ (img.isPixelValid x y = true) := by simp [h]
  simp only [Image.isPixelValid, Bool.and_eq_true, decide_eq_true_eq] at h1
  have : x < 0 ∨ x ≥ img.width ∨ y < 0 ∨ y ≥ img.height := by omega
  simp only [Image.getPixel, this, if_true]

/-- The guard of the rectangle tracer never throws. -/
theorem foregroundAt_eq (img : Image) (x y : Int) :
    foregroundAt img x y = .ok (isForeground img x y) := by
  unfold foregroundAt isForeground
  by_cases h : img.isPixelValid x y = true
  · rw [if_pos h, getPixel_of_valid img x y h, h]
    rfl
  · rw [if_neg h]
    rw [Bool.not_eq_true] at h
    rw [h]
    rfl

/-- The guard of the triangle tracer never throws. -/
theorem sameColorAt_eq (img : Image) (x y : Int) (color : Nat) :
    sameColorAt img x y color = .ok (hasColor img x y color) := by
  unfold sameColorAt hasColor
  by_cases h : img.isPixelValid x y = true
  · rw [if_pos h, getPixel_of_valid img x y h, h]
    rfl
  · rw [if_neg h]
    rw [Bool.not_eq_true] at h
    rw [h]
    rfl

theorem except_ok_bind {α β : Type} (a : α) (f : α → Except ImageDimException β) :
    (Except.ok a >>= f) = f a := rfl

/-! ## The iteration bounds are enough

Each `while` loop of the tracers, run on the bound its caller passes, satisfies the
equation of the source loop: test the guard, then either go on from the next
state (on the bound of that state) or leave with the current state. -/

theorem isForeground_of_width_le (img : Image) (x y : Int) (h : img.width ≤ x) :
    isForeground img x y = false := by
  have : img.isPixelValid x y = false := by
    rw [← Bool.not_eq_true]
    simp only [Image.isPixelValid, Bool.and_eq_true, decide_eq_true_eq]
    omega
  simp only [isForeground, this, Bool.false_and]

theorem isForeground_of_height_le (img : Image) (x y : Int) (h : img.height ≤ y) :
    isForeground img x y = false := by
  have : img.isPixelValid x y = false := by
    rw [← Bool.not_eq_true]
    simp only [Image.isPixelValid, Bool.and_eq_true, decide_eq_true_eq]
    omega
  simp only [isForeground, this, Bool.false_and]

theorem hasColor_of_not_valid (img : Image) (x y : Int) (color : Nat)
    (h : x < 0 ∨ img.width ≤ x ∨ y < 0 ∨ img.height ≤ y) : hasColor img x y color = false := by
  have : img.isPixelValid x y = false := by
    rw [← Bool.not_eq_true]
    simp only [Image.isPixelValid, Bool.and_eq_true, decide_eq_true_eq]
    omega
  simp only [hasColor, this, Bool.false_and]

theorem rectangleGoDiagonal_loop (img : Image) (x y : Int) :
    rectangleGoDiagonal img (img.width - x).toNat x y =
      (foregroundAt img x y >>= fun more =>
        if more then rectangleGoDiagonal img (img.width - (x + 1)).toNat (x + 1) (y + 1)
        else pure (x, y)) := by
  rcases hn : (img.width - x).toNat with _ | n
  · rw [foregroundAt_eq, isForeground_of_width_le img x y (by omega)]
    rfl
  · have e : (img.width - (x + 1)).toNat = n := by omega
    rw [e]
    rfl

theorem rectangleGoDown_loop (img : Image) (x y : Int) :
    rectangleGoDown img x (img.height - 1 - y).toNat y =
      (foregroundAt img x (y + 1) >>= fun more =>
        if more then rectangleGoDown img x (img.height - 1 - (y + 1)).toNat (y + 1)
        else pure (y + 1)) := by
  rcases hn : (img.height - 1 - y).toNat with _ | n
  · rw [foregroundAt_eq, isForeground_of_height_le img x (y + 1) (by omega)]
    rfl
  · have e : (img.height - 1 - (y + 1)).toNat = n := by omega
    rw [e]
    rfl

theorem rectangleGoRight_loop (img : Image) (x y : Int) :
    rectangleGoRight img y (img.width - 1 - x).toNat x =
      (foregroundAt img (x + 1) y >>= fun more =>
        if more then rectangleGoRight img y (img.width - 1 - (x + 1)).toNat (x + 1)
        else pure (x + 1)) := by
  rcases hn : (img.width - 1 - x).toNat with _ | n
  · rw [foregroundAt_eq, isForeground_of_width_le img (x + 1) y (by omega)]
    rfl
  · have e : (img.width - 1 - (x + 1)).toNat = n := by omega
    rw [e]
    rfl

theorem triangleDescend_loop (img : Image) (color : Nat) (x y : Int) :
    triangleDescend img color (img.height - 1 - y).toNat x y =
      (sameColorAt img (x - 1) (y + 1) color >>= fun left =>
        if left then triangleDescend img color (img.height - 1 - (y + 1)).toNat (x - 1) (y + 1)
        else sameColorAt img x (y + 1) color >>= fun down =>
          if down then triangleDescend img color (img.height - 1 - (y + 1)).toNat x (y + 1)
          else sameColorAt img (x + 1) (y + 1) color >>= fun right =>
            if right then
              triangleDescend img color (img.height - 1 - (y + 1)).toNat (x + 1) (y + 1)
            else pure (x, y)) := by
  rcases hn : (img.height - 1 - y).toNat with _ | n
  · simp only [sameColorAt_eq, except_ok_bind,
      hasColor_of_not_valid img (x - 1) (y + 1) color (by omega),
      hasColor_of_not_valid img x (y + 1) color (by omega),
      hasColor_of_not_valid img (x + 1) (y + 1) color (by omega)]
    rfl
  · have e : (img.height - 1 - (y + 1)).toNat = n := by omega
    rw [e]
    rfl

theorem triangleGoLeft_loop (img : Image) (color : Nat) (x y : Int) :
    triangleGoLeft img color y x.toNat x =
      (sameColorAt img (x - 1) y color >>= fun more =>
        if more then triangleGoLeft img color y (x - 1).toNat (x - 1) else pure x) := by
  rcases hn : x.toNat with _ | n
  · rw [sameColorAt_eq, hasColor_of_not_valid img (x - 1) y color (by omega)]
    rfl
  · have e : (x - 1).toNat = n := by omega
    rw [e]
    rfl

theorem triangleGoRight_loop (img : Image) (color : Nat) (x y : Int) :
    triangleGoRight img color y (img.width - 1 - x).toNat x =
      (sameColorAt img (x + 1) y color >>= fun more =>
        if more then triangleGoRight img color y (img.width - 1 - (x + 1)).toNat (x + 1)
        else pure x) := by
  rcases hn : (img.width - 1 - x).toNat with _ | n
  · rw [sameColorAt_eq, hasColor_of_not_valid img (x + 1) y color (by omega)]
    rfl
  · have e : (img.width - 1 - (x + 1)).toNat = n := by omega
    rw [e]
    rfl

/-! ## The rectangle tracer on a solid box -/

theorem rectangleGoDiagonal_run (img : Image) (k n : Nat) (x y : Int) (hk : k ≤ n)
    (hfg : ∀ i : Nat, i < k → isForeground img (x + i) (y + i) = true)
    (hstop : isForeground img (x + k) (y + k) = false) :
    rectangleGoDiagonal img n x y = .ok (x + k, y + k) := by
  induction k generalizing n x y with
  | zero =>
    simp only [Nat.cast_zero, add_zero] at hstop ⊢
    cases n with
    | zero => rfl
    | succ n =>
      simp only [rectangleGoDiagonal, foregroundAt_eq, except_ok_bind, hstop]
      rfl
  | succ k ih =>
    obtain ⟨n, rfl⟩ : ∃ n1, n = n1 + 1 := ⟨n - 1, by omega⟩
    have h0 : isForeground img x y = true := by simpa using hfg 0 (by omega)
    simp only [rectangleGoDiagonal, foregroundAt_eq, except_ok_bind, h0, if_true]
    rw [ih n (x + 1) (y + 1) (by omega)]
    · congr 2 <;> (push_cast; ring)
    · intro i hi
      have := hfg (i + 1) (by omega)
      rw [← this]; congr 1 <;> (push_cast; ring)
    · rw [← hstop]; congr 1 <;> (push_cast; ring)

theorem rectangleGoDown_run (img : Image) (x : Int) (k n : Nat) (y : Int) (hk : k ≤ n)
    (hfg : ∀ i : Nat, i < k → isForeground img x (y + 1 + i) = true)
    (hstop : isForeground img x (y + 1 + k) = false) :
    rectangleGoDown img x n y = .ok (y + 1 + k) := by
  induction k generalizing n y with
  | zero =>
    simp only [Nat.cast_zero, add_zero] at hstop ⊢
    cases n with
    | zero => rfl
    | succ n =>
      simp only [rectangleGoDown, foregroundAt_eq, except_ok_bind, hstop]
      rfl
  | succ k ih =>
    obtain ⟨n, rfl⟩ : ∃ n1, n = n1 + 1 := ⟨n - 1, by omega⟩
    have h0 : isForeground img x (y + 1) = true := by simpa using hfg 0 (by omega)
    simp only [rectangleGoDown, foregroundAt_eq, except_ok_bind, h0, if_true]
    rw [ih n (y + 1) (by omega)]
    · congr 1; push_cast; ring
    · intro i hi
      have := hfg (i + 1) (by omega)
      rw [← this]; congr 1; push_cast; ring
    · rw [← hstop]; congr 1; push_cast; ring

theorem rectangleGoRight_run (img : Image) (y : Int) (k n : Nat) (x : Int) (hk : k ≤ n)
    (hfg : ∀ i : Nat, i < k → isForeground img (x + 1 + i) y = true)
    (hstop : isForeground img (x + 1 + k) y = false) :
    rectangleGoRight img y n x = .ok (x + 1 + k) := by
  induction k generalizing n x with
  | zero =>
    simp only [Nat.cast_zero, add_zero] at hstop ⊢
    cases n with
    | zero => rfl
    | succ n =>
      simp only [rectangleGoRight, foregroundAt_eq, except_ok_bind, hstop]
      rfl
  | succ k ih =>
    obtain ⟨n, rfl⟩ : ∃ n1, n = n1 + 1 := ⟨n - 1, by omega⟩
    have h0 : isForeground img (x + 1) y = true := by simpa using hfg 0 (by omega)
    simp only [rectangleGoRight, foregroundAt_eq, except_ok_bind, h0, if_true]
    rw [ih n (x + 1) (by omega)]
    · congr 1; push_cast; ring
    · intro i hi
      have := hfg (i + 1) (by omega)
      rw [← this]; congr 1; push_cast; ring
    · rw [← hstop]; congr 1; push_cast; ring

/-- The corner found by `setBottomRightRectangleCorner` on a solid box of width
`w + 1` and height `h + 1` whose right and lower neighbours are not foreground. -/
theorem setBottomRightRectangleCorner_of_box (img : Image) (x0 y0 : Int) (w h : Nat)
    (hwid : x0 + w < img.width)
    (hhei : y0 + h < img.height)
    (hfg : ∀ i j : Nat, i ≤ w → j ≤ h → isForeground img (x0 + i) (y0 + j) = true)
    (hright : ∀ j : Nat, j ≤ h + 1 → isForeground img (x0 + w + 1) (y0 + j) = false)
    (hbelow : ∀ i : Nat, i ≤ w + 1 → isForeground img (x0 + i) (y0 + h + 1) = false) :
    setBottomRightRectangleCorner img ⟨x0, y0⟩ = .ok ⟨x0 + w, y0 + h⟩ := by
  have hcell : ∀ x y : Int, x0 ≤ x → x ≤ x0 + w → y0 ≤ y → y ≤ y0 + h →
      isForeground img x y = true := by
    intro x y h1 h2 h3 h4
    have := hfg (x - x0).toNat (y - y0).toNat (by omega) (by omega)
    rw [← this]; congr 1 <;> omega
  have hr : ∀ y : Int, y0 ≤ y → y ≤ y0 + h + 1 → isForeground img (x0 + w + 1) y = false := by
    intro y h1 h2
    have := hright (y - y0).toNat (by omega)
    rw [← this]; congr 1; omega
  have hb : ∀ x : Int, x0 ≤ x → x ≤ x0 + w + 1 → isForeground img x (y0 + h + 1) = false := by
    intro x h1 h2
    have := hbelow (x - x0).toNat (by omega)
    rw [← this]; congr 1; omega
  unfold setBottomRightRectangleCorner
  simp only
  rcases lt_trichotomy w h with hlt | heq | hgt
  · -- the box is taller than wide: the diagonal leaves through the right side
    rw [rectangleGoDiagonal_run img w _ (x0 + 1) (y0 + 1) (by omega)
      (fun i hi => hcell _ _ (by omega) (by omega) (by omega) (by omega))
      (by
        have := hr (y0 + 1 + w) (by omega) (by omega)
        rw [← this]; congr 1; ring)]
    simp only [except_ok_bind, foregroundAt_eq]
    have h1 : isForeground img (x0 + 1 + w - 1) (y0 + 1 + w) = true :=
      hcell _ _ (by omega) (by omega) (by omega) (by omega)
    rw [h1]
    simp only [if_true]
    rw [rectangleGoDown_run img (x0 + 1 + w - 1) (h - w - 1) _ (y0 + 1 + w) (by omega)
      (fun i hi => hcell _ _ (by omega) (by omega) (by omega) (by omega))
      (by
        have := hb (x0 + 1 + w - 1) (by omega) (by omega)
        rw [← this]; congr 1; omega)]
    simp only [except_ok_bind, pure, Except.pure]
    congr 2 <;> omega
  · -- the box is square: the diagonal leaves through the corner
    subst heq
    rw [rectangleGoDiagonal_run img w _ (x0 + 1) (y0 + 1) (by omega)
      (fun i hi => hcell _ _ (by omega) (by omega) (by omega) (by omega))
      (by
        have := hr (y0 + 1 + w) (by omega) (by omega)
        rw [← this]; congr 1; ring)]
    simp only [except_ok_bind, foregroundAt_eq]
    have h1 : isForeground img (x0 + 1 + w - 1) (y0 + 1 + w) = false := by
      have := hb (x0 + 1 + w - 1) (by omega) (by omega)
      rw [← this]; congr 1; ring
    have h2 : isForeground img (x0 + 1 + w) (y0 + 1 + w - 1) = false := by
      have := hr (y0 + 1 + w - 1) (by omega) (by omega)
      rw [← this]; congr 1; ring
    rw [h1]
    simp only [Bool.false_eq_true, if_false, except_ok_bind, h2, pure, Except.pure]
    congr 2 <;> omega
  · -- the box is wider than tall: the diagonal leaves through the lower side
    rw [rectangleGoDiagonal_run img h _ (x0 + 1) (y0 + 1) (by omega)
      (fun i hi => hcell _ _ (by omega) (by omega) (by omega) (by omega))
      (by
        have := hb (x0 + 1 + h) (by omega) (by omega)
        rw [← this]; congr 1; ring)]
    simp only [except_ok_bind, foregroundAt_eq]
    have h1 : isForeground img (x0 + 1 + h - 1) (y0 + 1 + h) = false := by
      have := hb (x0 + 1 + h - 1) (by omega) (by omega)
      rw [← this]; congr 1; ring
    have h2 : isForeground img (x0 + 1 + h) (y0 + 1 + h - 1) = true :=
      hcell _ _ (by omega) (by omega) (by omega) (by omega)
    rw [h1]
    simp only [Bool.false_eq_true, if_false, except_ok_bind, h2, if_true]
    rw [rectangleGoRight_run img (y0 + 1 + h - 1) (w - h - 1) _ (x0 + 1 + h) (by omega)
      (fun i hi => hcell _ _ (by omega) (by omega) (by omega) (by omega))
      (by
        have := hr (y0 + 1 + h - 1) (by omega) (by omega)
        rw [← this]; congr 1; omega)]
    simp only [except_ok_bind, pure, Except.pure]
    congr 2 <;> omega

/-- C5: on a box of foreground cells inside the grid whose neighbours in the
column right of it and in the row below it are background or outside the grid,
`recognizeRectangle` from the top-left cell returns the rectangle with the four
corners of the box and the colour of the top-left cell; and after drawing
Rectangle((1,1),(3,2),70) on a blank 6x6 grid, tracing from (1,1) returns the
rectangle (1,1)-(3,2) of colour 70. -/
theorem recognizeRectangle_of_solid_box (img : Image) (x0 y0 x1 y1 : Int)
    (hx : x0 ≤ x1) (hy : y0 ≤ y1)
    (hin : 0 ≤ x0 ∧ x1 < img.width ∧ 0 ≤ y0 ∧ y1 < img.height)
    (hfg : ∀ x y : Int, x0 ≤ x → x ≤ x1 → y0 ≤ y → y ≤ y1 → img.matrix y x ≠ BACKGROUND)
    (hright : ∀ y : Int, y0 ≤ y → y ≤ y1 + 1 → img.isPixelValid (x1 + 1) y = true →
      img.matrix y (x1 + 1) = BACKGROUND)
    (hbelow : ∀ x : Int, x0 ≤ x → x ≤ x1 + 1 → img.isPixelValid x (y1 + 1) = true →
      img.matrix (y1 + 1) x = BACKGROUND) :
    Rectangle.recognizeRectangle img ⟨x0, y0⟩ =
        .ok (Rectangle.mk4 ⟨x0, y0⟩ ⟨x1, y0⟩ ⟨x1, y1⟩ ⟨x0, y1⟩ (img.matrix y0 x0)) ∧
      Rectangle.recognizeRectangle rect1Image ⟨1, 1⟩ =
        .ok (Rectangle.mk2 ⟨1, 1⟩ ⟨3, 2⟩ 70) := by
  refine ⟨?_, by decide⟩
  obtain ⟨w, rfl⟩ : ∃ w : Nat, x1 = x0 + w := ⟨(x1 - x0).toNat, by omega⟩
  obtain ⟨h, rfl⟩ : ∃ h : Nat, y1 = y0 + h := ⟨(y1 - y0).toNat, by omega⟩
  have hval : ∀ x y : Int, x0 ≤ x → x ≤ x0 + w → y0 ≤ y → y ≤ y0 + h →
      img.isPixelValid x y = true := by
    intro x y h1 h2 h3 h4
    simp only [Image.isPixelValid, Bool.and_eq_true, decide_eq_true_eq]
    omega
  have hcorner := setBottomRightRectangleCorner_of_box img x0 y0 w h hin.2.1 hin.2.2.2
    (fun i j hi hj => by
      have hv := hval (x0 + i) (y0 + j) (by omega) (by omega) (by omega) (by omega)
      have hc := hfg (x0 + i) (y0 + j) (by omega) (by omega) (by omega) (by omega)
      simp only [isForeground, hv, Bool.true_and, bne_iff_ne, ne_eq]
      exact hc)
    (fun j hj => by
      by_cases hv : img.isPixelValid (x0 + w + 1) (y0 + j) = true
      · have hc := hright (y0 + j) (by omega) (by omega) hv
        simp only [isForeground, hv, hc, Bool.true_and, bne_self_eq_false]
      · rw [Bool.not_eq_true] at hv
        simp only [isForeground, hv, Bool.false_and])
    (fun i hi => by
      by_cases hv : img.isPixelValid (x0 + i) (y0 + h + 1) = true
      · have hc := hbelow (x0 + i) (by omega) (by omega) hv
        simp only [isForeground, hv, hc, Bool.true_and, bne_self_eq_false]
      · rw [Bool.not_eq_true] at hv
        simp only [isForeground, hv, Bool.false_and])
  unfold Rectangle.recognizeRectangle
  rw [getPixel_of_valid img x0 y0 (hval x0 y0 (by omega) (by omega) (by omega) (by omega)),
    hcorner]
  rfl

/-! ## The tracers return normally -/

theorem triangleDescend_ok (img : Image) (color : Nat) (n : Nat) (x y : Int) :
    ∃ r, triangleDescend img color n x y = .ok r := by
  induction n generalizing x y with
  | zero => exact ⟨(x, y), rfl⟩
  | succ n ih =>
    simp only [triangleDescend, sameColorAt_eq, except_ok_bind]
    by_cases h1 : hasColor img (x - 1) (y + 1) color = true
    · rw [if_pos h1]; exact ih _ _
    · rw [if_neg h1]
      by_cases h2 : hasColor img x (y + 1) color = true
      · rw [if_pos h2]; exact ih _ _
      · rw [if_neg h2]
        by_cases h3 : hasColor img (x + 1) (y + 1) color = true
        · rw [if_pos h3]; exact ih _ _
        · rw [if_neg h3]; exact ⟨(x, y), rfl⟩

theorem triangleGoLeft_ok (img : Image) (color : Nat) (y : Int) (n : Nat) (x : Int) :
    ∃ r, triangleGoLeft img color y n x = .ok r := by
  induction n generalizing x with
  | zero => exact ⟨x, rfl⟩
  | succ n ih =>
    simp only [triangleGoLeft, sameColorAt_eq, except_ok_bind]
    by_cases h1 : hasColor img (x - 1) y color = true
    · rw [if_pos h1]; exact ih _
    · rw [if_neg h1]; exact ⟨x, rfl⟩

theorem triangleGoRight_ok (img : Image) (color : Nat) (y : Int) (n : Nat) (x : Int) :
    ∃ r, triangleGoRight img color y n x = .ok r := by
  induction n generalizing x with
  | zero => exact ⟨x, rfl⟩
  | succ n ih =>
    simp only [triangleGoRight, sameColorAt_eq, except_ok_bind]
    by_cases h1 : hasColor img (x + 1) y color = true
    · rw [if_pos h1]; exact ih _
    · rw [if_neg h1]; exact ⟨x, rfl⟩

theorem setTriangleBottomLeft_ok (img : Image) (topLeft : Vector2) (color : Nat) :
    ∃ r, setTriangleBottomLeft img topLeft color = .ok r := by
  unfold setTriangleBottomLeft
  obtain ⟨⟨x, y⟩, h1⟩ := triangleDescend_ok img color (img.height - 1 - topLeft.y).toNat
    topLeft.x topLeft.y
  obtain ⟨x2, h2⟩ := triangleGoLeft_ok img color y x.toNat x
  rw [h1]
  simp only [except_ok_bind, h2]
  exact ⟨_, rfl⟩

theorem getTriangleHorizontalLength_ok (img : Image) (leftPoint : Vector2) (color : Nat) :
    ∃ r, getTriangleHorizontalLength img leftPoint color = .ok r := by
  unfold getTriangleHorizontalLength
  obtain ⟨x, h1⟩ := triangleGoRight_ok img color leftPoint.y
    (img.width - 1 - leftPoint.x).toNat leftPoint.x
  rw [h1]
  exact ⟨_, rfl⟩

/-- From a valid seed, `recognizeTriangle` returns a triangle. -/
theorem recognizeTriangle_ok (img : Image) (topLeft : Vector2)
    (hv : img.isPixelValid topLeft.x topLeft.y = true) :
    ∃ t, Triangle.recognizeTriangle img topLeft = .ok t := by
  unfold Triangle.recognizeTriangle
  rw [getPixel_of_valid img _ _ hv]
  simp only [except_ok_bind]
  obtain ⟨bl, h1⟩ := setTriangleBottomLeft_ok img topLeft (img.matrix topLeft.y topLeft.x)
  obtain ⟨tl, h2⟩ := getTriangleHorizontalLength_ok img topLeft (img.matrix topLeft.y topLeft.x)
  obtain ⟨bn, h3⟩ := getTriangleHorizontalLength_ok img bl (img.matrix topLeft.y topLeft.x)
  rw [h1]
  simp only [except_ok_bind, h2, h3]
  by_cases hlt : tl > bn
  · rw [if_pos hlt]; exact ⟨_, rfl⟩
  · rw [if_neg hlt]; exact ⟨_, rfl⟩

theorem isPixelValid_of_isForeground (img : Image) (x y : Int)
    (h : isForeground img x y = true) : img.isPixelValid x y = true := by
  simp only [isForeground, Bool.and_eq_true] at h
  exact h.1

theorem rectangleGoDiagonal_spec (img : Image) (n : Nat) (x y : Int)
    (hv : img.isPixelValid (x - 1) (y - 1) = true) :
    ∃ x1 y1, rectangleGoDiagonal img n x y = .ok (x1, y1) ∧ x ≤ x1 ∧ y ≤ y1 ∧
      img.isPixelValid (x1 - 1) (y1 - 1) = true := by
  induction n generalizing x y with
  | zero => exact ⟨x, y, rfl, le_rfl, le_rfl, hv⟩
  | succ n ih =>
    simp only [rectangleGoDiagonal, foregroundAt_eq, except_ok_bind]
    by_cases h1 : isForeground img x y = true
    · rw [if_pos h1]
      obtain ⟨x1, y1, e, hx, hy, hv1⟩ := ih (x + 1) (y + 1) (by
        have := isPixelValid_of_isForeground img x y h1
        rw [← this]; congr 1 <;> ring)
      exact ⟨x1, y1, e, by omega, by omega, hv1⟩
    · rw [if_neg h1]
      exact ⟨x, y, rfl, le_rfl, le_rfl, hv⟩

theorem rectangleGoDown_spec (img : Image) (x : Int) (n : Nat) (y : Int)
    (hv : img.isPixelValid x y = true) :
    ∃ y1, rectangleGoDown img x n y = .ok y1 ∧ y + 1 ≤ y1 ∧
      img.isPixelValid x (y1 - 1) = true := by
  induction n generalizing y with
  | zero =>
    refine ⟨y + 1, rfl, le_rfl, ?_⟩
    rw [← hv]; congr 1; ring
  | succ n ih =>
    simp only [rectangleGoDown, foregroundAt_eq, except_ok_bind]
    by_cases h1 : isForeground img x (y + 1) = true
    · rw [if_pos h1]
      obtain ⟨y1, e, hy, hv1⟩ := ih (y + 1) (isPixelValid_of_isForeground img _ _ h1)
      exact ⟨y1, e, by omega, hv1⟩
    · rw [if_neg h1]
      refine ⟨y + 1, rfl, le_rfl, ?_⟩
      rw [← hv]; congr 1; ring

theorem rectangleGoRight_spec (img : Image) (y : Int) (n : Nat) (x : Int)
    (hv : img.isPixelValid x y = true) :
    ∃ x1, rectangleGoRight img y n x = .ok x1 ∧ x + 1 ≤ x1 ∧
      img.isPixelValid (x1 - 1) y = true := by
  induction n generalizing x with
  | zero =>
    refine ⟨x + 1, rfl, le_rfl, ?_⟩
    rw [← hv]; congr 1; ring
  | succ n ih =>
    simp only [rectangleGoRight, foregroundAt_eq, except_ok_bind]
    by_cases h1 : isForeground img (x + 1) y = true
    · rw [if_pos h1]
      obtain ⟨x1, e, hx, hv1⟩ := ih (x + 1) (isPixelValid_of_isForeground img _ _ h1)
      exact ⟨x1, e, by omega, hv1⟩
    · rw [if_neg h1]
      refine ⟨x + 1, rfl, le_rfl, ?_⟩
      rw [← hv]; congr 1; ring

/-- From a valid start, `setBottomRightRectangleCorner` returns a valid cell that is
neither left of nor above the start. -/
theorem setBottomRightRectangleCorner_spec (img : Image) (start : Vector2)
    (hv : img.isPixelValid start.x start.y = true) :
    ∃ br : Vector2, setBottomRightRectangleCorner img start = .ok br ∧
      start.x ≤ br.x ∧ start.y ≤ br.y ∧ img.isPixelValid br.x br.y = true := by
  unfold setBottomRightRectangleCorner
  obtain ⟨x, y, e, hx, hy, hv1⟩ := rectangleGoDiagonal_spec img
    (img.width - (start.x + 1)).toNat (start.x + 1) (start.y + 1) (by
      rw [← hv]; congr 1 <;> ring)
  rw [e]
  simp only [except_ok_bind, foregroundAt_eq]
  by_cases h1 : isForeground img (x - 1) y = true
  · rw [if_pos h1]
    obtain ⟨y1, e1, hy1, hv2⟩ := rectangleGoDown_spec img (x - 1) (img.height - 1 - y).toNat y
      (isPixelValid_of_isForeground img _ _ h1)
    rw [e1]
    exact ⟨⟨x - 1, y1 - 1⟩, rfl, by simp only; omega, by simp only; omega, hv2⟩
  · rw [if_neg h1]
    by_cases h2 : isForeground img x (y - 1) = true
    · rw [if_pos h2]
      obtain ⟨x1, e1, hx1, hv2⟩ := rectangleGoRight_spec img (y - 1) (img.width - 1 - x).toNat x
        (isPixelValid_of_isForeground img _ _ h2)
      rw [e1]
      exact ⟨⟨x1 - 1, y - 1⟩, rfl, by simp only; omega, by simp only; omega, hv2⟩
    · rw [if_neg h2]
      exact ⟨⟨x - 1, y - 1⟩, rfl, by simp only; omega, by simp only; omega, hv1⟩

/-! ## Combined recognition -/

/-- The scan of one row: it returns the first cell of the row segment whose colour
differs, or nothing when every cell of the segment has the colour. -/
theorem findOtherColorInRow_spec (img : Image) (color : Nat) (y : Int) (n : Nat) (x : Int)
    (hv : ∀ i : Nat, i < n → img.isPixelValid (x + i) y = true) :
    (∃ k : Nat, k < n ∧ findOtherColorInRow img color y n x = .ok (some ⟨x + k, y⟩) ∧
        img.matrix y (x + k) ≠ color ∧ ∀ i : Nat, i < k → img.matrix y (x + i) = color) ∨
      (findOtherColorInRow img color y n x = .ok none ∧
        ∀ i : Nat, i < n → img.matrix y (x + i) = color) := by
  induction n generalizing x with
  | zero => exact Or.inr ⟨rfl, fun i hi => by omega⟩
  | succ n ih =>
    have hv0 : img.isPixelValid x y = true := by simpa using hv 0 (by omega)
    simp only [findOtherColorInRow, getPixel_of_valid img x y hv0, except_ok_bind]
    by_cases hc : img.matrix y x = color
    · have hb : (img.matrix y x != color) = false := by simp [hc]
      simp only [hb, Bool.false_eq_true, if_false]
      have hv1 : ∀ i : Nat, i < n → img.isPixelValid (x + 1 + i) y = true := by
        intro i hi
        have := hv (i + 1) (by omega)
        rw [← this]; congr 1; push_cast; ring
      rcases ih (x + 1) hv1 with ⟨k, hk, e, hne, hsame⟩ | ⟨e, hsame⟩
      · refine Or.inl ⟨k + 1, by omega, ?_, ?_, ?_⟩
        · rw [e]; congr 3; push_cast; ring
        · rw [show x + ((k + 1 : Nat) : Int) = x + 1 + k by push_cast; ring]; exact hne
        · intro i hi
          rcases Nat.eq_zero_or_pos i with h0 | hpos
          · subst h0; simpa using hc
          · have := hsame (i - 1) (by omega)
            rw [← this]; congr 1; omega
      · refine Or.inr ⟨e, ?_⟩
        intro i hi
        rcases Nat.eq_zero_or_pos i with h0 | hpos
        · subst h0; simpa using hc
        · have := hsame (i - 1) (by omega)
          rw [← this]; congr 1; omega
    · have hb : (img.matrix y x != color) = true := by simp [hc]
      simp only [hb, if_true]
      refine Or.inl ⟨0, by omega, ?_, ?_, fun i hi => by omega⟩
      · simp only [Nat.cast_zero, add_zero]; rfl
      · simpa using hc

/-- The scan of the box: it returns the first cell in row-major order whose colour
differs, or nothing when every cell of the box has the colour. -/
theorem findOtherColor_spec (img : Image) (color : Nat) (minX : Int) (cols m : Nat) (y : Int)
    (hv : ∀ j : Nat, j < m → ∀ i : Nat, i < cols → img.isPixelValid (minX + i) (y + j) = true) :
    (∃ j : Nat, j < m ∧ ∃ i : Nat, i < cols ∧
        findOtherColor img color minX cols m y = .ok (some ⟨minX + i, y + j⟩) ∧
        img.matrix (y + j) (minX + i) ≠ color ∧
        (∀ j1 : Nat, j1 < j → ∀ i1 : Nat, i1 < cols → img.matrix (y + j1) (minX + i1) = color) ∧
        ∀ i1 : Nat, i1 < i → img.matrix (y + j) (minX + i1) = color) ∨
      (findOtherColor img color minX cols m y = .ok none ∧
        ∀ j : Nat, j < m → ∀ i : Nat, i < cols → img.matrix (y + j) (minX + i) = color) := by
  induction m generalizing y with
  | zero => exact Or.inr ⟨rfl, fun j hj => by omega⟩
  | succ m ih =>
    have hv0 : ∀ i : Nat, i < cols → img.isPixelValid (minX + i) y = true := by
      intro i hi
      simpa using hv 0 (by omega) i hi
    simp only [findOtherColor]
    rcases findOtherColorInRow_spec img color y cols minX hv0 with
      ⟨k, hk, e, hne, hsame⟩ | ⟨e, hsame⟩
    · rw [e]
      simp only [except_ok_bind]
      refine Or.inl ⟨0, by omega, k, hk, ?_, ?_, fun j1 hj1 => by omega, ?_⟩
      · simp only [Nat.cast_zero, add_zero]; rfl
      · simpa using hne
      · simpa using hsame
    · rw [e]
      simp only [except_ok_bind]
      have hv1 : ∀ j : Nat, j < m → ∀ i : Nat, i < cols →
          img.isPixelValid (minX + i) (y + 1 + j) = true := by
        intro j hj i hi
        have := hv (j + 1) (by omega) i hi
        rw [← this]; congr 1; push_cast; ring
      rcases ih (y + 1) hv1 with ⟨j, hj, i, hi, e1, hne, hrows, hrow⟩ | ⟨e1, hall⟩
      · have ey : y + 1 + (j : Int) = y + ((j + 1 : Nat) : Int) := by push_cast; ring
        refine Or.inl ⟨j + 1, by omega, i, hi, ?_, ?_, ?_, ?_⟩
        · rw [e1, ey]
        · rw [← ey]; exact hne
        · intro j1 hj1 i1 hi1
          rcases Nat.eq_zero_or_pos j1 with h0 | hpos
          · subst h0; simpa using hsame i1 hi1
          · have := hrows (j1 - 1) (by omega) i1 hi1
            rw [← this]; congr 1; omega
        · intro i1 hi1
          rw [← ey]; exact hrow i1 hi1
      · refine Or.inr ⟨e1, ?_⟩
        intro j hj i hi
        rcases Nat.eq_zero_or_pos j with h0 | hpos
        · subst h0; simpa using hsame i hi
        · have := hall (j - 1) (by omega) i hi
          rw [← this]; congr 1; omega

/-- C10: from a valid seed, `recognizeRectangleWithTriangle` returns the rectangle
that `recognizeRectangle` returns; it reports a triangle exactly when some cell of
the box from the seed to the bottom-right corner has a colour different from the
seed's; and the triangle it reports is `recognizeTriangle` applied to the first
such cell in row-major order of the box. -/
theorem recognizeRectangleWithTriangle_spec (img : Image) (topLeft : Vector2)
    (hv : img.isPixelValid topLeft.x topLeft.y = true) :
    ∃ (bottomRight : Vector2) (rect : Shape) (found : Option Shape),
      setBottomRightRectangleCorner img topLeft = .ok bottomRight ∧
      Rectangle.recognizeRectangle img topLeft = .ok rect ∧
      Rectangle.recognizeRectangleWithTriangle img topLeft = .ok (rect, found) ∧
      (found.isSome = true ↔
        ∃ x y : Int, inBox (topLeft.x, topLeft.y, bottomRight.x, bottomRight.y) x y ∧
          img.matrix y x ≠ img.matrix topLeft.y topLeft.x) ∧
      ∀ qx qy : Int, inBox (topLeft.x, topLeft.y, bottomRight.x, bottomRight.y) qx qy →
        img.matrix qy qx ≠ img.matrix topLeft.y topLeft.x →
        (∀ x y : Int, inBox (topLeft.x, topLeft.y, bottomRight.x, bottomRight.y) x y →
          rowMajorBefore x y qx qy → img.matrix y x = img.matrix topLeft.y topLeft.x) →
        ∃ t : Shape, Triangle.recognizeTriangle img ⟨qx, qy⟩ = .ok t ∧ found = some t := by
  obtain ⟨br, ebr, hx, hy, hvbr⟩ := setBottomRightRectangleCorner_spec img topLeft hv
  have hrect : Rectangle.recognizeRectangle img topLeft =
      .ok (Rectangle.mk2 topLeft br (img.matrix topLeft.y topLeft.x)) := by
    unfold Rectangle.recognizeRectangle
    rw [getPixel_of_valid img _ _ hv, ebr]
    rfl
  have hvalid : ∀ x y : Int, topLeft.x ≤ x → x ≤ br.x → topLeft.y ≤ y → y ≤ br.y →
      img.isPixelValid x y = true := by
    intro x y h1 h2 h3 h4
    simp only [Image.isPixelValid, Bool.and_eq_true, decide_eq_true_eq] at hv hvbr ⊢
    omega
  have hscan := findOtherColor_spec img (img.matrix topLeft.y topLeft.x) topLeft.x
    (br.x + 1 - topLeft.x).toNat (br.y + 1 - topLeft.y).toNat topLeft.y
    (fun j hj i hi => hvalid _ _ (by omega) (by omega) (by omega) (by omega))
  have hunfold : Rectangle.recognizeRectangleWithTriangle img topLeft =
      (findOtherColor img (img.matrix topLeft.y topLeft.x) topLeft.x
          (br.x + 1 - topLeft.x).toNat (br.y + 1 - topLeft.y).toNat topLeft.y >>= fun found =>
        match found with
        | some p =>
          Triangle.recognizeTriangle img p >>= fun innerTriangle =>
            pure (Rectangle.mk2 topLeft br (img.matrix topLeft.y topLeft.x), some innerTriangle)
        | none => pure (Rectangle.mk2 topLeft br (img.matrix topLeft.y topLeft.x), none)) := by
    unfold Rectangle.recognizeRectangleWithTriangle
    rw [getPixel_of_valid img _ _ hv, ebr]
    rfl
  rcases hscan with ⟨j, hj, i, hi, e, hne, hrows, hrow⟩ | ⟨e, hall⟩
  · -- the scan stops at a cell of another colour
    have hqv : img.isPixelValid (topLeft.x + i) (topLeft.y + j) = true :=
      hvalid _ _ (by omega) (by omega) (by omega) (by omega)
    obtain ⟨t, ht⟩ := recognizeTriangle_ok img ⟨topLeft.x + i, topLeft.y + j⟩ hqv
    refine ⟨br, _, some t, ebr, hrect, ?_, ?_, ?_⟩
    · rw [hunfold, e]
      simp only [except_ok_bind, ht]
      rfl
    · simp only [Option.isSome_some, true_iff]
      refine ⟨topLeft.x + i, topLeft.y + j, ?_, hne⟩
      simp only [inBox]
      omega
    · intro qx qy hq hqne hfirst
      simp only [inBox] at hq
      have hxy : qx = topLeft.x + i ∧ qy = topLeft.y + j := by
        by_contra hcon
        rcases lt_trichotomy qy (topLeft.y + j) with h1 | h1 | h1
        · have := hrows (qy - topLeft.y).toNat (by omega) (qx - topLeft.x).toNat (by omega)
          apply hqne
          rw [← this]; congr 1 <;> omega
        · rcases lt_trichotomy qx (topLeft.x + i) with h2 | h2 | h2
          · have := hrow (qx - topLeft.x).toNat (by omega)
            apply hqne
            rw [← this]; congr 1; omega
          · exact hcon ⟨h2, h1⟩
          · apply hne
            apply hfirst
            · simp only [inBox]; omega
            · simp only [rowMajorBefore]; omega
        · apply hne
          apply hfirst
          · simp only [inBox]; omega
          · simp only [rowMajorBefore]; omega
      obtain ⟨rfl, rfl⟩ := hxy
      exact ⟨t, ht, rfl⟩
  · -- every cell of the box has the colour of the seed
    have hsame : ∀ x y : Int, inBox (topLeft.x, topLeft.y, br.x, br.y) x y →
        img.matrix y x = img.matrix topLeft.y topLeft.x := by
      intro x y hb
      simp only [inBox] at hb
      have := hall (y - topLeft.y).toNat (by omega) (x - topLeft.x).toNat (by omega)
      rw [← this]; congr 1 <;> omega
    refine ⟨br, _, none, ebr, hrect, ?_, ?_, ?_⟩
    · rw [hunfold, e]
      rfl
    · simp only [Option.isSome_none, Bool.false_eq_true, false_iff, not_exists, not_and,
        not_not]
      exact hsame
    · intro qx qy hq hqne _
      exact absurd (hsame qx qy hq) hqne

/-! ## What the triangle tracer computes, and the demo -/

/-- The two branches of `recognizeTriangle`, from the values of its four calls. -/
theorem recognizeTriangle_eq (img : Image) (topLeft bottomLeft : Vector2) (color : Nat)
    (topLength bottomLength : Int)
    (hc : img.getPixel topLeft.x topLeft.y = .ok color)
    (hbl : setTriangleBottomLeft img topLeft color = .ok bottomLeft)
    (htop : getTriangleHorizontalLength img topLeft color = .ok topLength)
    (hbot : getTriangleHorizontalLength img bottomLeft color = .ok bottomLength) :
    Triangle.recognizeTriangle img topLeft =
      .ok (if topLength > bottomLength then
          Triangle.mk3 topLeft ⟨topLeft.x + topLength, topLeft.y⟩
            ⟨bottomLeft.x + Int.tdiv bottomLength 2, topLeft.y⟩ color
        else
          Triangle.mk3 ⟨topLeft.x + Int.tdiv bottomLength 2, topLeft.y⟩
            ⟨bottomLeft.x + bottomLength, bottomLeft.y⟩ bottomLeft color) := by
  unfold Triangle.recognizeTriangle
  rw [hc]
  simp only [except_ok_bind, hbl, htop, hbot]
  by_cases h : topLength > bottomLength
  · rw [if_pos h, if_pos h]; rfl
  · rw [if_neg h, if_neg h]; rfl

/-- C6 (the code at the demo input): on the demo image with the triangle, the
combined extraction returns `rect2`, `rect1` and a triangle with vertices
(3,1),(3,2),(1,2), which is no rotation of the drawn (2,1),(3,2),(1,2). -/
theorem demo_extraction_triangle_vertices :
    getRectanglesAndTrianglesFromImage img2 =
        .ok [ShapePtr.rectangle rect2, ShapePtr.rectangle rect1,
          ShapePtr.triangle (Triangle.mk3 ⟨3, 1⟩ ⟨3, 2⟩ ⟨1, 2⟩ 210)] ∧
      ∀ k : Nat, (Triangle.mk3 ⟨3, 1⟩ ⟨3, 2⟩ ⟨1, 2⟩ 210).vertices ≠ triangle.vertices.rotate k := by
  refine ⟨by decide, ?_⟩
  intro k h
  have hm : (⟨3, 1⟩ : Vector2) ∈ triangle.vertices.rotate k := by
    rw [← h]
    simp [Triangle.mk3]
  rw [List.mem_rotate] at hm
  revert hm
  decide

/-- C7 (the code at the demo inputs): redrawing the rectangles extracted from the
first demo image reproduces it, but redrawing the shapes extracted from the second
demo image gives a grid that differs from it in row 1 (70 70 210 instead of
70 210 70). -/
theorem demo_redraw_second_image_differs :
    (redraw (getRectanglesFromImage img1)).map (fun e => (e.1, e.2.toRows)) =
        some (.ok (), img1.toRows) ∧
      img2.toRows =
        [[0, 0, 0, 0, 0, 0], [0, 70, 210, 70, 0, 0], [0, 210, 210, 210, 0, 0],
          [0, 0, 0, 0, 0, 0], [0, 0, 0, 140, 140, 0], [0, 0, 0, 140, 140, 0]] ∧
      (redraw (getRectanglesAndTrianglesFromImage img2)).map (fun e => (e.1, e.2.toRows)) =
        some (.ok (),
          [[0, 0, 0, 0, 0, 0], [0, 70, 70, 210, 0, 0], [0, 210, 210, 210, 0, 0],
            [0, 0, 0, 0, 0, 0], [0, 0, 0, 140, 140, 0], [0, 0, 0, 140, 140, 0]]) := by
  decide

/-- C8 (the code at the demo input): tracing the demo triangle from its seed (2,1)
finds bottomLeft (1,2), topLength 0 and bottomLength 2, and returns the apex
(3,1) = (seed.x + bottomLength/2, seed.y), not (2,1) = (seed.x + topLength/2, seed.y). -/
theorem recognizeTriangle_demo_apex :
    setTriangleBottomLeft img2 ⟨2, 1⟩ 210 = .ok ⟨1, 2⟩ ∧
      getTriangleHorizontalLength img2 ⟨2, 1⟩ 210 = .ok 0 ∧
      getTriangleHorizontalLength img2 ⟨1, 2⟩ 210 = .ok 2 ∧
      Triangle.recognizeTriangle img2 ⟨2, 1⟩ =
        .ok (Triangle.mk3 ⟨3, 1⟩ ⟨3, 2⟩ ⟨1, 2⟩ 210) ∧
      Triangle.recognizeTriangle img2 ⟨2, 1⟩ ≠
        .ok (Triangle.mk3 ⟨2 + Int.tdiv 0 2, 1⟩ ⟨1 + 2, 2⟩ ⟨1, 2⟩ 210) := by
  decide

/-- C9 (the code at a top-base input): tracing the triangle (1,1),(3,1),(2,2) from
its seed (1,1) finds bottomLeft (2,2), topLength 2 and bottomLength 0, and returns
the apex (2,1), on the seed's row, not (2,2), on bottomLeft's row. -/
theorem recognizeTriangle_top_base_apex :
    topBaseImage.toRows =
        [[0, 0, 0, 0, 0, 0], [0, 210, 210, 210, 0, 0], [0, 0, 210, 0, 0, 0],
          [0, 0, 0, 0, 0, 0], [0, 0, 0, 0, 0, 0], [0, 0, 0, 0, 0, 0]] ∧
      setTriangleBottomLeft topBaseImage ⟨1, 1⟩ 210 = .ok ⟨2, 2⟩ ∧
      getTriangleHorizontalLength topBaseImage ⟨1, 1⟩ 210 = .ok 2 ∧
      getTriangleHorizontalLength topBaseImage ⟨2, 2⟩ 210 = .ok 0 ∧
      Triangle.recognizeTriangle topBaseImage ⟨1, 1⟩ =
        .ok (Triangle.mk3 ⟨1, 1⟩ ⟨3, 1⟩ ⟨2, 1⟩ 210) ∧
      Triangle.recognizeTriangle topBaseImage ⟨1, 1⟩ ≠
        .ok (Triangle.mk3 ⟨1, 1⟩ ⟨1 + 2, 1⟩ ⟨2 + Int.tdiv 0 2, 2⟩ 210) := by
  decide

/-! ## The theorems applied to the demo shapes -/

/-- C1, applied to the triangle of the demo and the point (2,2). -/
theorem isPointInShape_iff_all_edges_witness :
    1 ≤ triangle.verticesSize ∧
      (triangle._isPointInShape ⟨2, 2⟩ = true ↔
        ∀ i : Nat, i < triangle.verticesSize →
          cross (triangle.vertex (((i : Int) - 1) % (triangle.verticesSize : Int)).toNat)
            (triangle.vertex i) ⟨2, 2⟩ ≤ 0) :=
  ⟨by decide, isPointInShape_iff_all_edges triangle ⟨2, 2⟩ (by decide)⟩

theorem rect1_box_valid :
    ∀ x y : Int, inBox (setBoundingBox rect1.vertices) x y → rect1._isPointInShape ⟨x, y⟩ = true →
      (Image.create 6 6 0).isPixelValid x y = true := by
  intro x y hb _
  have e : setBoundingBox rect1.vertices = (1, 1, 3, 2) := by decide
  rw [e] at hb
  simp only [inBox] at hb
  simp only [Image.isPixelValid, Image.create, Bool.and_eq_true, decide_eq_true_eq]
  omega

/-- C3, applied to `rect1` of the demo on a blank 6x6 image. -/
theorem draw_succeeds_and_paints_contained_witness :
    (∀ x y : Int, inBox (setBoundingBox rect1.vertices) x y →
        rect1._isPointInShape ⟨x, y⟩ = true → (Image.create 6 6 0).isPixelValid x y = true) ∧
      (rect1.draw (Image.create 6 6 0)).1 = .ok () ∧
      (rect1.draw (Image.create 6 6 0)).2.width = (Image.create 6 6 0).width ∧
      (rect1.draw (Image.create 6 6 0)).2.height = (Image.create 6 6 0).height ∧
      ∀ x y : Int, (rect1.draw (Image.create 6 6 0)).2.matrix y x =
        if inBox (setBoundingBox rect1.vertices) x y ∧ rect1._isPointInShape ⟨x, y⟩ = true
        then rect1.color else (Image.create 6 6 0).matrix y x :=
  ⟨rect1_box_valid, draw_succeeds_and_paints_contained rect1 (Image.create 6 6 0) rect1_box_valid⟩

theorem rect1_first_invalid_on_3x3 :
    ∀ x y : Int, inBox (setBoundingBox rect1.vertices) x y → rect1._isPointInShape ⟨x, y⟩ = true →
      rowMajorBefore x y 3 1 → (Image.create 3 3 0).isPixelValid x y = true := by
  intro x y hb _ hlt
  have e : setBoundingBox rect1.vertices = (1, 1, 3, 2) := by decide
  rw [e] at hb
  simp only [inBox] at hb
  simp only [rowMajorBefore] at hlt
  simp only [Image.isPixelValid, Image.create, Bool.and_eq_true, decide_eq_true_eq]
  omega

/-- C4, applied to `rect1` of the demo on a blank 3x3 image: the draw throws at
(3,1), after writing (1,1) and (2,1). -/
theorem draw_fails_iff_and_keeps_partial_writes_witness :
    (inBox (setBoundingBox rect1.vertices) 3 1 ∧ rect1._isPointInShape ⟨3, 1⟩ = true ∧
        (Image.create 3 3 0).isPixelValid 3 1 = false) ∧
      (rect1.draw (Image.create 3 3 0)).1 = .error .mk ∧
      (rect1.draw (Image.create 3 3 0)).2.width = (Image.create 3 3 0).width ∧
      (rect1.draw (Image.create 3 3 0)).2.height = (Image.create 3 3 0).height ∧
      ∀ x y : Int, (rect1.draw (Image.create 3 3 0)).2.matrix y x =
        if inBox (setBoundingBox rect1.vertices) x y ∧ rect1._isPointInShape ⟨x, y⟩ = true ∧
            rowMajorBefore x y 3 1
        then rect1.color else (Image.create 3 3 0).matrix y x :=
  ⟨by decide,
    (draw_fails_iff_and_keeps_partial_writes rect1 (Image.create 3 3 0)).2 3 1
      (by decide) (by decide) (by decide) rect1_first_invalid_on_3x3⟩

theorem rect1Image_box_foreground :
    ∀ x y : Int, 1 ≤ x → x ≤ 3 → 1 ≤ y → y ≤ 2 → rect1Image.matrix y x ≠ BACKGROUND := by
  intro x y h1 h2 h3 h4
  interval_cases x <;> interval_cases y <;> decide

theorem rect1Image_right_background :
    ∀ y : Int, 1 ≤ y → y ≤ 2 + 1 → rect1Image.isPixelValid (3 + 1) y = true →
      rect1Image.matrix y (3 + 1) = BACKGROUND := by
  intro y h1 h2
  interval_cases y <;> decide

theorem rect1Image_below_background :
    ∀ x : Int, 1 ≤ x → x ≤ 3 + 1 → rect1Image.isPixelValid x (2 + 1) = true →
      rect1Image.matrix (2 + 1) x = BACKGROUND := by
  intro x h1 h2
  interval_cases x <;> decide

/-- C5, applied to the rectangle scenario: box (1,1)-(3,2) of `rect1Image`. -/
theorem recognizeRectangle_of_solid_box_witness :
    ((1 : Int) ≤ 3 ∧ (1 : Int) ≤ 2 ∧
        (0 ≤ (1 : Int) ∧ 3 < rect1Image.width ∧ 0 ≤ (1 : Int) ∧ 2 < rect1Image.height)) ∧
      Rectangle.recognizeRectangle rect1Image ⟨1, 1⟩ =
        .ok (Rectangle.mk4 ⟨1, 1⟩ ⟨3, 1⟩ ⟨3, 2⟩ ⟨1, 2⟩ (rect1Image.matrix 1 1)) :=
  ⟨by decide,
    (recognizeRectangle_of_solid_box rect1Image 1 1 3 2 (by decide) (by decide) (by decide)
      rect1Image_box_foreground rect1Image_right_background rect1Image_below_background).1⟩

/-- C10, applied to the demo image with the triangle and the seed (1,1). -/
theorem recognizeRectangleWithTriangle_spec_witness :
    img2.isPixelValid 1 1 = true ∧
      ∃ (bottomRight : Vector2) (rect : Shape) (found : Option Shape),
        setBottomRightRectangleCorner img2 ⟨1, 1⟩ = .ok bottomRight ∧
        Rectangle.recognizeRectangle img2 ⟨1, 1⟩ = .ok rect ∧
        Rectangle.recognizeRectangleWithTriangle img2 ⟨1, 1⟩ = .ok (rect, found) ∧
        (found.isSome = true ↔
          ∃ x y : Int, inBox (1, 1, bottomRight.x, bottomRight.y) x y ∧
            img2.matrix y x ≠ img2.matrix 1 1) ∧
        ∀ qx qy : Int, inBox (1, 1, bottomRight.x, bottomRight.y) qx qy →
          img2.matrix qy qx ≠ img2.matrix 1 1 →
          (∀ x y : Int, inBox (1, 1, bottomRight.x, bottomRight.y) x y →
            rowMajorBefore x y qx qy → img2.matrix y x = img2.matrix 1 1) →
          ∃ t : Shape, Triangle.recognizeTriangle img2 ⟨qx, qy⟩ = .ok t ∧ found = some t :=
  ⟨by decide, recognizeRectangleWithTriangle_spec img2 ⟨1, 1⟩ (by decide)⟩

/-! ## The pixel grid contract -/

/-- C19: `getPixel(x, y)` returns (the stored cell) exactly when `isPixelValid(x, y)`,
which holds exactly when 0 <= x < width and 0 <= y < height; `drawPixel` throws
`ImageDimException` exactly in the complementary case, and then the image is as it
was before the call. -/
theorem pixel_bounds_contract (img : Image) (x y : Int) (color : Nat) :
    ((∃ c, img.getPixel x y = .ok c) ↔ img.isPixelValid x y = true) ∧
      (img.isPixelValid x y = true ↔ (0 ≤ x ∧ x < img.width ∧ 0 ≤ y ∧ y < img.height)) ∧
      ((img.drawPixelInPlace ⟨x, y⟩ color).1 = .error .mk ↔
        ¬ (0 ≤ x ∧ x < img.width ∧ 0 ≤ y ∧ y < img.height)) ∧
      ((img.drawPixelInPlace ⟨x, y⟩ color).1 = .error .mk →
        (img.drawPixelInPlace ⟨x, y⟩ color).2 = img) := by
  have hvalid : img.isPixelValid x y = true ↔
      (0 ≤ x ∧ x < img.width ∧ 0 ≤ y ∧ y < img.height) := by
    simp only [Image.isPixelValid, Bool.and_eq_true, decide_eq_true_eq, ge_iff_le, and_assoc]
  by_cases hv : img.isPixelValid x y = true
  · have hd := drawPixel_of_valid img x y color hv
    refine ⟨⟨fun _ => hv, fun _ => ⟨_, getPixel_of_valid img x y hv⟩⟩, hvalid, ?_, ?_⟩
    · simp only [Image.drawPixelInPlace, hd]
      constructor
      · intro h; cases h
      · intro h; exact absurd (hvalid.1 hv) h
    · simp only [Image.drawPixelInPlace, hd]
      intro h; cases h
  · have hv1 : img.isPixelValid x y = false := by simpa using hv
    have hd := drawPixel_of_invalid img x y color hv1
    have hg := getPixel_of_invalid img x y hv1
    refine ⟨⟨?_, fun h => absurd h hv⟩, hvalid, ?_, ?_⟩
    · rintro ⟨c, hc⟩
      rw [hg] at hc
      cases hc
    · simp only [Image.drawPixelInPlace, hd, true_iff]
      exact fun h => hv (hvalid.2 h)
    · simp only [Image.drawPixelInPlace, hd, implies_true]

theorem fillRow_width (y : Int) (color : Nat) (n : Nat) (x : Int) (img : Image) :
    (Image.fillRow y color n x img).width = img.width := by
  induction n generalizing x img with
  | zero => rfl
  | succ n ih => simp only [Image.fillRow, ih]

theorem fillRow_height (y : Int) (color : Nat) (n : Nat) (x : Int) (img : Image) :
    (Image.fillRow y color n x img).height = img.height := by
  induction n generalizing x img with
  | zero => rfl
  | succ n ih => simp only [Image.fillRow, ih]

/-- The loop of `drawHorizontalLine` writes the `n` cells from column `x` on. -/
theorem fillRow_matrix (y : Int) (color : Nat) (n : Nat) (x : Int) (img : Image) (a b : Int) :
    (Image.fillRow y color n x img).matrix b a =
      if b = y ∧ x ≤ a ∧ a < x + n then color else img.matrix b a := by
  induction n generalizing x img with
  | zero =>
    simp only [Image.fillRow, Nat.cast_zero, add_zero]
    rw [if_neg]
    omega
  | succ n ih =>
    simp only [Image.fillRow, ih]
    by_cases h1 : b = y ∧ x + 1 ≤ a ∧ a < x + 1 + (n : Int)
    · rw [if_pos h1, if_pos]
      push_cast; omega
    · rw [if_neg h1]
      by_cases h2 : b = y ∧ a = x
      · rw [if_pos h2, if_pos]
        push_cast; omega
      · rw [if_neg h2, if_neg]
        push_cast; omega

/-- C20: `drawHorizontalLine(start, xEnd, color)` throws exactly when start.x < 0 or
start.y < 0 or start.y >= height or xEnd >= width or start.x > xEnd, and then the
image is as before; otherwise it returns normally, having set exactly the cells
(x, start.y) with start.x <= x <= xEnd to the colour. -/
theorem drawHorizontalLine_contract (img : Image) (start : Vector2) (xEnd : Int) (color : Nat) :
    ((img.drawHorizontalLine start xEnd color).1 = .error .mk ↔
        (start.x < 0 ∨ start.y < 0 ∨ start.y ≥ img.height ∨ xEnd ≥ img.width ∨
          start.x > xEnd)) ∧
      ((img.drawHorizontalLine start xEnd color).1 = .error .mk →
        (img.drawHorizontalLine start xEnd color).2 = img) ∧
      (¬ (start.x < 0 ∨ start.y < 0 ∨ start.y ≥ img.height ∨ xEnd ≥ img.width ∨
          start.x > xEnd) →
        (img.drawHorizontalLine start xEnd color).1 = .ok () ∧
        (img.drawHorizontalLine start xEnd color).2.width = img.width ∧
        (img.drawHorizontalLine start xEnd color).2.height = img.height ∧
        ∀ x y : Int, (img.drawHorizontalLine start xEnd color).2.matrix y x =
          if y = start.y ∧ start.x ≤ x ∧ x ≤ xEnd then color else img.matrix y x) := by
  by_cases hc : start.x < 0 ∨ start.y < 0 ∨ start.y ≥ img.height ∨ xEnd ≥ img.width ∨
      start.x > xEnd
  · have e : img.drawHorizontalLine start xEnd color = (.error .mk, img) := by
      simp only [Image.drawHorizontalLine, if_pos hc]
    rw [e]
    exact ⟨⟨fun _ => hc, fun _ => rfl⟩, fun _ => rfl, fun h => absurd hc h⟩
  · have e : img.drawHorizontalLine start xEnd color =
        (.ok (), Image.fillRow start.y color (xEnd + 1 - start.x).toNat start.x img) := by
      simp only [Image.drawHorizontalLine, if_neg hc]
    rw [e]
    refine ⟨⟨fun h => ?_, fun h => absurd h hc⟩, fun h => ?_, fun _ => ?_⟩
    · cases h
    · cases h
    · refine ⟨rfl, fillRow_width _ _ _ _ _, fillRow_height _ _ _ _ _, fun x y => ?_⟩
      simp only [fillRow_matrix]
      congr 1
      rw [eq_iff_iff]
      omega

/-- C18: `Circle::draw` of a circle whose radius is -1 returns normally and leaves
the image as it was; the default-constructed circle is such a circle. -/
theorem circle_draw_sentinel (c : Circle) (img : Image) (hr : c.radius = -1) :
    c.draw img = (.ok (), img) ∧ Circle.default.draw img = (.ok (), img) := by
  constructor
  · unfold Circle.draw
    rw [if_pos hr]
  · rfl

/-- C18, applied to a circle built with radius -1 on a blank 6x6 image. -/
theorem circle_draw_sentinel_witness :
    (Circle.mk3 ⟨2, 2⟩ (-1) 7).radius = -1 ∧
      ((Circle.mk3 ⟨2, 2⟩ (-1) 7).draw (Image.create 6 6 0) = (.ok (), Image.create 6 6 0) ∧
        Circle.default.draw (Image.create 6 6 0) = (.ok (), Image.create 6 6 0)) :=
  ⟨rfl, circle_draw_sentinel (Circle.mk3 ⟨2, 2⟩ (-1) 7) (Image.create 6 6 0) rfl⟩

/-- C19, applied to the cell (6,0) of a blank 6x6 image. -/
theorem pixel_bounds_contract_witness :
    ((Image.create 6 6 0).drawPixelInPlace ⟨6, 0⟩ 7).1 = .error .mk ∧
      ((Image.create 6 6 0).drawPixelInPlace ⟨6, 0⟩ 7).2 = Image.create 6 6 0 :=
  ⟨by decide, (pixel_bounds_contract (Image.create 6 6 0) 6 0 7).2.2.2 (by decide)⟩

/-- C20, applied to the line from (1,2) to x = 3 on a blank 6x6 image. -/
theorem drawHorizontalLine_contract_witness :
    ¬ ((1 : Int) < 0 ∨ (2 : Int) < 0 ∨ (2 : Int) ≥ (Image.create 6 6 0).height ∨
        (3 : Int) ≥ (Image.create 6 6 0).width ∨ (1 : Int) > 3) ∧
      (((Image.create 6 6 0).drawHorizontalLine ⟨1, 2⟩ 3 7).1 = .ok () ∧
        ((Image.create 6 6 0).drawHorizontalLine ⟨1, 2⟩ 3 7).2.width = (Image.create 6 6 0).width ∧
        ((Image.create 6 6 0).drawHorizontalLine ⟨1, 2⟩ 3 7).2.height =
          (Image.create 6 6 0).height ∧
        ∀ x y : Int, ((Image.create 6 6 0).drawHorizontalLine ⟨1, 2⟩ 3 7).2.matrix y x =
          if y = 2 ∧ 1 ≤ x ∧ x ≤ 3 then 7 else (Image.create 6 6 0).matrix y x) :=
  ⟨by decide,
    (drawHorizontalLine_contract (Image.create 6 6 0) ⟨1, 2⟩ 3 7).2.2 (by decide)⟩

/-! ## The extraction driver on the demo and on non-square grids -/

/-- C12 (the code at the demo input): the shapes extracted from the demo image with
the triangle are `rect2`, `rect1` and the triangle (3,1),(3,2),(1,2); drawing them
on a blank grid succeeds, and extracting again from that grid returns the two
rectangles and the triangle (4,1),(3,2),(1,2): not the same shapes. -/
theorem demo_reextraction_differs :
    getRectanglesAndTrianglesFromImage img2 =
        .ok [ShapePtr.rectangle rect2, ShapePtr.rectangle rect1,
          ShapePtr.triangle (Triangle.mk3 ⟨3, 1⟩ ⟨3, 2⟩ ⟨1, 2⟩ 210)] ∧
      (redraw (getRectanglesAndTrianglesFromImage img2)).map (fun e => e.1) = some (.ok ()) ∧
      getRectanglesAndTrianglesFromImage img2Compare =
        .ok [ShapePtr.rectangle rect2, ShapePtr.rectangle rect1,
          ShapePtr.triangle (Triangle.mk3 ⟨4, 1⟩ ⟨3, 2⟩ ⟨1, 2⟩ 210)] ∧
      getRectanglesAndTrianglesFromImage img2Compare ≠
        getRectanglesAndTrianglesFromImage img2 := by
  decide

/-- C13 (the code on non-square grids): on a blank grid of width 2 and height 1
both entry points throw, and on a grid of width 1 and height 2 whose cell (0,1) is
foreground both return the empty array. -/
theorem extraction_on_non_square_grids :
    wideImage.toRows = [[0, 0]] ∧
      getRectanglesFromImage wideImage = .error .mk ∧
      getRectanglesAndTrianglesFromImage wideImage = .error .mk ∧
      tallImage.toRows = [[0], [9]] ∧
      getRectanglesFromImage tallImage = .ok [] ∧
      getRectanglesAndTrianglesFromImage tallImage = .ok [] := by
  decide

theorem except_error_bind {α β : Type} (e : ImageDimException) (f : α → Except ImageDimException β) :
    (Except.error e >>= f) = Except.error e := rfl

/-- The rectangle made by `recognizeRectangle` has the seed as its first vertex. -/
theorem recognizeRectangle_seed (img : Image) (p : Vector2) (r : Shape)
    (h : Rectangle.recognizeRectangle img p = .ok r) : r.vertex 0 = p := by
  unfold Rectangle.recognizeRectangle at h
  cases h1 : img.getPixel p.x p.y with
  | error e => rw [h1] at h; cases h
  | ok c =>
    rw [h1] at h
    simp only [except_ok_bind] at h
    cases h2 : setBottomRightRectangleCorner img p with
    | error e => rw [h2] at h; cases h
    | ok br =>
      rw [h2] at h
      simp only [except_ok_bind, pure, Except.pure, Except.ok.injEq] at h
      subst h
      rfl

/-- The inner loop of `getRectanglesFromImage` keeps the list in reverse order of
discovery: every seed in the list lies before the scan position. -/
theorem getRectanglesRow_order (y : Int) (n : Nat) (x : Int) (st st1 : List ShapePtr × Image)
    (h : getRectanglesRow y n x st = .ok st1)
    (hp : st.1.Pairwise fun a b => rowMajorBefore b.seed.x b.seed.y a.seed.x a.seed.y)
    (hb : ∀ p ∈ st.1, rowMajorBefore p.seed.x p.seed.y x y) :
    (st1.1.Pairwise fun a b => rowMajorBefore b.seed.x b.seed.y a.seed.x a.seed.y) ∧
      ∀ p ∈ st1.1, rowMajorBefore p.seed.x p.seed.y (x + n) y := by
  induction n generalizing x st with
  | zero =>
    simp only [getRectanglesRow, pure, Except.pure, Except.ok.injEq] at h
    subst h
    exact ⟨hp, by simpa using hb⟩
  | succ n ih =>
    obtain ⟨rects, img⟩ := st
    have hnext : ∀ l : List ShapePtr, (∀ p ∈ l, rowMajorBefore p.seed.x p.seed.y (x + 1) y) →
        ∀ st2 : List ShapePtr × Image, st2.1 = l →
        (st2.1.Pairwise fun a b => rowMajorBefore b.seed.x b.seed.y a.seed.x a.seed.y) →
        getRectanglesRow y n (x + 1) st2 = .ok st1 →
        (st1.1.Pairwise fun a b => rowMajorBefore b.seed.x b.seed.y a.seed.x a.seed.y) ∧
          ∀ p ∈ st1.1, rowMajorBefore p.seed.x p.seed.y (x + ((n + 1 : Nat) : Int)) y := by
      intro l hl st2 e hp2 h2
      have := ih (x + 1) st2 h2 hp2 (by rw [e]; exact hl)
      refine ⟨this.1, fun p hp => ?_⟩
      have h3 := this.2 p hp
      rw [show x + ((n + 1 : Nat) : Int) = x + 1 + n by push_cast; ring]
      exact h3
    have hstep : ∀ p ∈ rects, rowMajorBefore p.seed.x p.seed.y (x + 1) y := by
      intro p hp
      have := hb p hp
      simp only [rowMajorBefore] at this ⊢
      omega
    simp only [getRectanglesRow] at h
    cases h1 : img.getPixel x y with
    | error e => rw [h1] at h; cases h
    | ok c =>
      rw [h1] at h
      simp only [except_ok_bind] at h
      by_cases hc : (c != BACKGROUND) = true
      · rw [if_pos hc] at h
        cases h2 : Rectangle.recognizeRectangle img ⟨x, y⟩ with
        | error e => rw [h2] at h; cases h
        | ok newRect =>
          rw [h2] at h
          simp only [except_ok_bind] at h
          rcases h3 : (newRect.recolor BACKGROUND).draw img with ⟨r, img1⟩
          rw [h3] at h
          cases r with
          | error e => cases h
          | ok u =>
            simp only at h
            have hseed : (ShapePtr.rectangle newRect).seed = ⟨x, y⟩ :=
              recognizeRectangle_seed img ⟨x, y⟩ newRect h2
            refine hnext (ShapePtr.rectangle newRect :: rects) ?_ _ rfl ?_ h
            · intro p hp
              rcases List.mem_cons.1 hp with rfl | hp
              · rw [hseed]
                show rowMajorBefore x y (x + 1) y
                unfold rowMajorBefore
                omega
              · exact hstep p hp
            · refine List.Pairwise.cons ?_ hp
              intro p hp
              simp only [hseed]
              exact hb p hp
      · rw [if_neg hc] at h
        exact hnext rects hstep _ rfl hp h

theorem getRectanglesRows_order (width : Nat) (m : Nat) (y : Int)
    (st st1 : List ShapePtr × Image)
    (h : getRectanglesRows width m y st = .ok st1)
    (hp : st.1.Pairwise fun a b => rowMajorBefore b.seed.x b.seed.y a.seed.x a.seed.y)
    (hb : ∀ p ∈ st.1, p.seed.y < y) :
    (st1.1.Pairwise fun a b => rowMajorBefore b.seed.x b.seed.y a.seed.x a.seed.y) ∧
      ∀ p ∈ st1.1, p.seed.y < y + m := by
  induction m generalizing y st with
  | zero =>
    simp only [getRectanglesRows, pure, Except.pure, Except.ok.injEq] at h
    subst h
    exact ⟨hp, by simpa using hb⟩
  | succ m ih =>
    simp only [getRectanglesRows] at h
    cases h1 : getRectanglesRow y width 0 st with
    | error e => rw [h1] at h; cases h
    | ok st2 =>
      rw [h1] at h
      simp only [except_ok_bind] at h
      have h2 := getRectanglesRow_order y width 0 st st2 h1 hp (fun p hp1 => by
        have := hb p hp1
        simp only [rowMajorBefore]; omega)
      have h3 := ih (y + 1) st2 h h2.1 (fun p hp1 => by
        have := h2.2 p hp1
        simp only [rowMajorBefore] at this
        omega)
      refine ⟨h3.1, fun p hp1 => ?_⟩
      have := h3.2 p hp1
      push_cast; omega

theorem rowMajorBefore_asymm (x y qx qy : Int) (h : rowMajorBefore x y qx qy) :
    ¬ rowMajorBefore qx qy x y := by
  simp only [rowMajorBefore] at h ⊢
  omega

theorem getRectanglesFromImage_pairwise (img : Image) (l : List ShapePtr)
    (h : getRectanglesFromImage img = .ok l) :
    l.Pairwise fun a b => rowMajorBefore b.seed.x b.seed.y a.seed.x a.seed.y := by
  unfold getRectanglesFromImage at h
  simp only [Image.getWidth] at h
  cases h1 : getRectanglesRows img.width.toNat img.width.toNat 0 ([], img) with
  | error e => rw [h1] at h; cases h
  | ok st =>
    rw [h1] at h
    simp only [except_ok_bind, pure, Except.pure, Except.ok.injEq] at h
    subst h
    exact (getRectanglesRows_order _ _ 0 _ st h1 List.Pairwise.nil (by simp)).1

/-- C14 (as stated, refuted): on the first demo image the seed (1,1) of `rect1` is
met before the seed (3,4) of `rect2`, but the returned array is `rect2`, `rect1`:
`rect1` does not have the smaller index. -/
theorem extraction_order_counterexample :
    getRectanglesFromImage img1 = .ok [ShapePtr.rectangle rect2, ShapePtr.rectangle rect1] ∧
      rowMajorBefore (ShapePtr.rectangle rect1).seed.x (ShapePtr.rectangle rect1).seed.y
        (ShapePtr.rectangle rect2).seed.x (ShapePtr.rectangle rect2).seed.y ∧
      ¬ ([ShapePtr.rectangle rect2, ShapePtr.rectangle rect1].indexOf (ShapePtr.rectangle rect1) <
          [ShapePtr.rectangle rect2, ShapePtr.rectangle rect1].indexOf
            (ShapePtr.rectangle rect2)) := by
  decide

/-- C14 (amended): the array returned by `getRectanglesFromImage` lists the
rectangles in reverse discovery order: if the seed (top-left corner) of the element
at index i comes before the seed of the element at index j in row-major order, then
i is the larger index; on the first demo image the array is the rectangle at
(3,4) followed by the rectangle at (1,1). -/
theorem extraction_lists_reverse_discovery_order (img : Image) (l : List ShapePtr)
    (h : getRectanglesFromImage img = .ok l) :
    (∀ (i j : Nat) (hi : i < l.length) (hj : j < l.length),
        rowMajorBefore (l.get ⟨i, hi⟩).seed.x (l.get ⟨i, hi⟩).seed.y
          (l.get ⟨j, hj⟩).seed.x (l.get ⟨j, hj⟩).seed.y → j < i) ∧
      getRectanglesFromImage img1 = .ok [ShapePtr.rectangle rect2, ShapePtr.rectangle rect1] := by
  refine ⟨?_, by decide⟩
  have hp := getRectanglesFromImage_pairwise img l h
  intro i j hi hj hlt
  rcases lt_trichotomy i j with h1 | h1 | h1
  · have := List.pairwise_iff_get.1 hp ⟨i, hi⟩ ⟨j, hj⟩ h1
    exact absurd this (rowMajorBefore_asymm _ _ _ _ hlt)
  · subst h1
    exact absurd hlt (rowMajorBefore_asymm _ _ _ _ hlt)
  · exact h1

/-- C14 (amended), applied to the first demo image. -/
theorem extraction_lists_reverse_discovery_order_witness :
    getRectanglesFromImage img1 = .ok [ShapePtr.rectangle rect2, ShapePtr.rectangle rect1] ∧
      ∀ (i j : Nat) (hi : i < [ShapePtr.rectangle rect2, ShapePtr.rectangle rect1].length)
        (hj : j < [ShapePtr.rectangle rect2, ShapePtr.rectangle rect1].length),
        rowMajorBefore ([ShapePtr.rectangle rect2, ShapePtr.rectangle rect1].get ⟨i, hi⟩).seed.x
          ([ShapePtr.rectangle rect2, ShapePtr.rectangle rect1].get ⟨i, hi⟩).seed.y
          ([ShapePtr.rectangle rect2, ShapePtr.rectangle rect1].get ⟨j, hj⟩).seed.x
          ([ShapePtr.rectangle rect2, ShapePtr.rectangle rect1].get ⟨j, hj⟩).seed.y → j < i :=
  ⟨by decide,
    (extraction_lists_reverse_discovery_order img1 _ (by decide)).1⟩

/-- A `drawHorizontalLine` that returns normally: its arguments are in range and
the image afterwards is the image with the span written. -/
theorem drawHorizontalLine_of_ok (img : Image) (start : Vector2) (xEnd : Int) (color : Nat)
    (h : (img.drawHorizontalLine start xEnd color).1 = .ok ()) :
    (0 ≤ start.x ∧ 0 ≤ start.y ∧ start.y < img.height ∧ xEnd < img.width ∧ start.x ≤ xEnd) ∧
      (img.drawHorizontalLine start xEnd color).2.width = img.width ∧
      (img.drawHorizontalLine start xEnd color).2.height = img.height ∧
      ∀ a b : Int, (img.drawHorizontalLine start xEnd color).2.matrix b a =
        if b = start.y ∧ start.x ≤ a ∧ a ≤ xEnd then color else img.matrix b a := by
  by_cases hc : start.x < 0 ∨ start.y < 0 ∨ start.y ≥ img.height ∨ xEnd ≥ img.width ∨
      start.x > xEnd
  · simp only [Image.drawHorizontalLine, if_pos hc] at h
    cases h
  · simp only [Image.drawHorizontalLine, if_neg hc]
    refine ⟨by omega, fillRow_width _ _ _ _ _, fillRow_height _ _ _ _ _, fun a b => ?_⟩
    simp only [fillRow_matrix]
    congr 1
    rw [eq_iff_iff]
    omega

/-- A `drawHorizontalLine` whose arguments are in range returns normally. -/
theorem drawHorizontalLine_ok_of_range (img : Image) (start : Vector2) (xEnd : Int) (color : Nat)
    (h : 0 ≤ start.x ∧ 0 ≤ start.y ∧ start.y < img.height ∧ xEnd < img.width ∧ start.x ≤ xEnd) :
    (img.drawHorizontalLine start xEnd color).1 = .ok () := by
  have hc : ¬ (start.x < 0 ∨ start.y < 0 ∨ start.y ≥ img.height ∨ xEnd ≥ img.width ∨
      start.x > xEnd) := by omega
  simp only [Image.drawHorizontalLine, if_neg hc]

/-- A `drawCirclePart` that returns normally: the state is non-negative, its four
spans lie in the image, and the image afterwards is the image with them written. -/
theorem drawCirclePart_of_ok (img : Image) (center part : Vector2) (color : Nat)
    (h : (drawCirclePart img center part color).1 = .ok ()) :
    (0 ≤ part.x ∧ 0 ≤ part.y ∧ 0 ≤ center.x - part.x ∧ center.x + part.x < img.width ∧
        0 ≤ center.x - part.y ∧ center.x + part.y < img.width ∧
        0 ≤ center.y - part.x ∧ center.y + part.x < img.height ∧
        0 ≤ center.y - part.y ∧ center.y + part.y < img.height) ∧
      (drawCirclePart img center part color).2.width = img.width ∧
      (drawCirclePart img center part color).2.height = img.height ∧
      ∀ a b : Int, (drawCirclePart img center part color).2.matrix b a =
        if inCirclePart center.x center.y part.x part.y a b then color else img.matrix b a := by
  unfold drawCirclePart at h ⊢
  simp only at h ⊢
  rcases h1 : img.drawHorizontalLine ⟨center.x - part.x, center.y + part.y⟩
    (center.x + part.x) color with ⟨r1, i1⟩
  have k1 := drawHorizontalLine_of_ok img ⟨center.x - part.x, center.y + part.y⟩
    (center.x + part.x) color
  rw [h1] at h k1
  cases r1 with
  | error e => cases h
  | ok u1 =>
    simp only at h ⊢
    obtain ⟨c1, w1, e1, m1⟩ := k1 rfl
    rcases h2 : i1.drawHorizontalLine ⟨center.x - part.x, center.y - part.y⟩
      (center.x + part.x) color with ⟨r2, i2⟩
    have k2 := drawHorizontalLine_of_ok i1 ⟨center.x - part.x, center.y - part.y⟩
      (center.x + part.x) color
    rw [h2] at h k2
    cases r2 with
    | error e => cases h
    | ok u2 =>
      simp only at h ⊢
      obtain ⟨c2, w2, e2, m2⟩ := k2 rfl
      rcases h3 : i2.drawHorizontalLine ⟨center.x - part.y, center.y + part.x⟩
        (center.x + part.y) color with ⟨r3, i3⟩
      have k3 := drawHorizontalLine_of_ok i2 ⟨center.x - part.y, center.y + part.x⟩
        (center.x + part.y) color
      rw [h3] at h k3
      cases r3 with
      | error e => cases h
      | ok u3 =>
        simp only at h ⊢
        obtain ⟨c3, w3, e3, m3⟩ := k3 rfl
        obtain ⟨c4, w4, e4, m4⟩ := drawHorizontalLine_of_ok i3
          ⟨center.x - part.y, center.y - part.x⟩ (center.x + part.y) color h
        simp only at c1 c2 c3 c4 w1 w2 w3 w4 e1 e2 e3 e4 m1 m2 m3 m4
        refine ⟨by omega, by omega, by omega, fun a b => ?_⟩
        rw [m4, m3, m2, m1]
        unfold inCirclePart
        by_cases g4 : b = center.y - part.x ∧ center.x - part.y ≤ a ∧ a ≤ center.x + part.y
        · rw [if_pos g4, if_pos (Or.inr ⟨Or.inr g4.1, g4.2⟩)]
        · rw [if_neg g4]
          by_cases g3 : b = center.y + part.x ∧ center.x - part.y ≤ a ∧ a ≤ center.x + part.y
          · rw [if_pos g3, if_pos (Or.inr ⟨Or.inl g3.1, g3.2⟩)]
          · rw [if_neg g3]
            by_cases g2 : b = center.y - part.y ∧ center.x - part.x ≤ a ∧ a ≤ center.x + part.x
            · rw [if_pos g2, if_pos (Or.inl ⟨Or.inr g2.1, g2.2⟩)]
            · rw [if_neg g2]
              by_cases g1 : b = center.y + part.y ∧ center.x - part.x ≤ a ∧
                  a ≤ center.x + part.x
              · rw [if_pos g1, if_pos (Or.inl ⟨Or.inl g1.1, g1.2⟩)]
              · rw [if_neg g1, if_neg]
                rintro (⟨h5 | h5, h6⟩ | ⟨h5 | h5, h6⟩)
                · exact g1 ⟨h5, h6⟩
                · exact g2 ⟨h5, h6⟩
                · exact g3 ⟨h5, h6⟩
                · exact g4 ⟨h5, h6⟩

theorem circleHalfWidth_spec (k : Int → Int) (x y e : Int) :
    ∃ s1 s2 : Int,
      (((e = y ∨ e = -y) ∧ s1 = x) ∨ (¬ (e = y ∨ e = -y) ∧ s1 = -1)) ∧
      (((e = x ∨ e = -x) ∧ s2 = y) ∨ (¬ (e = x ∨ e = -x) ∧ s2 = -1)) ∧
      k e ≤ circleHalfWidth k x y e ∧ s1 ≤ circleHalfWidth k x y e ∧
      s2 ≤ circleHalfWidth k x y e ∧
      (circleHalfWidth k x y e = k e ∨ circleHalfWidth k x y e = s1 ∨
        circleHalfWidth k x y e = s2) := by
  refine ⟨if e = y ∨ e = -y then x else -1, if e = x ∨ e = -x then y else -1, ?_, ?_, ?_, ?_, ?_, ?_⟩
  · by_cases h : e = y ∨ e = -y
    · exact Or.inl ⟨h, if_pos h⟩
    · exact Or.inr ⟨h, if_neg h⟩
  · by_cases h : e = x ∨ e = -x
    · exact Or.inl ⟨h, if_pos h⟩
    · exact Or.inr ⟨h, if_neg h⟩
  · exact le_max_left _ _
  · exact le_trans (le_max_left _ _) (le_max_right _ _)
  · exact le_trans (le_max_right _ _) (le_max_right _ _)
  · unfold circleHalfWidth
    rcases max_choice (k e) (max (if e = y ∨ e = -y then x else -1)
      (if e = x ∨ e = -x then y else -1)) with h | h
    · exact Or.inl h
    · rw [h]
      rcases max_choice (if e = y ∨ e = -y then x else -1)
        (if e = x ∨ e = -x then y else -1) with h1 | h1
      · exact Or.inr (Or.inl h1)
      · exact Or.inr (Or.inr h1)

/-- The relation between decision variable and state holds initially. -/
theorem circleArith_init (r : Int) (hr : 1 ≤ r) : CircleArith r 0 r (3 - 2 * r) := by
  refine ⟨by ring, le_rfl, le_rfl, fun _ => by omega⟩

/-- One iteration of the loop keeps the relation, and the new `x` is at most `r`. -/
theorem circleArith_step (r x y d : Int) (hr : 1 ≤ r) (h : CircleArith r x y d) (hyx : y ≥ x) :
    CircleArith r (x + 1) (if d > 0 then y - 1 else y)
        (if d > 0 then d + (4 * (x + 1 - (if d > 0 then y - 1 else y)) + 10)
          else d + (4 * (x + 1) + 6)) ∧
      x + 1 ≤ r := by
  obtain ⟨hd, hx, hy, hxy⟩ := h
  have hx1 : x + 1 ≤ r := by
    by_cases e : y = r
    · have := hxy e; omega
    · omega
  refine ⟨?_, hx1⟩
  by_cases hpos : d > 0
  · simp only [hpos, if_true]
    refine ⟨by rw [hd]; ring, by omega, by omega, fun e => by omega⟩
  · simp only [hpos, if_false]
    refine ⟨by rw [hd]; ring, by omega, by omega, fun e => ?_⟩
    subst e
    have hle : d ≤ 0 := by omega
    by_contra hcon
    have hxe : x = y - 1 := by have := hxy rfl; omega
    subst hxe
    rw [hd] at hle
    nlinarith

theorem inCirclePart_row (cx cy x1 y1 a e : Int) :
    inCirclePart cx cy x1 y1 a (cy + e) ↔
      (((e = y1 ∨ e = -y1) ∧ -x1 ≤ a - cx ∧ a - cx ≤ x1) ∨
        ((e = x1 ∨ e = -x1) ∧ -y1 ≤ a - cx ∧ a - cx ≤ y1)) := by
  unfold inCirclePart
  omega

theorem halfWidth_arith_mem (ke m s1 s2 x1 y1 e t : Int)
    (f1 : ((e = y1 ∨ e = -y1) ∧ s1 = x1) ∨ (¬ (e = y1 ∨ e = -y1) ∧ s1 = -1))
    (f2 : ((e = x1 ∨ e = -x1) ∧ s2 = y1) ∨ (¬ (e = x1 ∨ e = -x1) ∧ s2 = -1))
    (f3 : ke ≤ m) (f4 : s1 ≤ m) (f5 : s2 ≤ m) (f6 : m = ke ∨ m = s1 ∨ m = s2) :
    (-m ≤ t ∧ t ≤ m) ↔
      ((((e = y1 ∨ e = -y1) ∧ -x1 ≤ t ∧ t ≤ x1) ∨ ((e = x1 ∨ e = -x1) ∧ -y1 ≤ t ∧ t ≤ y1)) ∨
        (-ke ≤ t ∧ t ≤ ke)) := by
  omega

theorem halfWidth_arith_even (ke m s1 s2 m' s1' s2' x1 y1 e : Int)
    (f1 : ((e = y1 ∨ e = -y1) ∧ s1 = x1) ∨ (¬ (e = y1 ∨ e = -y1) ∧ s1 = -1))
    (f2 : ((e = x1 ∨ e = -x1) ∧ s2 = y1) ∨ (¬ (e = x1 ∨ e = -x1) ∧ s2 = -1))
    (f3 : ke ≤ m) (f4 : s1 ≤ m) (f5 : s2 ≤ m) (f6 : m = ke ∨ m = s1 ∨ m = s2)
    (g1 : ((-e = y1 ∨ -e = -y1) ∧ s1' = x1) ∨ (¬ (-e = y1 ∨ -e = -y1) ∧ s1' = -1))
    (g2 : ((-e = x1 ∨ -e = -x1) ∧ s2' = y1) ∨ (¬ (-e = x1 ∨ -e = -x1) ∧ s2' = -1))
    (g3 : ke ≤ m') (g4 : s1' ≤ m') (g5 : s2' ≤ m') (g6 : m' = ke ∨ m' = s1' ∨ m' = s2') :
    m' = m := by
  omega

theorem halfWidth_arith_le (ke m s1 s2 x1 y1 e r : Int)
    (f1 : ((e = y1 ∨ e = -y1) ∧ s1 = x1) ∨ (¬ (e = y1 ∨ e = -y1) ∧ s1 = -1))
    (f2 : ((e = x1 ∨ e = -x1) ∧ s2 = y1) ∨ (¬ (e = x1 ∨ e = -x1) ∧ s2 = -1))
    (f6 : m = ke ∨ m = s1 ∨ m = s2) (h1 : ke ≤ r) (h2 : x1 ≤ r) (h3 : y1 ≤ r) (h4 : 0 ≤ x1) :
    m ≤ r := by
  omega

theorem halfWidth_arith_nonneg (ke m s1 s2 x y x1 y1 e r : Int)
    (f1 : ((e = y1 ∨ e = -y1) ∧ s1 = x1) ∨ (¬ (e = y1 ∨ e = -y1) ∧ s1 = -1))
    (f2 : ((e = x1 ∨ e = -x1) ∧ s2 = y1) ∨ (¬ (e = x1 ∨ e = -x1) ∧ s2 = -1))
    (f3 : ke ≤ m) (f4 : s1 ≤ m) (f5 : s2 ≤ m) (f6 : m = ke ∨ m = s1 ∨ m = s2)
    (hN : 0 ≤ ke ↔ ((-x ≤ e ∧ e ≤ x) ∨ (y ≤ e ∧ e ≤ r) ∨ (-r ≤ e ∧ e ≤ -y)))
    (hx1 : x1 = x + 1) (hy1 : y1 = y ∨ y1 = y - 1) (hx0 : 0 ≤ x1) (hy0 : 0 ≤ y1) (hyr : y1 ≤ r) :
    0 ≤ m ↔ ((-x1 ≤ e ∧ e ≤ x1) ∨ (y1 ≤ e ∧ e ≤ r) ∨ (-r ≤ e ∧ e ≤ -y1)) := by
  omega

/-- One more successful `drawCirclePart` keeps the description of the picture. -/
theorem circleInv_step (cx cy r : Int) (col : Nat) (k : Int → Int) (img : Image)
    (x y x1 y1 : Int) (hI : CircleInv cx cy r col k img x y)
    (hx1 : x1 = x + 1) (hy1 : y1 = y ∨ y1 = y - 1) (hxr : x1 ≤ r) (hyr : y1 ≤ r)
    (hok : (drawCirclePart img ⟨cx, cy⟩ ⟨x1, y1⟩ col).1 = .ok ()) :
    CircleInv cx cy r col (circleHalfWidth k x1 y1)
      (drawCirclePart img ⟨cx, cy⟩ ⟨x1, y1⟩ col).2 x1 y1 := by
  obtain ⟨hM, hV, hE, hR, hN, hX, hY⟩ := hI
  obtain ⟨hrange, hw, hh, hm⟩ := drawCirclePart_of_ok img ⟨cx, cy⟩ ⟨x1, y1⟩ col hok
  simp only at hrange hm
  have hx0 : 0 ≤ x1 := hrange.1
  have hy0 : 0 ≤ y1 := hrange.2.1
  refine ⟨?_, ?_, ?_, ?_, ?_, hxr, hy0⟩
  · intro a e
    rw [hm, hM]
    obtain ⟨s1, s2, f1, f2, f3, f4, f5, f6⟩ := circleHalfWidth_spec k x1 y1 e
    have key := halfWidth_arith_mem (k e) _ s1 s2 x1 y1 e (a - cx) f1 f2 f3 f4 f5 f6
    rw [← inCirclePart_row] at key
    by_cases hP : inCirclePart cx cy x1 y1 a (cy + e)
    · rw [if_pos hP, if_pos (key.2 (Or.inl hP))]
    · rw [if_neg hP]
      by_cases hk : -(k e) ≤ a - cx ∧ a - cx ≤ k e
      · rw [if_pos hk, if_pos (key.2 (Or.inr hk))]
      · rw [if_neg hk, if_neg]
        intro h
        rcases key.1 h with h1 | h1
        · exact hP h1
        · exact hk h1
  · intro a e h1 h2
    obtain ⟨s1, s2, f1, f2, f3, f4, f5, f6⟩ := circleHalfWidth_spec k x1 y1 e
    have key := halfWidth_arith_mem (k e) _ s1 s2 x1 y1 e (a - cx) f1 f2 f3 f4 f5 f6
    rw [isPixelValid_congr img _ hw hh]
    rcases key.1 ⟨h1, h2⟩ with h3 | h3
    · simp only [Image.isPixelValid, Bool.and_eq_true, decide_eq_true_eq]
      clear key f1 f2 f3 f4 f5 f6 hm hM hV hE hR hN hok
      omega
    · exact hV a e h3.1 h3.2
  · intro e
    obtain ⟨s1, s2, f1, f2, f3, f4, f5, f6⟩ := circleHalfWidth_spec k x1 y1 e
    obtain ⟨t1, t2, g1, g2, g3, g4, g5, g6⟩ := circleHalfWidth_spec k x1 y1 (-e)
    rw [hE e] at g3 g6
    exact halfWidth_arith_even (k e) _ s1 s2 _ t1 t2 x1 y1 e f1 f2 f3 f4 f5 f6 g1 g2 g3 g4 g5 g6
  · intro e
    obtain ⟨s1, s2, f1, f2, f3, f4, f5, f6⟩ := circleHalfWidth_spec k x1 y1 e
    exact halfWidth_arith_le (k e) _ s1 s2 x1 y1 e r f1 f2 f6 (hR e) hxr hyr hx0
  · intro e
    obtain ⟨s1, s2, f1, f2, f3, f4, f5, f6⟩ := circleHalfWidth_spec k x1 y1 e
    exact halfWidth_arith_nonneg (k e) _ s1 s2 x y x1 y1 e r f1 f2 f3 f4 f5 f6 (hN e)
      hx1 hy1 hx0 hy0 hyr

theorem circleHalfWidth_centre (k : Int → Int) (x y r : Int) (hk : k 0 = r)
    (hx : x ≤ r) (hy : y ≤ r) (hr : 1 ≤ r) : circleHalfWidth k x y 0 = r := by
  obtain ⟨s1, s2, f1, f2, f3, f4, f5, f6⟩ := circleHalfWidth_spec k x y 0
  omega

/-- The loop of `Circle::draw`, when it returns normally from a state that satisfies
the two invariants: the final picture is described by some half-width function `k`
and a final state with `y < x`. -/
theorem circleLoop_inv (cx cy r : Int) (col : Nat) (hr : 1 ≤ r) (n : Nat) (x y d : Int)
    (img : Image) (k : Int → Int)
    (hA : CircleArith r x y d) (hI : CircleInv cx cy r col k img x y) (hc : k 0 = r)
    (hfuel : (y - x + 1).toNat ≤ n)
    (hok : (circleLoop ⟨cx, cy⟩ col n ⟨x, y⟩ d img).1 = .ok ()) :
    ∃ (k1 : Int → Int) (x1 y1 : Int),
      CircleInv cx cy r col k1 (circleLoop ⟨cx, cy⟩ col n ⟨x, y⟩ d img).2 x1 y1 ∧
        k1 0 = r ∧ y1 < x1 := by
  induction n generalizing x y d img k with
  | zero => exact ⟨k, x, y, hI, hc, by omega⟩
  | succ n ih =>
    by_cases hyx : y ≥ x
    · have hstep := circleArith_step r x y d hr hA hyx
      simp only [circleLoop, if_pos hyx] at hok ⊢
      rcases hd : drawCirclePart img ⟨cx, cy⟩ ⟨x + 1, if d > 0 then y - 1 else y⟩ col with
        ⟨res, img1⟩
      rw [hd] at hok
      cases res with
      | error e => cases hok
      | ok u =>
        simp only at hok ⊢
        have hy1 : (if d > 0 then y - 1 else y) = y ∨ (if d > 0 then y - 1 else y) = y - 1 := by
          by_cases hp : d > 0
          · exact Or.inr (if_pos hp)
          · exact Or.inl (if_neg hp)
        have hyr : (if d > 0 then y - 1 else y) ≤ r := by
          have := hA.2.2.1
          rcases hy1 with e | e <;> rw [e] <;> omega
        have hdok : (drawCirclePart img ⟨cx, cy⟩ ⟨x + 1, if d > 0 then y - 1 else y⟩ col).1 =
            .ok () := by rw [hd]
        have hI1 := circleInv_step cx cy r col k img x y (x + 1) (if d > 0 then y - 1 else y) hI
          rfl hy1 hstep.2 hyr hdok
        rw [hd] at hI1
        exact ih (x + 1) (if d > 0 then y - 1 else y) _ img1 _ hstep.1 hI1
          (circleHalfWidth_centre k _ _ r hc hstep.2 hyr hr)
          (by rcases hy1 with e | e <;> rw [e] <;> omega) hok
    · simp only [circleLoop, if_neg hyx] at hok ⊢
      exact ⟨k, x, y, hI, hc, by omega⟩

/-- The blank image before the first `drawCirclePart`, as a picture with empty rows. -/
theorem circleInv_blank (cx cy r : Int) (col : Nat) (height width : Int) (hr : 1 ≤ r) :
    CircleInv cx cy r col (fun _ => -1) (Image.create height width 0) (-1) (r + 1) := by
  refine ⟨?_, ?_, fun _ => rfl, fun _ => ?_, fun e => ?_, by omega, by omega⟩
  · intro a e
    rw [if_neg]
    · rfl
    · beta_reduce
      omega
  · intro a e h1 h2
    beta_reduce at h1 h2
    omega
  · beta_reduce
    omega
  · beta_reduce
    omega

/-- A `Circle::draw` of radius at least 1 that returns normally on a blank image:
the picture is described by a half-width function. -/
theorem circle_draw_inv (cx cy r : Int) (col : Nat) (height width : Int) (hr : 1 ≤ r)
    (hok : ((Circle.mk3 ⟨cx, cy⟩ r col).draw (Image.create height width 0)).1 = .ok ()) :
    ∃ (k1 : Int → Int) (x1 y1 : Int),
      CircleInv cx cy r col k1
        ((Circle.mk3 ⟨cx, cy⟩ r col).draw (Image.create height width 0)).2 x1 y1 ∧
        k1 0 = r ∧ y1 < x1 := by
  have hne : ¬ (r = -1) := by omega
  have hunf : (Circle.mk3 ⟨cx, cy⟩ r col).draw (Image.create height width 0) =
      match drawCirclePart (Image.create height width 0) ⟨cx, cy⟩ ⟨0, r⟩ col with
      | (.error e, img1) => (.error e, img1)
      | (.ok _, img1) => circleLoop ⟨cx, cy⟩ col (r + 1).toNat ⟨0, r⟩ (3 - 2 * r) img1 := by
    simp only [Circle.draw, Circle.mk3, if_neg hne]
    rfl
  rw [hunf] at hok ⊢
  rcases hd : drawCirclePart (Image.create height width 0) ⟨cx, cy⟩ ⟨0, r⟩ col with ⟨res, img1⟩
  rw [hd] at hok
  cases res with
  | error e => cases hok
  | ok u =>
    simp only at hok ⊢
    have hdok : (drawCirclePart (Image.create height width 0) ⟨cx, cy⟩ ⟨0, r⟩ col).1 =
        .ok () := by rw [hd]
    have hI1 := circleInv_step cx cy r col (fun _ => -1) (Image.create height width 0) (-1)
      (r + 1) 0 r (circleInv_blank cx cy r col height width hr) (by omega) (Or.inr (by omega))
      (by omega) le_rfl hdok
    rw [hd] at hI1
    have hc0 : circleHalfWidth (fun _ => -1) 0 r 0 = r := by
      obtain ⟨s1, s2, f1, f2, f3, f4, f5, f6⟩ := circleHalfWidth_spec (fun _ => -1) 0 r 0
      omega
    exact circleLoop_inv cx cy r col hr _ 0 r _ img1 _ (circleArith_init r hr) hI1 hc0
      (by omega) hok

/-- In a picture described by `k`, with a non-zero colour, a cell holds the colour
exactly when it lies on the centred interval of its row. -/
theorem circleInv_getPixel (cx cy r : Int) (col : Nat) (k : Int → Int) (img : Image)
    (x y : Int) (hI : CircleInv cx cy r col k img x y) (hcol : col ≠ 0) (a e : Int) :
    img.getPixel a (cy + e) = .ok col ↔ (-(k e) ≤ a - cx ∧ a - cx ≤ k e) := by
  obtain ⟨hM, hV, -, -, -, -, -⟩ := hI
  constructor
  · intro h
    by_cases hv : img.isPixelValid a (cy + e) = true
    · rw [getPixel_of_valid img _ _ hv, hM] at h
      by_contra hk
      rw [if_neg hk] at h
      simp only [Except.ok.injEq] at h
      exact hcol h.symm
    · rw [Bool.not_eq_true] at hv
      rw [getPixel_of_invalid img _ _ hv] at h
      cases h
  · intro hk
    rw [getPixel_of_valid img _ _ (hV a e hk.1 hk.2), hM, if_pos hk]

/-- C15 (as stated, refuted): the circle with centre (1,1), radius 1 and colour 0 is
drawn successfully on a blank 10x3 grid; the cell (1+4, 1+0) holds the circle's
colour, but (1-4, 1+0) is not a cell of the grid and holds nothing. -/
theorem circle_symmetry_counterexample :
    (1 : Int) ≤ 1 ∧
      ((Circle.mk3 ⟨1, 1⟩ 1 0).draw (Image.create 3 10 0)).1 = .ok () ∧
      zeroColorCircleImage.getPixel (1 + 4) (1 + 0) = .ok 0 ∧
      zeroColorCircleImage.getPixel (1 - 4) (1 + 0) ≠ .ok 0 := by
  decide

/-- C15 (amended): for a circle with centre (cx,cy), radius r >= 1 and a non-zero
colour whose `draw` on a blank grid returns normally, whenever the cell
(cx+dx, cy+dy) holds the circle's colour, so do (cx-dx, cy+dy), (cx+dx, cy-dy)
and (cx-dx, cy-dy). -/
theorem circle_draw_symmetric (cx cy r : Int) (col : Nat) (height width : Int)
    (hr : 1 ≤ r) (hcol : col ≠ 0)
    (hok : ((Circle.mk3 ⟨cx, cy⟩ r col).draw (Image.create height width 0)).1 = .ok ())
    (dx dy : Int)
    (h : ((Circle.mk3 ⟨cx, cy⟩ r col).draw (Image.create height width 0)).2.getPixel
      (cx + dx) (cy + dy) = .ok col) :
    ((Circle.mk3 ⟨cx, cy⟩ r col).draw (Image.create height width 0)).2.getPixel
        (cx - dx) (cy + dy) = .ok col ∧
      ((Circle.mk3 ⟨cx, cy⟩ r col).draw (Image.create height width 0)).2.getPixel
        (cx + dx) (cy - dy) = .ok col ∧
      ((Circle.mk3 ⟨cx, cy⟩ r col).draw (Image.create height width 0)).2.getPixel
        (cx - dx) (cy - dy) = .ok col := by
  obtain ⟨k, x1, y1, hI, -, -⟩ := circle_draw_inv cx cy r col height width hr hok
  have hE := hI.2.2.1 dy
  have e1 : cy - dy = cy + (-dy) := by ring
  rw [circleInv_getPixel cx cy r col k _ x1 y1 hI hcol] at h
  rw [e1, circleInv_getPixel cx cy r col k _ x1 y1 hI hcol,
    circleInv_getPixel cx cy r col k _ x1 y1 hI hcol,
    circleInv_getPixel cx cy r col k _ x1 y1 hI hcol]
  omega

/-- C17 (as stated, refuted): for the circle with centre (1,1), radius 1 and colour 0,
drawn successfully on a blank 10x3 grid, the cells of the centre row that hold the
circle's colour are not an interval [1-k, 1+k] with 0 <= k <= 1: the cell (5,1)
holds it. -/
theorem circle_filled_disk_counterexample :
    (1 : Int) ≤ 1 ∧
      ((Circle.mk3 ⟨1, 1⟩ 1 0).draw (Image.create 3 10 0)).1 = .ok () ∧
      ¬ ∃ k : Int, 0 ≤ k ∧ k ≤ 1 ∧
        ∀ a : Int, zeroColorCircleImage.getPixel a (1 + 0) = .ok 0 ↔ (1 - k ≤ a ∧ a ≤ 1 + k) := by
  refine ⟨by decide, by decide, ?_⟩
  rintro ⟨k, hk0, hk1, h⟩
  have := (h 5).1 (by decide)
  omega

/-- C17 (amended): for a circle with centre (cx,cy), radius r >= 1 and a non-zero
colour whose `draw` on a blank grid returns normally: for every dy with |dy| <= r
the cells of row cy+dy that hold the colour are the interval [cx-k, cx+k] for some
0 <= k <= r; on the centre row they are [cx-r, cx+r]; and every cell of the grid
outside the square [cx-r..cx+r]x[cy-r..cy+r] still holds 0. -/
theorem circle_draw_filled_disk (cx cy r : Int) (col : Nat) (height width : Int)
    (hr : 1 ≤ r) (hcol : col ≠ 0)
    (hok : ((Circle.mk3 ⟨cx, cy⟩ r col).draw (Image.create height width 0)).1 = .ok ()) :
    (∀ dy : Int, -r ≤ dy → dy ≤ r → ∃ k : Int, 0 ≤ k ∧ k ≤ r ∧
        ∀ a : Int,
          ((Circle.mk3 ⟨cx, cy⟩ r col).draw (Image.create height width 0)).2.getPixel
            a (cy + dy) = .ok col ↔ (cx - k ≤ a ∧ a ≤ cx + k)) ∧
      (∀ a : Int,
        ((Circle.mk3 ⟨cx, cy⟩ r col).draw (Image.create height width 0)).2.getPixel a cy =
          .ok col ↔ (cx - r ≤ a ∧ a ≤ cx + r)) ∧
      ∀ a b : Int,
        ((Circle.mk3 ⟨cx, cy⟩ r col).draw (Image.create height width 0)).2.isPixelValid a b =
          true →
        ¬ (cx - r ≤ a ∧ a ≤ cx + r ∧ cy - r ≤ b ∧ b ≤ cy + r) →
        ((Circle.mk3 ⟨cx, cy⟩ r col).draw (Image.create height width 0)).2.getPixel a b =
          .ok 0 := by
  obtain ⟨k, x1, y1, hI, hc, hlt⟩ := circle_draw_inv cx cy r col height width hr hok
  have hget := circleInv_getPixel cx cy r col k _ x1 y1 hI hcol
  obtain ⟨hM, hV, hE, hR, hN, hX, hY⟩ := hI
  refine ⟨fun dy h1 h2 => ⟨k dy, ?_, hR dy, fun a => ?_⟩, fun a => ?_, fun a b hv hout => ?_⟩
  · rw [hN dy]
    omega
  · rw [hget]
    omega
  · have := hget a 0
    rw [add_zero] at this
    rw [this, hc]
    omega
  · have hk := hR (b - cy)
    have hn := hN (b - cy)
    have hm := hM a (b - cy)
    rw [show cy + (b - cy) = b by ring] at hm
    rw [getPixel_of_valid _ _ _ hv, hm, if_neg]
    omega

/-- C16 (the code at radius 0): for every image, centre and colour, `Circle::draw` of
a circle of radius 0 throws; on a blank 5x5 grid with centre (2,2) it throws after
writing the centre and the cells (1..3, 1) and (1..3, 3). -/
theorem circle_draw_radius_zero_throws (img : Image) (center : Vector2) (color : Nat) :
    ((Circle.mk3 center 0 color).draw img).1 = .error .mk ∧
      ((Circle.mk3 ⟨2, 2⟩ 0 7).draw (Image.create 5 5 0)).2.toRows =
        [[0, 0, 0, 0, 0], [0, 7, 7, 7, 0], [0, 0, 7, 0, 0], [0, 7, 7, 7, 0],
          [0, 0, 0, 0, 0]] := by
  refine ⟨?_, by decide⟩
  have hunf : (Circle.mk3 center 0 color).draw img =
      match drawCirclePart img center ⟨0, 0⟩ color with
      | (.error e, img1) => (.error e, img1)
      | (.ok _, img1) => circleLoop center color 1 ⟨0, 0⟩ 3 img1 := rfl
  rw [hunf]
  rcases hd : drawCirclePart img center ⟨0, 0⟩ color with ⟨res, img1⟩
  cases res with
  | error e => cases e; rfl
  | ok u =>
    have hloop : circleLoop center color 1 ⟨0, 0⟩ 3 img1 =
        match drawCirclePart img1 center ⟨1, -1⟩ color with
        | (.error e, img2) => (.error e, img2)
        | (.ok _, img2) => (.ok (), img2) := rfl
    simp only [hloop]
    rcases hd2 : drawCirclePart img1 center ⟨1, -1⟩ color with ⟨res2, img2⟩
    cases res2 with
    | error e => cases e; rfl
    | ok u2 =>
      have := (drawCirclePart_of_ok img1 center ⟨1, -1⟩ color (by rw [hd2])).1
      simp only at this
      omega

/-- C15 (amended), applied to the circle with centre (3,3), radius 2 and colour 7 on
a blank 7x7 grid and the cell (3+1, 3+2). -/
theorem circle_draw_symmetric_witness :
    ((1 : Int) ≤ 2 ∧ (7 : Nat) ≠ 0 ∧
        ((Circle.mk3 ⟨3, 3⟩ 2 7).draw (Image.create 7 7 0)).1 = .ok () ∧
        ((Circle.mk3 ⟨3, 3⟩ 2 7).draw (Image.create 7 7 0)).2.getPixel (3 + 1) (3 + 2) =
          .ok 7) ∧
      (((Circle.mk3 ⟨3, 3⟩ 2 7).draw (Image.create 7 7 0)).2.getPixel (3 - 1) (3 + 2) = .ok 7 ∧
        ((Circle.mk3 ⟨3, 3⟩ 2 7).draw (Image.create 7 7 0)).2.getPixel (3 + 1) (3 - 2) = .ok 7 ∧
        ((Circle.mk3 ⟨3, 3⟩ 2 7).draw (Image.create 7 7 0)).2.getPixel (3 - 1) (3 - 2) =
          .ok 7) :=
  ⟨by decide,
    circle_draw_symmetric 3 3 2 7 7 7 (by decide) (by decide) (by decide) 1 2 (by decide)⟩

/-- C17 (amended), applied to the circle with centre (3,3), radius 2 and colour 7 on
a blank 7x7 grid: its centre row. -/
theorem circle_draw_filled_disk_witness :
    ((1 : Int) ≤ 2 ∧ (7 : Nat) ≠ 0 ∧
        ((Circle.mk3 ⟨3, 3⟩ 2 7).draw (Image.create 7 7 0)).1 = .ok ()) ∧
      ∀ a : Int,
        ((Circle.mk3 ⟨3, 3⟩ 2 7).draw (Image.create 7 7 0)).2.getPixel a 3 = .ok 7 ↔
          (3 - 2 ≤ a ∧ a ≤ 3 + 2) :=
  ⟨by decide,
    (circle_draw_filled_disk 3 3 2 7 7 7 (by decide) (by decide) (by decide)).2.1⟩

theorem RectSpec.apart_of_gap (r s : RectSpec)
    (h : r.x1 + 1 < s.x0 ∨ s.x1 + 1 < r.x0 ∨ r.y1 + 1 < s.y0 ∨ s.y1 + 1 < r.y0) :
    r.apart s := by
  intro a b c d h1 h2
  simp only [RectSpec.contains] at h1 h2
  omega

theorem RectSpec.apart_symm (r s : RectSpec) (h : r.apart s) : s.apart r := by
  intro a b c d h1 h2
  have := h c d a b h2 h1
  omega

theorem RectSpec.disjoint_of_apart (r s : RectSpec) (h : r.apart s) : r.disjoint s := by
  intro a b h1 h2
  have := h a b a b h1 h2
  omega

/-- The bounding box that `setBoundingBox` computes for a two-corner rectangle. -/
theorem setBoundingBox_rectangle (x0 y0 x1 y1 : Int) (c : Nat) (hx : x0 ≤ x1) (hy : y0 ≤ y1) :
    setBoundingBox (Rectangle.mk2 ⟨x0, y0⟩ ⟨x1, y1⟩ c).vertices = (x0, y0, x1, y1) := by
  have s1 : boundingBoxStep (x0, y0, x0, y0) ⟨x1, y0⟩ = (x0, y0, x1, y0) := by
    simp only [boundingBoxStep]
    split_ifs <;> simp only [Prod.mk.injEq, true_and, and_true] <;> omega
  have s2 : boundingBoxStep (x0, y0, x1, y0) ⟨x1, y1⟩ = (x0, y0, x1, y1) := by
    simp only [boundingBoxStep]
    split_ifs <;> simp only [Prod.mk.injEq, true_and, and_true] <;> omega
  have s3 : boundingBoxStep (x0, y0, x1, y1) ⟨x0, y1⟩ = (x0, y0, x1, y1) := by
    simp only [boundingBoxStep]
    split_ifs <;> simp only [Prod.mk.injEq, true_and, and_true] <;> omega
  simp only [setBoundingBox, Rectangle.mk2, Rectangle.mk4, List.getD_cons_zero, List.drop_one,
    List.tail_cons, List.foldl_cons, List.foldl_nil, s1, s2, s3]

/-- Drawing a two-corner rectangle whose box lies in the image returns normally and
writes its colour on exactly the cells of the box. -/
theorem rectangle_draw_eq (x0 y0 x1 y1 : Int) (c : Nat) (img : Image) (hx : x0 ≤ x1)
    (hy : y0 ≤ y1) (hin : 0 ≤ x0 ∧ x1 < img.width ∧ 0 ≤ y0 ∧ y1 < img.height) :
    (Rectangle.mk2 ⟨x0, y0⟩ ⟨x1, y1⟩ c).draw img =
      (.ok (), { img with
        matrix := fun b a =>
          if x0 ≤ a ∧ a ≤ x1 ∧ y0 ≤ b ∧ b ≤ y1 then c else img.matrix b a }) := by
  have hbox := setBoundingBox_rectangle x0 y0 x1 y1 c hx hy
  have hcont : ∀ a b : Int, inBox (x0, y0, x1, y1) a b →
      (Rectangle.mk2 ⟨x0, y0⟩ ⟨x1, y1⟩ c)._isPointInShape ⟨a, b⟩ = true := by
    intro a b hb
    simp only [inBox] at hb
    rw [rectangle_isPointInShape_char x0 y0 x1 y1 c ⟨a, b⟩ hx hy]
    exact ⟨Or.inr ⟨hb.2.2.1, hb.2.2.2⟩, Or.inr ⟨hb.1, hb.2.1⟩⟩
  rw [draw_ok_eq]
  · rw [hbox]
    simp only [Prod.mk.injEq, true_and]
    refine Image.eq_of _ _ (by rfl) (by rfl) ?_
    intro b a
    simp only [paint]
    by_cases hb : inBox (x0, y0, x1, y1) a b
    · have h1 := hcont a b hb
      have hd : decide (inBox (x0, y0, x1, y1) a b) = true := decide_eq_true hb
      simp only [inBox] at hb
      simp only [hd, h1, Bool.and_self, if_true, if_pos hb]
      rfl
    · have hd : decide (inBox (x0, y0, x1, y1) a b) = false := decide_eq_false hb
      simp only [inBox] at hb
      simp only [hd, Bool.false_and, Bool.false_eq_true, if_false, if_neg hb]
  · intro a b hb _
    rw [hbox] at hb
    simp only [inBox] at hb
    simp only [Image.isPixelValid, Bool.and_eq_true, decide_eq_true_eq]
    omega

theorem Depicts.perm (w h : Int) (img : Image) (l l1 : List RectSpec) (hp : l.Perm l1)
    (hd : Depicts w h img l) : Depicts w h img l1 := by
  obtain ⟨hw, hh, hm⟩ := hd
  refine ⟨hw, hh, fun a b => ⟨fun r hr hc => ?_, fun hn => ?_⟩⟩
  · exact (hm a b).1 r (hp.mem_iff.2 hr) hc
  · exact (hm a b).2 (fun r hr => hn r (hp.mem_iff.1 hr))

theorem depicts_blank (w h : Int) : Depicts w h (Image.create h w 0) [] := by
  refine ⟨rfl, rfl, fun a b => ⟨fun r hr => ?_, fun _ => rfl⟩⟩
  cases hr

/-- Drawing the rectangle in any colour `c`, when its box lies in the image. -/
theorem RectSpec.draw_eq (r : RectSpec) (c : Nat) (img : Image) (hx : r.x0 ≤ r.x1)
    (hy : r.y0 ≤ r.y1) (hin : 0 ≤ r.x0 ∧ r.x1 < img.width ∧ 0 ≤ r.y0 ∧ r.y1 < img.height) :
    (r.shape.recolor c).draw img =
      (.ok (), { img with
        matrix := fun b a => if r.contains a b then c else img.matrix b a }) :=
  rectangle_draw_eq r.x0 r.y0 r.x1 r.y1 c img hx hy hin

/-- Drawing a rectangle that fits and overlaps none of the rectangles shown adds
it to the picture. -/
theorem RectSpec.draw_depicts (w h : Int) (img : Image) (l : List RectSpec) (r : RectSpec)
    (hd : Depicts w h img l) (hf : r.fits w h) (hdis : ∀ s ∈ l, s.disjoint r) :
    (r.shape.draw img).1 = .ok () ∧ Depicts w h (r.shape.draw img).2 (r :: l) := by
  obtain ⟨hw, hh, hm⟩ := hd
  obtain ⟨f1, f2, f3, f4, f5, f6, f7⟩ := hf
  have he := RectSpec.draw_eq r r.color img f1 f2
    ⟨f3, by rw [hw]; exact f4, f5, by rw [hh]; exact f6⟩
  have hre : r.shape.recolor r.color = r.shape := rfl
  rw [hre] at he
  rw [he]
  refine ⟨rfl, hw, hh, fun a b => ⟨fun s hs hc => ?_, fun hn => ?_⟩⟩
  · simp only
    rcases List.mem_cons.1 hs with rfl | hs
    · rw [if_pos hc]
    · have : ¬ r.contains a b := hdis s hs a b hc
      rw [if_neg this]
      exact (hm a b).1 s hs hc
  · simp only
    have h1 : ¬ r.contains a b := hn r (List.mem_cons_self _ _)
    rw [if_neg h1]
    exact (hm a b).2 (fun s hs => hn s (List.mem_cons_of_mem _ hs))

/-- Erasing (drawing in colour 0) a rectangle that is shown and overlaps none of
the others removes it from the picture. -/
theorem RectSpec.erase_depicts (w h : Int) (img : Image) (l : List RectSpec) (r : RectSpec)
    (hd : Depicts w h img (r :: l)) (hf : r.fits w h) (hdis : ∀ s ∈ l, s.disjoint r) :
    ((r.shape.recolor BACKGROUND).draw img).1 = .ok () ∧
      Depicts w h ((r.shape.recolor BACKGROUND).draw img).2 l := by
  obtain ⟨hw, hh, hm⟩ := hd
  obtain ⟨f1, f2, f3, f4, f5, f6, f7⟩ := hf
  have he := RectSpec.draw_eq r BACKGROUND img f1 f2
    ⟨f3, by rw [hw]; exact f4, f5, by rw [hh]; exact f6⟩
  rw [he]
  refine ⟨rfl, hw, hh, fun a b => ⟨fun s hs hc => ?_, fun hn => ?_⟩⟩
  · simp only
    have : ¬ r.contains a b := hdis s hs a b hc
    rw [if_neg this]
    exact (hm a b).1 s (List.mem_cons_of_mem _ hs) hc
  · simp only
    by_cases h1 : r.contains a b
    · rw [if_pos h1]
      rfl
    · rw [if_neg h1]
      apply (hm a b).2
      intro s hs
      rcases List.mem_cons.1 hs with rfl | hs
      · exact h1
      · exact hn s hs

/-- Drawing a list of pairwise non-touching rectangles that fit, on a picture of
rectangles they do not touch, returns normally and shows them all. -/
theorem drawShapesToImage_depicts (w h : Int) (rs l : List RectSpec) (img : Image)
    (hd : Depicts w h img l) (hf : ∀ r ∈ rs, r.fits w h)
    (hp : (rs ++ l).Pairwise RectSpec.apart) :
    (drawShapesToImage img (rs.map RectSpec.ptr)).1 = .ok () ∧
      Depicts w h (drawShapesToImage img (rs.map RectSpec.ptr)).2 (rs ++ l) := by
  induction rs generalizing l img with
  | nil => exact ⟨rfl, hd⟩
  | cons r rest ih =>
    have hp1 : (r :: (rest ++ l)).Pairwise RectSpec.apart := hp
    obtain ⟨hr, hrest⟩ := List.pairwise_cons.1 hp1
    have hdraw := RectSpec.draw_depicts w h img l r hd (hf r (List.mem_cons_self _ _))
      (fun s hs => RectSpec.disjoint_of_apart s r
        (RectSpec.apart_symm r s (hr s (List.mem_append_right _ hs))))
    simp only [List.map_cons, drawShapesToImage, RectSpec.ptr, ShapePtr.draw]
    rcases hres : r.shape.draw img with ⟨res, img1⟩
    rw [hres] at hdraw
    simp only at hdraw
    obtain ⟨hok, hdep⟩ := hdraw
    subst hok
    simp only
    have hp2 : (rest ++ (r :: l)).Pairwise RectSpec.apart := by
      refine (List.Perm.pairwise_iff (fun {a b} hab => RectSpec.apart_symm a b hab) ?_).1 hp1
      exact List.perm_middle.symm
    have := ih (r :: l) img1 hdep (fun s hs => hf s (List.mem_cons_of_mem _ hs)) hp2
    refine ⟨this.1, ?_⟩
    exact Depicts.perm w h _ _ _ List.perm_middle this.2

/-- On a picture of non-touching rectangles, the tracer started at the top-left
corner of one of them returns that rectangle. -/
theorem RectSpec.recognize (w h : Int) (img : Image) (l : List RectSpec) (r : RectSpec)
    (hd : Depicts w h img (r :: l)) (hf : r.fits w h) (hap : ∀ s ∈ l, r.apart s) :
    Rectangle.recognizeRectangle img ⟨r.x0, r.y0⟩ = .ok r.shape := by
  obtain ⟨hw, hh, hm⟩ := hd
  obtain ⟨f1, f2, f3, f4, f5, f6, f7⟩ := hf
  have hin : ∀ a b : Int, r.contains a b → isForeground img a b = true := by
    intro a b hc
    have hcol := (hm a b).1 r (List.mem_cons_self _ _) hc
    simp only [RectSpec.contains] at hc
    have hv : img.isPixelValid a b = true := by
      simp only [Image.isPixelValid, Bool.and_eq_true, decide_eq_true_eq]
      omega
    simp only [isForeground, hv, hcol, Bool.true_and, bne_iff_ne, ne_eq, BACKGROUND]
    exact f7
  have hout : ∀ a b : Int, ¬ r.contains a b →
      (∃ c d : Int, r.contains c d ∧ c - a ≤ 1 ∧ a - c ≤ 1 ∧ d - b ≤ 1 ∧ b - d ≤ 1) →
      isForeground img a b = false := by
    intro a b hnc hadj
    obtain ⟨c, d, hcd, h1, h2, h3, h4⟩ := hadj
    have h0 : img.matrix b a = 0 := by
      apply (hm a b).2
      intro s hs
      rcases List.mem_cons.1 hs with rfl | hs
      · exact hnc
      · intro hsc
        have := hap s hs c d a b hcd hsc
        omega
    simp only [isForeground, h0, BACKGROUND, bne_self_eq_false, Bool.and_false]
  have hcorner := setBottomRightRectangleCorner_of_box img r.x0 r.y0 (r.x1 - r.x0).toNat
    (r.y1 - r.y0).toNat (by omega) (by omega)
    (fun i j hi hj => hin _ _ (by simp only [RectSpec.contains]; omega))
    (fun j hj => hout _ _ (by simp only [RectSpec.contains]; omega)
      ⟨r.x1, if r.y0 + j ≤ r.y1 then r.y0 + j else r.y1, by
        simp only [RectSpec.contains]
        split_ifs <;> omega, by omega, by omega, by split_ifs <;> omega,
        by split_ifs <;> omega⟩)
    (fun i hi => hout _ _ (by simp only [RectSpec.contains]; omega)
      ⟨if r.x0 + i ≤ r.x1 then r.x0 + i else r.x1, r.y1, by
        simp only [RectSpec.contains]
        split_ifs <;> omega, by split_ifs <;> omega, by split_ifs <;> omega, by omega,
        by omega⟩)
  have hv0 : img.isPixelValid r.x0 r.y0 = true := by
    simp only [Image.isPixelValid, Bool.and_eq_true, decide_eq_true_eq]
    omega
  have hc0 : img.matrix r.y0 r.x0 = r.color :=
    (hm r.x0 r.y0).1 r (List.mem_cons_self _ _) (by simp only [RectSpec.contains]; omega)
  have e1 : r.x0 + ((r.x1 - r.x0).toNat : Int) = r.x1 := by omega
  have e2 : r.y0 + ((r.y1 - r.y0).toNat : Int) = r.y1 := by omega
  unfold Rectangle.recognizeRectangle
  simp only
  rw [getPixel_of_valid img _ _ hv0, hcorner, hc0, e1, e2]
  rfl

theorem apart_pairwise_perm (l l1 : List RectSpec) (hp : l.Perm l1)
    (h : l.Pairwise RectSpec.apart) : l1.Pairwise RectSpec.apart :=
  (List.Perm.pairwise_iff (fun {a b} hab => RectSpec.apart_symm a b hab) hp).1 h

/-- The inner loop of `getRectanglesFromImage` on a picture of non-touching
rectangles none of which starts before the scan position: it returns normally, and
every rectangle it passes moves from the picture to the list. -/
theorem getRectanglesRow_roundtrip (n y : Int) (hy0 : 0 ≤ y) (hyn : y < n) (k : Nat) :
    ∀ (x : Int) (rects : List ShapePtr) (img : Image) (rem : List RectSpec),
      0 ≤ x → x + k = n → Depicts n n img rem → (∀ r ∈ rem, r.fits n n) →
      rem.Pairwise RectSpec.apart → (∀ r ∈ rem, ¬ rowMajorBefore r.x0 r.y0 x y) →
      ∃ (rects1 : List ShapePtr) (img1 : Image) (rem1 : List RectSpec),
        getRectanglesRow y k x (rects, img) = .ok (rects1, img1) ∧
        Depicts n n img1 rem1 ∧ (∀ r ∈ rem1, r.fits n n) ∧
        rem1.Pairwise RectSpec.apart ∧
        (∀ r ∈ rem1, ¬ rowMajorBefore r.x0 r.y0 (x + k) y) ∧
        (rects1 ++ rem1.map RectSpec.ptr).Perm (rects ++ rem.map RectSpec.ptr) := by
  induction k with
  | zero =>
    intro x rects img rem hx0 hxk hd hf hp hb
    exact ⟨rects, img, rem, rfl, hd, hf, hp, by simpa using hb, List.Perm.refl _⟩
  | succ k ih =>
    intro x rects img rem hx0 hxk hd hf hp hb
    have hxn : x < n := by push_cast at hxk; omega
    have hv : img.isPixelValid x y = true := by
      simp only [Image.isPixelValid, hd.1, hd.2.1, Bool.and_eq_true, decide_eq_true_eq]
      omega
    have hcast : x + 1 + (k : Int) = x + ((k + 1 : Nat) : Int) := by push_cast; ring
    simp only [getRectanglesRow, getPixel_of_valid img x y hv, except_ok_bind]
    by_cases hc : img.matrix y x = 0
    · -- a background cell: no rectangle starts here
      have hbne : (img.matrix y x != BACKGROUND) = false := by
        simp only [hc, BACKGROUND, bne_self_eq_false]
      simp only [hbne, Bool.false_eq_true, if_false]
      have hb1 : ∀ r ∈ rem, ¬ rowMajorBefore r.x0 r.y0 (x + 1) y := by
        intro r hr hlt
        have h1 := hb r hr
        obtain ⟨f1, f2, f3, f4, f5, f6, f7⟩ := hf r hr
        have hne : ¬ (r.x0 = x ∧ r.y0 = y) := by
          rintro ⟨rfl, rfl⟩
          have := (hd.2.2 r.x0 r.y0).1 r hr (by simp only [RectSpec.contains]; omega)
          rw [hc] at this
          exact f7 this.symm
        simp only [rowMajorBefore] at h1 hlt
        omega
      obtain ⟨rects1, img1, rem1, e, hd1, hf1, hp1, hb2, hperm⟩ :=
        ih (x + 1) rects img rem (by omega) (by push_cast at hxk ⊢; omega) hd hf hp hb1
      exact ⟨rects1, img1, rem1, e, hd1, hf1, hp1, by rw [← hcast]; exact hb2, hperm⟩
    · -- a foreground cell: it is the top-left corner of a rectangle of the picture
      have hbne : (img.matrix y x != BACKGROUND) = true := by
        simp only [BACKGROUND, bne_iff_ne, ne_eq]
        exact hc
      simp only [hbne, if_true]
      have hex : ∃ r ∈ rem, r.contains x y := by
        by_contra hcon
        push_neg at hcon
        exact hc ((hd.2.2 x y).2 hcon)
      obtain ⟨r, hr, hrc⟩ := hex
      have hfr := hf r hr
      have htl : r.x0 = x ∧ r.y0 = y := by
        have h1 := hb r hr
        simp only [rowMajorBefore] at h1
        simp only [RectSpec.contains] at hrc
        omega
      have hperm0 : rem.Perm (r :: rem.erase r) := List.perm_cons_erase hr
      have hd0 := Depicts.perm n n img _ _ hperm0 hd
      have hp0 := apart_pairwise_perm _ _ hperm0 hp
      obtain ⟨hap, hp1⟩ := List.pairwise_cons.1 hp0
      have hrec := RectSpec.recognize n n img (rem.erase r) r hd0 hfr hap
      rw [htl.1, htl.2] at hrec
      have hera := RectSpec.erase_depicts n n img (rem.erase r) r hd0 hfr
        (fun s hs => RectSpec.disjoint_of_apart s r (RectSpec.apart_symm r s (hap s hs)))
      rw [hrec]
      simp only [except_ok_bind]
      rcases hres : (r.shape.recolor BACKGROUND).draw img with ⟨res, img1⟩
      rw [hres] at hera
      simp only at hera
      obtain ⟨hok, hd1⟩ := hera
      subst hok
      simp only
      have hf1 : ∀ s ∈ rem.erase r, s.fits n n := fun s hs => hf s (List.mem_of_mem_erase hs)
      have hb1 : ∀ s ∈ rem.erase r, ¬ rowMajorBefore s.x0 s.y0 (x + 1) y := by
        intro s hs hlt
        have h1 := hb s (List.mem_of_mem_erase hs)
        obtain ⟨f1, f2, f3, f4, f5, f6, f7⟩ := hf1 s hs
        have hne : ¬ (s.x0 = x ∧ s.y0 = y) := by
          rintro ⟨e1, e2⟩
          have := hap s hs x y x y hrc (by simp only [RectSpec.contains]; omega)
          omega
        simp only [rowMajorBefore] at h1 hlt
        omega
      obtain ⟨rects1, img2, rem1, e, hd2, hf2, hp2, hb2, hperm⟩ :=
        ih (x + 1) (ShapePtr.rectangle r.shape :: rects) img1 (rem.erase r) (by omega)
          (by push_cast at hxk ⊢; omega) hd1 hf1 hp1 hb1
      refine ⟨rects1, img2, rem1, e, hd2, hf2, hp2, by rw [← hcast]; exact hb2, ?_⟩
      refine hperm.trans ?_
      have h2 : (rects ++ rem.map RectSpec.ptr).Perm
          (rects ++ (r :: rem.erase r).map RectSpec.ptr) :=
        List.Perm.append_left _ (hperm0.map _)
      refine List.Perm.trans ?_ h2.symm
      simp only [List.map_cons, List.cons_append]
      exact List.perm_middle.symm

/-- The outer loop of `getRectanglesFromImage` on a square picture of non-touching
rectangles none of which starts above the scan row. -/
theorem getRectanglesRows_roundtrip (n : Int) (m : Nat) :
    ∀ (y : Int) (rects : List ShapePtr) (img : Image) (rem : List RectSpec),
      0 ≤ y → y + m = n → Depicts n n img rem → (∀ r ∈ rem, r.fits n n) →
      rem.Pairwise RectSpec.apart → (∀ r ∈ rem, y ≤ r.y0) →
      ∃ (rects1 : List ShapePtr) (img1 : Image) (rem1 : List RectSpec),
        getRectanglesRows n.toNat m y (rects, img) = .ok (rects1, img1) ∧
        Depicts n n img1 rem1 ∧ (∀ r ∈ rem1, r.fits n n) ∧
        rem1.Pairwise RectSpec.apart ∧ (∀ r ∈ rem1, y + m ≤ r.y0) ∧
        (rects1 ++ rem1.map RectSpec.ptr).Perm (rects ++ rem.map RectSpec.ptr) := by
  induction m with
  | zero =>
    intro y rects img rem hy0 hym hd hf hp hb
    exact ⟨rects, img, rem, rfl, hd, hf, hp, by simpa using hb, List.Perm.refl _⟩
  | succ m ih =>
    intro y rects img rem hy0 hym hd hf hp hb
    have hyn : y < n := by push_cast at hym; omega
    obtain ⟨rects1, img1, rem1, e1, hd1, hf1, hp1, hb1, hperm1⟩ :=
      getRectanglesRow_roundtrip n y hy0 hyn n.toNat 0 rects img rem le_rfl (by omega) hd hf hp
        (fun r hr hlt => by
          have h1 := hb r hr
          obtain ⟨f1, f2, f3, f4, f5, f6, f7⟩ := hf r hr
          simp only [rowMajorBefore] at hlt
          omega)
    have hb2 : ∀ r ∈ rem1, y + 1 ≤ r.y0 := by
      intro r hr
      have h1 := hb1 r hr
      obtain ⟨f1, f2, f3, f4, f5, f6, f7⟩ := hf1 r hr
      simp only [rowMajorBefore] at h1
      omega
    obtain ⟨rects2, img2, rem2, e2, hd2, hf2, hp2, hb3, hperm2⟩ :=
      ih (y + 1) rects1 img1 rem1 (by omega) (by push_cast at hym ⊢; omega) hd1 hf1 hp1 hb2
    refine ⟨rects2, img2, rem2, ?_, hd2, hf2, hp2, ?_, hperm2.trans hperm1⟩
    · simp only [getRectanglesRows, e1, except_ok_bind, e2]
    · intro r hr
      have := hb3 r hr
      push_cast
      omega

/-- `getRectanglesFromImage` on a square picture of non-touching rectangles returns
exactly the rectangles of the picture. -/
theorem getRectanglesFromImage_of_depicts (n : Int) (img : Image) (rs : List RectSpec)
    (hd : Depicts n n img rs) (hf : ∀ r ∈ rs, r.fits n n) (hp : rs.Pairwise RectSpec.apart) :
    ∃ l : List ShapePtr, getRectanglesFromImage img = .ok l ∧ l.Perm (rs.map RectSpec.ptr) := by
  have hw : img.width = n := hd.1
  by_cases hn : 0 ≤ n
  · obtain ⟨rects1, img1, rem1, e1, hd1, hf1, hp1, hb1, hperm1⟩ :=
      getRectanglesRows_roundtrip n n.toNat 0 [] img rs le_rfl (by omega) hd hf hp
        (fun r hr => (hf r hr).2.2.2.2.1)
    have hnil : rem1 = [] := by
      rcases rem1 with _ | ⟨r, t⟩
      · rfl
      · have h1 := hb1 r (List.mem_cons_self _ _)
        obtain ⟨f1, f2, f3, f4, f5, f6, f7⟩ := hf1 r (List.mem_cons_self _ _)
        omega
    subst hnil
    refine ⟨rects1, ?_, by simpa using hperm1⟩
    simp only [getRectanglesFromImage, Image.getWidth, hw, e1, except_ok_bind]
    rfl
  · have hnil : rs = [] := by
      rcases rs with _ | ⟨r, t⟩
      · rfl
      · obtain ⟨f1, f2, f3, f4, f5, f6, f7⟩ := hf r (List.mem_cons_self _ _)
        omega
    subst hnil
    have h0 : n.toNat = 0 := by omega
    refine ⟨[], ?_, List.Perm.refl _⟩
    simp only [getRectanglesFromImage, Image.getWidth, hw, h0, getRectanglesRows, except_ok_bind]
    rfl

/-- C11 (as stated, refuted): the one-cell rectangles (0,0) of colour 1 and (1,0) of
colour 2 fit in a blank 2x2 grid and do not overlap, but from the grid with both
drawn `getRectanglesFromImage` returns the single rectangle (0,0)-(1,0) of colour 1. -/
theorem roundtrip_touching_counterexample :
    ((⟨0, 0, 0, 0, 1⟩ : RectSpec).fits 2 2 ∧ (⟨1, 0, 1, 0, 2⟩ : RectSpec).fits 2 2) ∧
      (∀ a b : Int, (⟨0, 0, 0, 0, 1⟩ : RectSpec).contains a b →
        ¬ (⟨1, 0, 1, 0, 2⟩ : RectSpec).contains a b) ∧
      touchingImage.toRows = [[1, 2], [0, 0]] ∧
      getRectanglesFromImage touchingImage =
        .ok [ShapePtr.rectangle (Rectangle.mk2 ⟨0, 0⟩ ⟨1, 0⟩ 1)] ∧
      ¬ List.Perm [ShapePtr.rectangle (Rectangle.mk2 ⟨0, 0⟩ ⟨1, 0⟩ 1)]
        [RectSpec.ptr ⟨0, 0, 0, 0, 1⟩, RectSpec.ptr ⟨1, 0, 1, 0, 2⟩] := by
  refine ⟨by decide, ?_, by decide, by decide, ?_⟩
  · intro a b h1 h2
    simp only [RectSpec.contains] at h1 h2
    omega
  · intro h
    have := h.length_eq
    simp at this

/-- C11 (amended): on a blank square grid, for every list of axis-aligned rectangles
with non-zero colours that fit in the grid and are pairwise non-touching (no cell of
one equal or 8-adjacent to a cell of another), drawn in any order, the drawing
succeeds and `getRectanglesFromImage` returns exactly one rectangle per drawn
rectangle, with the same four corners and the same colour, and nothing else. -/
theorem roundtrip_separated_rectangles (n : Int) (rs order : List RectSpec)
    (hf : ∀ r ∈ rs, r.fits n n) (hp : rs.Pairwise RectSpec.apart) (ho : order.Perm rs) :
    (drawShapesToImage (Image.create n n 0) (order.map RectSpec.ptr)).1 = .ok () ∧
      ∃ l : List ShapePtr,
        getRectanglesFromImage
            (drawShapesToImage (Image.create n n 0) (order.map RectSpec.ptr)).2 = .ok l ∧
          l.Perm (rs.map RectSpec.ptr) := by
  have hfo : ∀ r ∈ order, r.fits n n := fun r hr => hf r (ho.mem_iff.1 hr)
  have hpo : order.Pairwise RectSpec.apart := apart_pairwise_perm _ _ ho.symm hp
  have hdraw := drawShapesToImage_depicts n n order [] (Image.create n n 0) (depicts_blank n n)
    hfo (by simpa using hpo)
  refine ⟨hdraw.1, ?_⟩
  have hd : Depicts n n (drawShapesToImage (Image.create n n 0) (order.map RectSpec.ptr)).2 rs :=
    Depicts.perm n n _ _ _ (by simpa using ho) hdraw.2
  exact getRectanglesFromImage_of_depicts n _ rs hd hf hp

/-- C11 (amended), applied to the two rectangles of the demo on a 6x6 grid, drawn
in the order `rect2`, `rect1`. -/
theorem roundtrip_separated_rectangles_witness :
    ((∀ r ∈ [(⟨1, 1, 3, 2, 70⟩ : RectSpec), ⟨3, 4, 4, 5, 140⟩], r.fits 6 6) ∧
        [(⟨1, 1, 3, 2, 70⟩ : RectSpec), ⟨3, 4, 4, 5, 140⟩].Pairwise RectSpec.apart ∧
        [(⟨3, 4, 4, 5, 140⟩ : RectSpec), ⟨1, 1, 3, 2, 70⟩].Perm
          [⟨1, 1, 3, 2, 70⟩, ⟨3, 4, 4, 5, 140⟩]) ∧
      ((drawShapesToImage (Image.create 6 6 0)
          ([(⟨3, 4, 4, 5, 140⟩ : RectSpec), ⟨1, 1, 3, 2, 70⟩].map RectSpec.ptr)).1 = .ok () ∧
        ∃ l : List ShapePtr,
          getRectanglesFromImage
              (drawShapesToImage (Image.create 6 6 0)
                ([(⟨3, 4, 4, 5, 140⟩ : RectSpec), ⟨1, 1, 3, 2, 70⟩].map RectSpec.ptr)).2 =
            .ok l ∧
          l.Perm ([(⟨1, 1, 3, 2, 70⟩ : RectSpec), ⟨3, 4, 4, 5, 140⟩].map RectSpec.ptr)) := by
  have hf : ∀ r ∈ [(⟨1, 1, 3, 2, 70⟩ : RectSpec), ⟨3, 4, 4, 5, 140⟩], r.fits 6 6 := by decide
  have hp : [(⟨1, 1, 3, 2, 70⟩ : RectSpec), ⟨3, 4, 4, 5, 140⟩].Pairwise RectSpec.apart := by
    refine List.Pairwise.cons ?_ (List.Pairwise.cons (fun _ h => by cases h) List.Pairwise.nil)
    intro s hs
    rcases List.mem_singleton.1 hs with rfl
    exact RectSpec.apart_of_gap _ _ (by decide)
  have ho : [(⟨3, 4, 4, 5, 140⟩ : RectSpec), ⟨1, 1, 3, 2, 70⟩].Perm
      [⟨1, 1, 3, 2, 70⟩, ⟨3, 4, 4, 5, 140⟩] := List.Perm.swap _ _ _
  exact ⟨⟨hf, hp, ho⟩, roundtrip_separated_rectangles 6 _ _ hf hp ho⟩

/-- A `drawCirclePart` whose state is non-negative and whose four spans lie in the
image returns normally. -/
theorem drawCirclePart_ok_of_range (img : Image) (center part : Vector2) (color : Nat)
    (h : 0 ≤ part.x ∧ 0 ≤ part.y ∧ 0 ≤ center.x - part.x ∧ center.x + part.x < img.width ∧
      0 ≤ center.x - part.y ∧ center.x + part.y < img.width ∧
      0 ≤ center.y - part.x ∧ center.y + part.x < img.height ∧
      0 ≤ center.y - part.y ∧ center.y + part.y < img.height) :
    (drawCirclePart img center part color).1 = .ok () := by
  unfold drawCirclePart
  simp only
  rcases h1 : img.drawHorizontalLine ⟨center.x - part.x, center.y + part.y⟩
    (center.x + part.x) color with ⟨r1, i1⟩
  have o1 := drawHorizontalLine_ok_of_range img ⟨center.x - part.x, center.y + part.y⟩
    (center.x + part.x) color (by simp only; omega)
  have k1 := drawHorizontalLine_of_ok img ⟨center.x - part.x, center.y + part.y⟩
    (center.x + part.x) color o1
  rw [h1] at o1 k1
  simp only at o1 k1
  subst o1
  simp only
  obtain ⟨-, w1, e1, -⟩ := k1
  rcases h2 : i1.drawHorizontalLine ⟨center.x - part.x, center.y - part.y⟩
    (center.x + part.x) color with ⟨r2, i2⟩
  have o2 := drawHorizontalLine_ok_of_range i1 ⟨center.x - part.x, center.y - part.y⟩
    (center.x + part.x) color (by simp only; omega)
  have k2 := drawHorizontalLine_of_ok i1 ⟨center.x - part.x, center.y - part.y⟩
    (center.x + part.x) color o2
  rw [h2] at o2 k2
  simp only at o2 k2
  subst o2
  simp only
  obtain ⟨-, w2, e2, -⟩ := k2
  rcases h3 : i2.drawHorizontalLine ⟨center.x - part.y, center.y + part.x⟩
    (center.x + part.y) color with ⟨r3, i3⟩
  have o3 := drawHorizontalLine_ok_of_range i2 ⟨center.x - part.y, center.y + part.x⟩
    (center.x + part.y) color (by simp only; omega)
  have k3 := drawHorizontalLine_of_ok i2 ⟨center.x - part.y, center.y + part.x⟩
    (center.x + part.y) color o3
  rw [h3] at o3 k3
  simp only at o3 k3
  subst o3
  simp only
  obtain ⟨-, w3, e3, -⟩ := k3
  exact drawHorizontalLine_ok_of_range i3 ⟨center.x - part.y, center.y - part.x⟩
    (center.x + part.y) color (by simp only; omega)

/-- The loop of `Circle::draw` returns normally when the square around the centre
lies in the image. -/
theorem circleLoop_ok (cx cy r : Int) (col : Nat) (hr : 1 ≤ r) (n : Nat) (x y d : Int)
    (img : Image) (hA : CircleArith r x y d) (hpos : 1 ≤ x ∨ y = r)
    (hsq : 0 ≤ cx - r ∧ cx + r < img.width ∧ 0 ≤ cy - r ∧ cy + r < img.height) :
    (circleLoop ⟨cx, cy⟩ col n ⟨x, y⟩ d img).1 = .ok () := by
  induction n generalizing x y d img with
  | zero => rfl
  | succ n ih =>
    by_cases hyx : y ≥ x
    · have hstep := circleArith_step r x y d hr hA hyx
      have hy1 : (if d > 0 then y - 1 else y) = y ∨ (if d > 0 then y - 1 else y) = y - 1 := by
        by_cases hp : d > 0
        · exact Or.inr (if_pos hp)
        · exact Or.inl (if_neg hp)
      have hyr : (if d > 0 then y - 1 else y) ≤ r ∧ 0 ≤ (if d > 0 then y - 1 else y) := by
        have h1 := hA.2.2.1
        have h2 := hA.2.1
        rcases hy1 with e | e <;> rw [e] <;> omega
      have hdok := drawCirclePart_ok_of_range img ⟨cx, cy⟩
        ⟨x + 1, if d > 0 then y - 1 else y⟩ col (by
          have h2 := hA.2.1
          have h3 := hstep.2
          simp only
          omega)
      have hdims := drawCirclePart_of_ok img ⟨cx, cy⟩ ⟨x + 1, if d > 0 then y - 1 else y⟩ col hdok
      simp only [circleLoop, if_pos hyx]
      rcases hd : drawCirclePart img ⟨cx, cy⟩ ⟨x + 1, if d > 0 then y - 1 else y⟩ col with
        ⟨res, img1⟩
      rw [hd] at hdok hdims
      simp only at hdok hdims
      subst hdok
      simp only
      exact ih (x + 1) _ _ img1 hstep.1 (Or.inl (by have := hA.2.1; omega))
        (by rw [hdims.2.1, hdims.2.2.1]; exact hsq)
    · simp only [circleLoop, if_neg hyx]

/-- `Circle::draw` of a circle of radius at least 1 returns normally when the
square [cx-r..cx+r]x[cy-r..cy+r] lies in the image. -/
theorem circle_draw_ok_of_square (cx cy r : Int) (col : Nat) (img : Image) (hr : 1 ≤ r)
    (hsq : 0 ≤ cx - r ∧ cx + r < img.width ∧ 0 ≤ cy - r ∧ cy + r < img.height) :
    ((Circle.mk3 ⟨cx, cy⟩ r col).draw img).1 = .ok () := by
  have hne : ¬ (r = -1) := by omega
  have hunf : (Circle.mk3 ⟨cx, cy⟩ r col).draw img =
      match drawCirclePart img ⟨cx, cy⟩ ⟨0, r⟩ col with
      | (.error e, img1) => (.error e, img1)
      | (.ok _, img1) => circleLoop ⟨cx, cy⟩ col (r + 1).toNat ⟨0, r⟩ (3 - 2 * r) img1 := by
    simp only [Circle.draw, Circle.mk3, if_neg hne]
    rfl
  rw [hunf]
  have hdok := drawCirclePart_ok_of_range img ⟨cx, cy⟩ ⟨0, r⟩ col (by simp only; omega)
  have hdims := drawCirclePart_of_ok img ⟨cx, cy⟩ ⟨0, r⟩ col hdok
  rcases hd : drawCirclePart img ⟨cx, cy⟩ ⟨0, r⟩ col with ⟨res, img1⟩
  rw [hd] at hdok hdims
  simp only at hdok hdims
  subst hdok
  simp only
  exact circleLoop_ok cx cy r col hr _ 0 r _ img1 (circleArith_init r hr) (Or.inr rfl)
    (by rw [hdims.2.1, hdims.2.2.1]; exact hsq)

/-! ## The bounding box, pixel writes and rectangle fills -/

theorem boundingBoxStep_boxOf (box : Int × Int × Int × Int) (S : Vector2 → Prop) (v : Vector2)
    (h : BoxOf box S) : BoxOf (boundingBoxStep box v) (fun u => S u ∨ u = v) := by
  obtain ⟨minX, minY, maxX, maxY⟩ := box
  obtain ⟨hall, ⟨v1, s1, e1⟩, ⟨v2, s2, e2⟩, ⟨v3, s3, e3⟩, ⟨v4, s4, e4⟩⟩ := h
  simp only at hall e1 e2 e3 e4
  have hx : minX ≤ maxX := by have := hall v1 s1; omega
  have hy : minY ≤ maxY := by have := hall v3 s3; omega
  have key : ∀ (a b c d : Int),
      (a = (if v.x < minX then v.x else minX)) →
      (c = (if v.x < minX then maxX else if v.x > maxX then v.x else maxX)) →
      (b = (if v.y < minY then v.y else minY)) →
      (d = (if v.y < minY then maxY else if v.y > maxY then v.y else maxY)) →
      BoxOf (a, b, c, d) (fun u => S u ∨ u = v) := by
    intro a b c d ha hc hb hd
    refine ⟨?_, ?_, ?_, ?_, ?_⟩
    · intro u hu
      simp only
      rcases hu with hu | rfl
      · have := hall u hu
        split_ifs at ha hc hb hd <;> omega
      · split_ifs at ha hc hb hd <;> omega
    · by_cases h1 : v.x < minX
      · exact ⟨v, Or.inr rfl, by simp only [ha, if_pos h1]⟩
      · exact ⟨v1, Or.inl s1, by simp only [ha, if_neg h1, e1]⟩
    · by_cases h1 : v.x < minX
      · exact ⟨v2, Or.inl s2, by simp only [hc, if_pos h1, e2]⟩
      · by_cases h2 : v.x > maxX
        · exact ⟨v, Or.inr rfl, by simp only [hc, if_neg h1, if_pos h2]⟩
        · exact ⟨v2, Or.inl s2, by simp only [hc, if_neg h1, if_neg h2, e2]⟩
    · by_cases h1 : v.y < minY
      · exact ⟨v, Or.inr rfl, by simp only [hb, if_pos h1]⟩
      · exact ⟨v3, Or.inl s3, by simp only [hb, if_neg h1, e3]⟩
    · by_cases h1 : v.y < minY
      · exact ⟨v4, Or.inl s4, by simp only [hd, if_pos h1, e4]⟩
      · by_cases h2 : v.y > maxY
        · exact ⟨v, Or.inr rfl, by simp only [hd, if_neg h1, if_pos h2]⟩
        · exact ⟨v4, Or.inl s4, by simp only [hd, if_neg h1, if_neg h2, e4]⟩
  have e : boundingBoxStep (minX, minY, maxX, maxY) v =
      ((if v.x < minX then v.x else minX), (if v.y < minY then v.y else minY),
        (if v.x < minX then maxX else if v.x > maxX then v.x else maxX),
        (if v.y < minY then maxY else if v.y > maxY then v.y else maxY)) := by
    simp only [boundingBoxStep]
    split_ifs <;> rfl
  rw [e]
  exact key _ _ _ _ rfl rfl rfl rfl

theorem foldl_boundingBoxStep_boxOf (l : List Vector2) (box : Int × Int × Int × Int)
    (S : Vector2 → Prop) (h : BoxOf box S) :
    BoxOf (l.foldl boundingBoxStep box) (fun u => S u ∨ u ∈ l) := by
  induction l generalizing box S with
  | nil =>
    have e : (fun u => S u ∨ u ∈ ([] : List Vector2)) = S := by
      funext u
      simp
    rw [e]
    exact h
  | cons v rest ih =>
    have h1 := ih (boundingBoxStep box v) _ (boundingBoxStep_boxOf box S v h)
    have e : (fun u => S u ∨ u ∈ v :: rest) = (fun u => (S u ∨ u = v) ∨ u ∈ rest) := by
      funext u
      simp only [List.mem_cons, or_assoc]
    rw [e]
    exact h1

/-- C21: on every grid and for every valid cell `(x, y)`, `drawPixel((x,y), c)`
returns normally; afterwards `getPixel(x, y)` returns `c`, `getPixel` of every
other cell returns what it returned before, and width and height are unchanged. -/
theorem drawPixel_then_getPixel (img : Image) (x y : Int) (c : Nat)
    (hv : img.isPixelValid x y = true) :
    ∃ img1 : Image, img.drawPixel ⟨x, y⟩ c = .ok img1 ∧ img1.getPixel x y = .ok c ∧
      (∀ a b : Int, (a ≠ x ∨ b ≠ y) → img1.getPixel a b = img.getPixel a b) ∧
      img1.getWidth = img.getWidth ∧ img1.getHeight = img.getHeight := by
  refine ⟨_, drawPixel_of_valid img x y c hv, ?_, ?_, rfl, rfl⟩
  · rw [getPixel_of_valid _ x y (by rw [← hv]; rfl)]
    simp only [and_self, if_true]
  · intro a b hne
    have hn : ¬ (b = y ∧ a = x) := by omega
    simp only [Image.getPixel, hn, if_false]

/-- C21 on a blank image of height 3 and width 4, at the cell (2,1) with colour 7. -/
theorem drawPixel_then_getPixel_witness :
    (Image.create 3 4 0).isPixelValid 2 1 = true ∧
      ∃ img1 : Image, (Image.create 3 4 0).drawPixel ⟨2, 1⟩ 7 = .ok img1 ∧
        img1.getPixel 2 1 = .ok 7 ∧
        (∀ a b : Int, (a ≠ 2 ∨ b ≠ 1) → img1.getPixel a b = (Image.create 3 4 0).getPixel a b) ∧
        img1.getWidth = (Image.create 3 4 0).getWidth ∧
        img1.getHeight = (Image.create 3 4 0).getHeight :=
  ⟨by decide, drawPixel_then_getPixel (Image.create 3 4 0) 2 1 7 (by decide)⟩

/-- C23: for every rectangle `Rectangle(topLeft, bottomRight, c)` with
`topLeft.x <= bottomRight.x` and `topLeft.y <= bottomRight.y` (one-column, one-row
and single-cell rectangles included) and every grid containing its box,
`Shape::draw` returns normally and the grid afterwards holds `c` on every cell of
the box and its old content on every other cell; its recolored copy
`Rectangle(rect, BACKGROUND)` does the same with colour 0. -/
theorem rectangle_draw_fills_box (topLeft bottomRight : Vector2) (c : Nat) (img : Image)
    (hx : topLeft.x ≤ bottomRight.x) (hy : topLeft.y ≤ bottomRight.y)
    (hin : 0 ≤ topLeft.x ∧ bottomRight.x < img.width ∧ 0 ≤ topLeft.y ∧
      bottomRight.y < img.height) :
    (Rectangle.mk2 topLeft bottomRight c).draw img =
        (.ok (), { img with
          matrix := fun b a =>
            if topLeft.x ≤ a ∧ a ≤ bottomRight.x ∧ topLeft.y ≤ b ∧ b ≤ bottomRight.y then c
            else img.matrix b a }) ∧
      ((Rectangle.mk2 topLeft bottomRight c).recolor BACKGROUND).draw img =
        (.ok (), { img with
          matrix := fun b a =>
            if topLeft.x ≤ a ∧ a ≤ bottomRight.x ∧ topLeft.y ≤ b ∧ b ≤ bottomRight.y then 0
            else img.matrix b a }) :=
  ⟨rectangle_draw_eq topLeft.x topLeft.y bottomRight.x bottomRight.y c img hx hy hin,
    rectangle_draw_eq topLeft.x topLeft.y bottomRight.x bottomRight.y 0 img hx hy hin⟩

/-- C23 for the single-cell rectangle at (2,1) of colour 9 on the first demo image. -/
theorem rectangle_draw_fills_box_witness :
    ((2 : Int) ≤ 2 ∧ (1 : Int) ≤ 1 ∧ ((0 : Int) ≤ 2 ∧ 2 < img1.width ∧ (0 : Int) ≤ 1 ∧
        1 < img1.height)) ∧
      ((Rectangle.mk2 ⟨2, 1⟩ ⟨2, 1⟩ 9).draw img1 =
          (.ok (), { img1 with
            matrix := fun b a =>
              if (2 : Int) ≤ a ∧ a ≤ 2 ∧ (1 : Int) ≤ b ∧ b ≤ 1 then 9 else img1.matrix b a }) ∧
        ((Rectangle.mk2 ⟨2, 1⟩ ⟨2, 1⟩ 9).recolor BACKGROUND).draw img1 =
          (.ok (), { img1 with
            matrix := fun b a =>
              if (2 : Int) ≤ a ∧ a ≤ 2 ∧ (1 : Int) ≤ b ∧ b ≤ 1 then 0 else img1.matrix b a })) :=
  ⟨by decide, rectangle_draw_fills_box ⟨2, 1⟩ ⟨2, 1⟩ 9 img1 (by decide) (by decide) (by decide)⟩

/-- C26: for every non-empty vertex array, the box `(minX, minY, maxX, maxY)` set by
`setBoundingBox` bounds every vertex, and each of its four numbers is attained by
some vertex: `minX` and `maxX` are the least and the greatest x coordinate, `minY`
and `maxY` the least and the greatest y coordinate. -/
theorem setBoundingBox_min_max (vertices : List Vector2) (hne : vertices ≠ []) :
    (∀ v ∈ vertices, (setBoundingBox vertices).1 ≤ v.x ∧ v.x ≤ (setBoundingBox vertices).2.2.1 ∧
        (setBoundingBox vertices).2.1 ≤ v.y ∧ v.y ≤ (setBoundingBox vertices).2.2.2) ∧
      (∃ v ∈ vertices, v.x = (setBoundingBox vertices).1) ∧
      (∃ v ∈ vertices, v.x = (setBoundingBox vertices).2.2.1) ∧
      (∃ v ∈ vertices, v.y = (setBoundingBox vertices).2.1) ∧
      (∃ v ∈ vertices, v.y = (setBoundingBox vertices).2.2.2) := by
  rcases vertices with _ | ⟨v0, rest⟩
  · exact absurd rfl hne
  · have h0 : BoxOf (v0.x, v0.y, v0.x, v0.y) (fun u => u = v0) := by
      refine ⟨?_, ⟨v0, rfl, rfl⟩, ⟨v0, rfl, rfl⟩, ⟨v0, rfl, rfl⟩, ⟨v0, rfl, rfl⟩⟩
      intro v hv
      subst hv
      simp only
      omega
    have h1 := foldl_boundingBoxStep_boxOf rest _ _ h0
    have e : setBoundingBox (v0 :: rest) =
        rest.foldl boundingBoxStep (v0.x, v0.y, v0.x, v0.y) := rfl
    rw [e]
    obtain ⟨hall, ⟨v1, s1, e1⟩, ⟨v2, s2, e2⟩, ⟨v3, s3, e3⟩, ⟨v4, s4, e4⟩⟩ := h1
    refine ⟨fun v hv => hall v (List.mem_cons.1 hv), ⟨v1, List.mem_cons.2 s1, e1⟩,
      ⟨v2, List.mem_cons.2 s2, e2⟩, ⟨v3, List.mem_cons.2 s3, e3⟩, ⟨v4, List.mem_cons.2 s4, e4⟩⟩

/-- C26 on the vertices of the demo triangle. -/
theorem setBoundingBox_min_max_witness :
    triangle.vertices ≠ [] ∧
      ((∀ v ∈ triangle.vertices,
          (setBoundingBox triangle.vertices).1 ≤ v.x ∧
          v.x ≤ (setBoundingBox triangle.vertices).2.2.1 ∧
          (setBoundingBox triangle.vertices).2.1 ≤ v.y ∧
          v.y ≤ (setBoundingBox triangle.vertices).2.2.2) ∧
        (∃ v ∈ triangle.vertices, v.x = (setBoundingBox triangle.vertices).1) ∧
        (∃ v ∈ triangle.vertices, v.x = (setBoundingBox triangle.vertices).2.2.1) ∧
        (∃ v ∈ triangle.vertices, v.y = (setBoundingBox triangle.vertices).2.1) ∧
        (∃ v ∈ triangle.vertices, v.y = (setBoundingBox triangle.vertices).2.2.2)) :=
  ⟨by decide, setBoundingBox_min_max triangle.vertices (by decide)⟩

/-! ## Winding, and the round trip of separated rectangles -/

/-- C24: on a blank square grid, for every finite collection `rs` of axis-aligned
rectangles with non-zero colours that fit in the grid and are pairwise non-touching,
drawn in any order `order`, the drawing returns normally and
`getRectanglesFromImage` on the result returns without error an array that is a
rearrangement of `rs`: each drawn rectangle once, with its corners and colour, and
nothing else. -/
theorem separated_rectangles_round_trip (n : Int) (rs order : List RectSpec)
    (hf : ∀ r ∈ rs, r.fits n n) (hp : rs.Pairwise RectSpec.apart) (ho : order.Perm rs) :
    (drawShapesToImage (Image.create n n 0) (order.map RectSpec.ptr)).1 = .ok () ∧
      ∃ l : List ShapePtr,
        getRectanglesFromImage
            (drawShapesToImage (Image.create n n 0) (order.map RectSpec.ptr)).2 = .ok l ∧
          l.Perm (rs.map RectSpec.ptr) ∧ l.length = rs.length := by
  have hfo : ∀ r ∈ order, r.fits n n := fun r hr => hf r (ho.mem_iff.1 hr)
  have hpo : order.Pairwise RectSpec.apart := apart_pairwise_perm _ _ ho.symm hp
  have hdraw := drawShapesToImage_depicts n n order [] (Image.create n n 0) (depicts_blank n n)
    hfo (by simpa using hpo)
  refine ⟨hdraw.1, ?_⟩
  have hd : Depicts n n (drawShapesToImage (Image.create n n 0) (order.map RectSpec.ptr)).2 rs :=
    Depicts.perm n n _ _ _ (by simpa using ho) hdraw.2
  obtain ⟨l, e, hl⟩ := getRectanglesFromImage_of_depicts n _ rs hd hf hp
  exact ⟨l, e, hl, by rw [hl.length_eq, List.length_map]⟩

/-- C24 for three separated rectangles on an 8x8 grid, drawn in another order. -/
theorem separated_rectangles_round_trip_witness :
    ((∀ r ∈ [(⟨0, 0, 1, 0, 5⟩ : RectSpec), ⟨3, 0, 3, 4, 6⟩, ⟨0, 2, 1, 7, 5⟩], r.fits 8 8) ∧
        [(⟨0, 0, 1, 0, 5⟩ : RectSpec), ⟨3, 0, 3, 4, 6⟩, ⟨0, 2, 1, 7, 5⟩].Pairwise
          RectSpec.apart ∧
        [(⟨0, 2, 1, 7, 5⟩ : RectSpec), ⟨0, 0, 1, 0, 5⟩, ⟨3, 0, 3, 4, 6⟩].Perm
          [⟨0, 0, 1, 0, 5⟩, ⟨3, 0, 3, 4, 6⟩, ⟨0, 2, 1, 7, 5⟩]) ∧
      ((drawShapesToImage (Image.create 8 8 0)
          ([(⟨0, 2, 1, 7, 5⟩ : RectSpec), ⟨0, 0, 1, 0, 5⟩, ⟨3, 0, 3, 4, 6⟩].map
            RectSpec.ptr)).1 = .ok () ∧
        ∃ l : List ShapePtr,
          getRectanglesFromImage
              (drawShapesToImage (Image.create 8 8 0)
                ([(⟨0, 2, 1, 7, 5⟩ : RectSpec), ⟨0, 0, 1, 0, 5⟩, ⟨3, 0, 3, 4, 6⟩].map
                  RectSpec.ptr)).2 = .ok l ∧
            l.Perm ([(⟨0, 0, 1, 0, 5⟩ : RectSpec), ⟨3, 0, 3, 4, 6⟩, ⟨0, 2, 1, 7, 5⟩].map
              RectSpec.ptr) ∧
            l.length = [(⟨0, 0, 1, 0, 5⟩ : RectSpec), ⟨3, 0, 3, 4, 6⟩, ⟨0, 2, 1, 7, 5⟩].length) := by
  have hf : ∀ r ∈ [(⟨0, 0, 1, 0, 5⟩ : RectSpec), ⟨3, 0, 3, 4, 6⟩, ⟨0, 2, 1, 7, 5⟩],
      r.fits 8 8 := by decide
  have hp : [(⟨0, 0, 1, 0, 5⟩ : RectSpec), ⟨3, 0, 3, 4, 6⟩, ⟨0, 2, 1, 7, 5⟩].Pairwise
      RectSpec.apart := by
    refine List.Pairwise.cons ?_ (List.Pairwise.cons ?_
      (List.Pairwise.cons (fun _ h => by cases h) List.Pairwise.nil))
    · intro s hs
      rcases List.mem_cons.1 hs with rfl | hs
      · exact RectSpec.apart_of_gap _ _ (by decide)
      · rcases List.mem_singleton.1 hs with rfl
        exact RectSpec.apart_of_gap _ _ (by decide)
    · intro s hs
      rcases List.mem_singleton.1 hs with rfl
      exact RectSpec.apart_of_gap _ _ (by decide)
  have ho : [(⟨0, 2, 1, 7, 5⟩ : RectSpec), ⟨0, 0, 1, 0, 5⟩, ⟨3, 0, 3, 4, 6⟩].Perm
      [⟨0, 0, 1, 0, 5⟩, ⟨3, 0, 3, 4, 6⟩, ⟨0, 2, 1, 7, 5⟩] := by decide
  exact ⟨⟨hf, hp, ho⟩, separated_rectangles_round_trip 8 _ _ hf hp ho⟩

/-! ## When the circle is drawn, and the tracers on arbitrary grids -/

/-- The bound on the iterations of the loop of `Circle::draw` is enough: with more
iterations allowed the loop does the same. -/
theorem circleLoop_fuel (center : Vector2) (col : Nat) (n k : Nat) (x y d : Int) (img : Image)
    (h : (y - x + 1).toNat ≤ n) :
    circleLoop center col (n + k) ⟨x, y⟩ d img = circleLoop center col n ⟨x, y⟩ d img := by
  induction n generalizing x y d img with
  | zero =>
    have hlt : ¬ (y ≥ x) := by omega
    cases k with
    | zero => rfl
    | succ k =>
      simp only [Nat.zero_add, circleLoop, if_neg hlt]
  | succ n ih =>
    rw [show n + 1 + k = (n + k) + 1 by omega]
    by_cases hyx : y ≥ x
    · simp only [circleLoop, if_pos hyx]
      rcases drawCirclePart img center ⟨x + 1, if d > 0 then y - 1 else y⟩ col with ⟨res, img1⟩
      cases res with
      | error e => rfl
      | ok u =>
        simp only
        apply ih
        by_cases hd : d > 0
        · rw [if_pos hd]; omega
        · rw [if_neg hd]; omega
    · simp only [circleLoop, if_neg hyx]

theorem circle_draw_unfold (cx cy r : Int) (col : Nat) (img : Image) (hr : 1 ≤ r) :
    (Circle.mk3 ⟨cx, cy⟩ r col).draw img =
      match drawCirclePart img ⟨cx, cy⟩ ⟨0, r⟩ col with
      | (.error e, img1) => (.error e, img1)
      | (.ok _, img1) => circleLoop ⟨cx, cy⟩ col (r + 1).toNat ⟨0, r⟩ (3 - 2 * r) img1 := by
  have hne : ¬ (r = -1) := by omega
  simp only [Circle.draw, Circle.mk3, if_neg hne]
  rfl

/-- C27: for every circle of radius `r >= 1` and every grid, `Circle::draw` returns
normally if and only if the square [cx-r..cx+r]x[cy-r..cy+r] lies inside the grid;
when it does not, already the four spans of the initial state `(0, r)` (of
half-widths 0 and r, so with `start.x <= xEnd`) make `drawHorizontalLine` throw;
and the loop ends by its own test: allowing it more iterations than the `r + 1` of
the embedding changes nothing. -/
theorem circle_draw_ok_iff_square (cx cy r : Int) (col : Nat) (img : Image) (hr : 1 ≤ r) :
    (((Circle.mk3 ⟨cx, cy⟩ r col).draw img).1 = .ok () ↔
        (0 ≤ cx - r ∧ cx + r < img.width ∧ 0 ≤ cy - r ∧ cy + r < img.height)) ∧
      (¬ (0 ≤ cx - r ∧ cx + r < img.width ∧ 0 ≤ cy - r ∧ cy + r < img.height) →
        (drawCirclePart img ⟨cx, cy⟩ ⟨0, r⟩ col).1 = .error .mk) ∧
      ∀ (k : Nat) (img1 : Image),
        circleLoop ⟨cx, cy⟩ col ((r + 1).toNat + k) ⟨0, r⟩ (3 - 2 * r) img1 =
          circleLoop ⟨cx, cy⟩ col (r + 1).toNat ⟨0, r⟩ (3 - 2 * r) img1 := by
  have hfirst : (drawCirclePart img ⟨cx, cy⟩ ⟨0, r⟩ col).1 = .ok () →
      (0 ≤ cx - r ∧ cx + r < img.width ∧ 0 ≤ cy - r ∧ cy + r < img.height) := by
    intro h
    have := (drawCirclePart_of_ok img ⟨cx, cy⟩ ⟨0, r⟩ col h).1
    simp only at this
    omega
  refine ⟨⟨fun h => ?_, circle_draw_ok_of_square cx cy r col img hr⟩, fun hn => ?_,
    fun k img1 => circleLoop_fuel _ _ _ _ _ _ _ _ (by omega)⟩
  · apply hfirst
    rw [circle_draw_unfold cx cy r col img hr] at h
    rcases hd : drawCirclePart img ⟨cx, cy⟩ ⟨0, r⟩ col with ⟨res, img1⟩
    rw [hd] at h
    cases res with
    | error e => cases h
    | ok u => rfl
  · rcases hd : (drawCirclePart img ⟨cx, cy⟩ ⟨0, r⟩ col).1 with e | u
    · cases e; rfl
    · exact absurd (hfirst hd) hn

/-- C27 for the circle of centre (2,2) and radius 2 on a blank 5x5 grid. -/
theorem circle_draw_ok_iff_square_witness :
    (1 : Int) ≤ 2 ∧
      ((((Circle.mk3 ⟨2, 2⟩ 2 9).draw (Image.create 5 5 0)).1 = .ok () ↔
          ((0 : Int) ≤ 2 - 2 ∧ (2 : Int) + 2 < (Image.create 5 5 0).width ∧ (0 : Int) ≤ 2 - 2 ∧
            (2 : Int) + 2 < (Image.create 5 5 0).height)) ∧
        (¬ ((0 : Int) ≤ 2 - 2 ∧ (2 : Int) + 2 < (Image.create 5 5 0).width ∧ (0 : Int) ≤ 2 - 2 ∧
            (2 : Int) + 2 < (Image.create 5 5 0).height) →
          (drawCirclePart (Image.create 5 5 0) ⟨2, 2⟩ ⟨0, 2⟩ 9).1 = .error .mk) ∧
        ∀ (k : Nat) (img1 : Image),
          circleLoop ⟨2, 2⟩ 9 (((2 : Int) + 1).toNat + k) ⟨0, 2⟩ (3 - 2 * 2) img1 =
            circleLoop ⟨2, 2⟩ 9 ((2 : Int) + 1).toNat ⟨0, 2⟩ (3 - 2 * 2) img1) :=
  ⟨by decide, circle_draw_ok_iff_square 2 2 2 9 (Image.create 5 5 0) (by decide)⟩

/-- From a valid seed, `recognizeRectangleWithTriangle` returns normally; the
rectangle it returns is the one made from the seed, the corner found by
`setBottomRightRectangleCorner` and the colour of the seed. -/
theorem recognizeRectangleWithTriangle_ok (img : Image) (topLeft br : Vector2)
    (hv : img.isPixelValid topLeft.x topLeft.y = true)
    (ebr : setBottomRightRectangleCorner img topLeft = .ok br)
    (hx : topLeft.x ≤ br.x) (hy : topLeft.y ≤ br.y) (hvbr : img.isPixelValid br.x br.y = true) :
    ∃ found : Option Shape, Rectangle.recognizeRectangleWithTriangle img topLeft =
      .ok (Rectangle.mk2 topLeft br (img.matrix topLeft.y topLeft.x), found) := by
  have hvalid : ∀ x y : Int, topLeft.x ≤ x → x ≤ br.x → topLeft.y ≤ y → y ≤ br.y →
      img.isPixelValid x y = true := by
    intro x y h1 h2 h3 h4
    simp only [Image.isPixelValid, Bool.and_eq_true, decide_eq_true_eq] at hv hvbr ⊢
    omega
  have hscan := findOtherColor_spec img (img.matrix topLeft.y topLeft.x) topLeft.x
    (br.x + 1 - topLeft.x).toNat (br.y + 1 - topLeft.y).toNat topLeft.y
    (fun j hj i hi => hvalid _ _ (by omega) (by omega) (by omega) (by omega))
  have hunfold : Rectangle.recognizeRectangleWithTriangle img topLeft =
      (findOtherColor img (img.matrix topLeft.y topLeft.x) topLeft.x
          (br.x + 1 - topLeft.x).toNat (br.y + 1 - topLeft.y).toNat topLeft.y >>= fun found =>
        match found with
        | some p =>
          Triangle.recognizeTriangle img p >>= fun innerTriangle =>
            pure (Rectangle.mk2 topLeft br (img.matrix topLeft.y topLeft.x), some innerTriangle)
        | none => pure (Rectangle.mk2 topLeft br (img.matrix topLeft.y topLeft.x), none)) := by
    unfold Rectangle.recognizeRectangleWithTriangle
    rw [getPixel_of_valid img _ _ hv, ebr]
    rfl
  rcases hscan with ⟨j, hj, i, hi, e, _, _, _⟩ | ⟨e, _⟩
  · have hqv : img.isPixelValid (topLeft.x + i) (topLeft.y + j) = true :=
      hvalid _ _ (by omega) (by omega) (by omega) (by omega)
    obtain ⟨t, ht⟩ := recognizeTriangle_ok img ⟨topLeft.x + i, topLeft.y + j⟩ hqv
    refine ⟨some t, ?_⟩
    rw [hunfold, e]
    simp only [except_ok_bind, ht]
    rfl
  · refine ⟨none, ?_⟩
    rw [hunfold, e]
    rfl

/-- C22: on every grid, whatever its contents, and from every valid seed cell, the
three tracers return normally: `setBottomRightRectangleCorner` returns a corner that
is a valid cell, not left of and not above the seed; `recognizeRectangle` returns the
rectangle from the seed to that corner; `recognizeRectangleWithTriangle` returns
that rectangle (with or without a triangle); `recognizeTriangle` returns a
triangle. -/
theorem tracers_return_normally (img : Image) (seed : Vector2)
    (hv : img.isPixelValid seed.x seed.y = true) :
    ∃ (bottomRight : Vector2) (found : Option Shape) (t : Shape),
      setBottomRightRectangleCorner img seed = .ok bottomRight ∧
      img.isPixelValid bottomRight.x bottomRight.y = true ∧
      bottomRight.x ≥ seed.x ∧ bottomRight.y ≥ seed.y ∧
      Rectangle.recognizeRectangle img seed =
        .ok (Rectangle.mk2 seed bottomRight (img.matrix seed.y seed.x)) ∧
      Rectangle.recognizeRectangleWithTriangle img seed =
        .ok (Rectangle.mk2 seed bottomRight (img.matrix seed.y seed.x), found) ∧
      Triangle.recognizeTriangle img seed = .ok t := by
  obtain ⟨br, ebr, hx, hy, hvbr⟩ := setBottomRightRectangleCorner_spec img seed hv
  obtain ⟨found, hf⟩ := recognizeRectangleWithTriangle_ok img seed br hv ebr hx hy hvbr
  obtain ⟨t, ht⟩ := recognizeTriangle_ok img seed hv
  refine ⟨br, found, t, ebr, hvbr, hx, hy, ?_, hf, ht⟩
  unfold Rectangle.recognizeRectangle
  rw [getPixel_of_valid img _ _ hv, ebr]
  rfl

/-- C22 on the second demo image, from the seed (1,1). -/
theorem tracers_return_normally_witness :
    img2.isPixelValid 1 1 = true ∧
      ∃ (bottomRight : Vector2) (found : Option Shape) (t : Shape),
        setBottomRightRectangleCorner img2 ⟨1, 1⟩ = .ok bottomRight ∧
        img2.isPixelValid bottomRight.x bottomRight.y = true ∧
        bottomRight.x ≥ 1 ∧ bottomRight.y ≥ 1 ∧
        Rectangle.recognizeRectangle img2 ⟨1, 1⟩ =
          .ok (Rectangle.mk2 ⟨1, 1⟩ bottomRight (img2.matrix 1 1)) ∧
        Rectangle.recognizeRectangleWithTriangle img2 ⟨1, 1⟩ =
          .ok (Rectangle.mk2 ⟨1, 1⟩ bottomRight (img2.matrix 1 1), found) ∧
        Triangle.recognizeTriangle img2 ⟨1, 1⟩ = .ok t :=
  ⟨by decide, tracers_return_normally img2 ⟨1, 1⟩ (by decide)⟩

/-! ## The extraction drivers on square grids -/

theorem mem_foregroundCells (img : Image) (x y : Int) (h : isForeground img x y = true) :
    (x, y) ∈ foregroundCells img := by
  have hv := isPixelValid_of_isForeground img x y h
  simp only [Image.isPixelValid, Bool.and_eq_true, decide_eq_true_eq] at hv
  have h1 : y.toNat < img.height.toNat := by omega
  have h2 : x.toNat < img.width.toNat := by omega
  have h3 : (x.toNat : Int) = x := by omega
  have h4 : (y.toNat : Int) = y := by omega
  exact List.mem_filter.2 ⟨List.mem_flatMap.2 ⟨y.toNat, List.mem_range.2 h1,
    List.mem_map.2 ⟨x.toNat, List.mem_range.2 h2, by rw [h3, h4]⟩⟩, h⟩

theorem getRectanglesRow_total (orig : Image) (y : Int) (hy0 : 0 ≤ y) (hyh : y < orig.height)
    (n : Nat) (x : Int) (hx0 : 0 ≤ x) (hxn : x + n ≤ orig.width) (st : List ShapePtr × Image)
    (hs : SeedsOf orig st) :
    ∃ st1, getRectanglesRow y n x st = .ok st1 ∧ SeedsOf orig st1 := by
  induction n generalizing x st with
  | zero => exact ⟨st, rfl, hs⟩
  | succ n ih =>
    obtain ⟨rects, timg⟩ := st
    obtain ⟨hw, hh, hm, hl⟩ := hs
    simp only at hw hh hm hl
    have hxw : x < orig.width := by push_cast at hxn; omega
    have hv : timg.isPixelValid x y = true := by
      simp only [Image.isPixelValid, Bool.and_eq_true, decide_eq_true_eq]
      omega
    have hvo : orig.isPixelValid x y = true := by
      simp only [Image.isPixelValid, Bool.and_eq_true, decide_eq_true_eq]
      omega
    simp only [getRectanglesRow]
    rw [getPixel_of_valid timg x y hv]
    simp only [except_ok_bind]
    by_cases hc : (timg.matrix y x != BACKGROUND) = true
    · rw [if_pos hc]
      obtain ⟨br, ebr, hbx, hby, hvbr⟩ := setBottomRightRectangleCorner_spec timg ⟨x, y⟩ hv
      simp only at hbx hby
      have hrec : Rectangle.recognizeRectangle timg ⟨x, y⟩ =
          .ok (Rectangle.mk2 ⟨x, y⟩ br (timg.matrix y x)) := by
        unfold Rectangle.recognizeRectangle
        rw [getPixel_of_valid timg _ _ hv, ebr]
        rfl
      have hin : 0 ≤ x ∧ br.x < timg.width ∧ 0 ≤ y ∧ br.y < timg.height := by
        simp only [Image.isPixelValid, Bool.and_eq_true, decide_eq_true_eq] at hvbr
        omega
      have hdraw : ((Rectangle.mk2 ⟨x, y⟩ br (timg.matrix y x)).recolor BACKGROUND).draw timg =
          (.ok (), { timg with
            matrix := fun b a =>
              if x ≤ a ∧ a ≤ br.x ∧ y ≤ b ∧ b ≤ br.y then 0 else timg.matrix b a }) :=
        rectangle_draw_eq x y br.x br.y 0 timg hbx hby hin
      rw [hrec]
      simp only [except_ok_bind, hdraw]
      apply ih (x + 1) (by omega) (by push_cast at hxn ⊢; omega)
      have hne : timg.matrix y x ≠ 0 := by
        simpa [BACKGROUND] using hc
      have horig : timg.matrix y x = orig.matrix y x := by
        rcases hm x y with e | e
        · exact e
        · exact absurd e hne
      refine ⟨hw, hh, fun a b => ?_, fun p hp => ?_⟩
      · simp only
        by_cases hbox : x ≤ a ∧ a ≤ br.x ∧ y ≤ b ∧ b ≤ br.y
        · rw [if_pos hbox]; exact Or.inr rfl
        · rw [if_neg hbox]; exact hm a b
      · rcases List.mem_cons.1 hp with rfl | hp
        · refine ⟨⟨_, rfl⟩, ?_, ?_⟩
          · show isForeground orig x y = true
            simp only [isForeground, hvo, Bool.true_and, ← horig]
            exact hc
          · show timg.matrix y x = orig.matrix y x
            exact horig
        · exact hl p hp
    · rw [if_neg hc]
      exact ih (x + 1) (by omega) (by push_cast at hxn ⊢; omega) _ ⟨hw, hh, hm, hl⟩

theorem getRectanglesRows_total (orig : Image) (cols : Nat) (hc : (cols : Int) ≤ orig.width)
    (m : Nat) (y : Int) (hy0 : 0 ≤ y) (hym : y + m ≤ orig.height) (st : List ShapePtr × Image)
    (hs : SeedsOf orig st) :
    ∃ st1, getRectanglesRows cols m y st = .ok st1 ∧ SeedsOf orig st1 := by
  induction m generalizing y st with
  | zero => exact ⟨st, rfl, hs⟩
  | succ m ih =>
    obtain ⟨st2, e2, hs2⟩ := getRectanglesRow_total orig y hy0 (by push_cast at hym; omega)
      cols 0 le_rfl (by omega) st hs
    simp only [getRectanglesRows, e2, except_ok_bind]
    exact ih (y + 1) (by omega) (by push_cast at hym ⊢; omega) st2 hs2

theorem getRectanglesFromImage_total (img : Image) (hsq : img.width = img.height) :
    ∃ l : List ShapePtr, getRectanglesFromImage img = .ok l ∧
      ∀ p ∈ l, (∃ s : Shape, p = ShapePtr.rectangle s) ∧
        isForeground img p.seed.x p.seed.y = true ∧
        p.shape.color = img.matrix p.seed.y p.seed.x := by
  have h0 : SeedsOf img ([], img) :=
    ⟨rfl, rfl, fun a b => Or.inl rfl, fun p hp => by cases hp⟩
  by_cases hn : 0 ≤ img.width
  · obtain ⟨st1, e1, hs1⟩ := getRectanglesRows_total img img.width.toNat (by omega)
      img.width.toNat 0 le_rfl (by omega) _ h0
    refine ⟨st1.1, ?_, hs1.2.2.2⟩
    simp only [getRectanglesFromImage, Image.getWidth, e1, except_ok_bind]
    rfl
  · have e : img.width.toNat = 0 := by omega
    refine ⟨[], ?_, fun p hp => by cases hp⟩
    simp only [getRectanglesFromImage, Image.getWidth, e, getRectanglesRows]
    rfl

/-- C28: on every square grid, whatever its contents, `getRectanglesFromImage`
returns normally; the array holds rectangles with pairwise distinct first vertices
(their top-left corners, the seeds); each of these is a foreground cell of the input
and the rectangle has the colour the input holds there, so no rectangle has colour 0;
and the array has at most as many elements as the input has foreground cells. -/
theorem getRectanglesFromImage_distinct_foreground_seeds (img : Image)
    (hsq : img.width = img.height) :
    ∃ l : List ShapePtr, getRectanglesFromImage img = .ok l ∧
      (l.Pairwise fun a b => a.seed ≠ b.seed) ∧
      (∀ p ∈ l, (∃ s : Shape, p = ShapePtr.rectangle s) ∧
        isForeground img p.seed.x p.seed.y = true ∧
        p.shape.color = img.matrix p.seed.y p.seed.x ∧ p.shape.color ≠ 0) ∧
      l.length ≤ (foregroundCells img).length := by
  obtain ⟨l, e, hl⟩ := getRectanglesFromImage_total img hsq
  have hpw := getRectanglesFromImage_pairwise img l e
  have hdist : l.Pairwise fun a b => a.seed ≠ b.seed := by
    refine hpw.imp ?_
    intro a b hab heq
    rw [heq] at hab
    simp only [rowMajorBefore] at hab
    omega
  refine ⟨l, e, hdist, fun p hp => ?_, ?_⟩
  · obtain ⟨h1, h2, h3⟩ := hl p hp
    refine ⟨h1, h2, h3, ?_⟩
    rw [h3]
    simp only [isForeground, Bool.and_eq_true, bne_iff_ne, BACKGROUND] at h2
    exact h2.2
  · have hnd : (l.map fun p => (p.seed.x, p.seed.y)).Nodup := by
      rw [List.Nodup, List.pairwise_map]
      refine hdist.imp ?_
      intro a b hab heq
      apply hab
      simp only [Prod.mk.injEq] at heq
      rcases ha : a.seed with ⟨ax, ay⟩
      rcases hb : b.seed with ⟨bx, b_y⟩
      rw [ha, hb] at heq
      simp only at heq
      rw [heq.1, heq.2]
    have hsub : (l.map fun p => (p.seed.x, p.seed.y)) ⊆ foregroundCells img := by
      intro q hq
      obtain ⟨p, hp, rfl⟩ := List.mem_map.1 hq
      exact mem_foregroundCells img _ _ (hl p hp).2.1
    have := (List.subperm_of_subset hnd hsub).length_le
    simpa using this

/-- C28 on the first demo image (6x6). -/
theorem getRectanglesFromImage_distinct_foreground_seeds_witness :
    img1.width = img1.height ∧
      ∃ l : List ShapePtr, getRectanglesFromImage img1 = .ok l ∧
        (l.Pairwise fun a b => a.seed ≠ b.seed) ∧
        (∀ p ∈ l, (∃ s : Shape, p = ShapePtr.rectangle s) ∧
          isForeground img1 p.seed.x p.seed.y = true ∧
          p.shape.color = img1.matrix p.seed.y p.seed.x ∧ p.shape.color ≠ 0) ∧
        l.length ≤ (foregroundCells img1).length :=
  ⟨by decide, getRectanglesFromImage_distinct_foreground_seeds img1 (by decide)⟩

/-- Drawing an array made of two parts draws the first part, then the second. -/
theorem drawShapesToImage_append (img : Image) (l1 l2 : List ShapePtr) :
    drawShapesToImage img (l1 ++ l2) =
      match drawShapesToImage img l1 with
      | (.error e, img1) => (.error e, img1)
      | (.ok _, img1) => drawShapesToImage img1 l2 := by
  induction l1 generalizing img with
  | nil => rfl
  | cons s rest ih =>
    simp only [List.cons_append, drawShapesToImage]
    rcases s.draw img with ⟨res, img1⟩
    cases res with
    | error e => rfl
    | ok u => exact ih img1

theorem getRectanglesAndTrianglesRow_total (w h : Int) (y : Int) (hy0 : 0 ≤ y) (hyh : y < h)
    (n : Nat) (x : Int) (hx0 : 0 ≤ x) (hxn : x + n ≤ w) (st : List ShapePtr × Image)
    (hw : st.2.width = w) (hh : st.2.height = h) (hs : RectanglesFirst st.1) :
    ∃ st1, getRectanglesAndTrianglesRow y n x st = .ok st1 ∧ st1.2.width = w ∧
      st1.2.height = h ∧ RectanglesFirst st1.1 := by
  induction n generalizing x st with
  | zero => exact ⟨st, rfl, hw, hh, hs⟩
  | succ n ih =>
    obtain ⟨shapes, timg⟩ := st
    simp only at hw hh hs
    have hv : timg.isPixelValid x y = true := by
      simp only [Image.isPixelValid, Bool.and_eq_true, decide_eq_true_eq]
      push_cast at hxn
      omega
    simp only [getRectanglesAndTrianglesRow]
    rw [getPixel_of_valid timg x y hv]
    simp only [except_ok_bind]
    by_cases hc : (timg.matrix y x != BACKGROUND) = true
    · rw [if_pos hc]
      obtain ⟨br, ebr, hbx, hby, hvbr⟩ := setBottomRightRectangleCorner_spec timg ⟨x, y⟩ hv
      obtain ⟨found, hf⟩ := recognizeRectangleWithTriangle_ok timg ⟨x, y⟩ br hv ebr hbx hby hvbr
      simp only at hbx hby hf
      have hin : 0 ≤ x ∧ br.x < timg.width ∧ 0 ≤ y ∧ br.y < timg.height := by
        simp only [Image.isPixelValid, Bool.and_eq_true, decide_eq_true_eq] at hvbr
        omega
      have hdraw : ((Rectangle.mk2 ⟨x, y⟩ br (timg.matrix y x)).recolor BACKGROUND).draw timg =
          (.ok (), { timg with
            matrix := fun b a =>
              if x ≤ a ∧ a ≤ br.x ∧ y ≤ b ∧ b ≤ br.y then 0 else timg.matrix b a }) :=
        rectangle_draw_eq x y br.x br.y 0 timg hbx hby hin
      rw [hf]
      simp only [except_ok_bind, hdraw]
      apply ih (x + 1) (by omega) (by push_cast at hxn ⊢; omega) _ hw hh
      obtain ⟨rects, tris, e, hlen⟩ := hs
      simp only
      cases found with
      | none =>
        refine ⟨Rectangle.mk2 ⟨x, y⟩ br (timg.matrix y x) :: rects, tris, ?_, ?_⟩
        · simp only [e, List.map_cons, List.cons_append]
        · simp only [List.length_cons]; omega
      | some t =>
        refine ⟨Rectangle.mk2 ⟨x, y⟩ br (timg.matrix y x) :: rects, tris ++ [t], ?_, ?_⟩
        · simp only [e, List.map_cons, List.cons_append, List.map_append, List.map_nil,
            List.append_assoc]
        · simp only [List.length_cons, List.length_append, List.length_nil]; omega
    · rw [if_neg hc]
      exact ih (x + 1) (by omega) (by push_cast at hxn ⊢; omega) _ hw hh hs

theorem getRectanglesAndTrianglesRows_total (w h : Int) (cols : Nat) (hc : (cols : Int) ≤ w)
    (m : Nat) (y : Int) (hy0 : 0 ≤ y) (hym : y + m ≤ h) (st : List ShapePtr × Image)
    (hw : st.2.width = w) (hh : st.2.height = h) (hs : RectanglesFirst st.1) :
    ∃ st1, getRectanglesAndTrianglesRows cols m y st = .ok st1 ∧ st1.2.width = w ∧
      st1.2.height = h ∧ RectanglesFirst st1.1 := by
  induction m generalizing y st with
  | zero => exact ⟨st, rfl, hw, hh, hs⟩
  | succ m ih =>
    obtain ⟨st2, e2, hw2, hh2, hs2⟩ := getRectanglesAndTrianglesRow_total w h y hy0
      (by push_cast at hym; omega) cols 0 le_rfl (by omega) st hw hh hs
    simp only [getRectanglesAndTrianglesRows, e2, except_ok_bind]
    exact ih (y + 1) (by omega) (by push_cast at hym ⊢; omega) st2 hw2 hh2 hs2

/-- C29: on every square grid, `getRectanglesAndTrianglesFromImage` returns normally
an array made of rectangles followed by triangles (every rectangle has a smaller
index than every triangle), with at most as many triangles as rectangles; so
`drawShapesToImage` on that array, on any image, first draws all the rectangles and
then, on the result, all the triangles. -/
theorem extraction_lists_rectangles_before_triangles (img : Image)
    (hsq : img.width = img.height) :
    ∃ (l : List ShapePtr) (rects tris : List Shape),
      getRectanglesAndTrianglesFromImage img = .ok l ∧
      l = rects.map ShapePtr.rectangle ++ tris.map ShapePtr.triangle ∧
      tris.length ≤ rects.length ∧
      ∀ canvas : Image, drawShapesToImage canvas l =
        match drawShapesToImage canvas (rects.map ShapePtr.rectangle) with
        | (.error e, canvas1) => (.error e, canvas1)
        | (.ok _, canvas1) => drawShapesToImage canvas1 (tris.map ShapePtr.triangle) := by
  have h0 : RectanglesFirst ([] : List ShapePtr) := ⟨[], [], rfl, le_rfl⟩
  have hex : ∃ l : List ShapePtr, getRectanglesAndTrianglesFromImage img = .ok l ∧
      RectanglesFirst l := by
    by_cases hn : 0 ≤ img.width
    · obtain ⟨st1, e1, _, _, hs1⟩ := getRectanglesAndTrianglesRows_total img.width img.height
        img.width.toNat (by omega) img.width.toNat 0 le_rfl (by omega) ([], img) rfl rfl h0
      refine ⟨st1.1, ?_, hs1⟩
      simp only [getRectanglesAndTrianglesFromImage, Image.getWidth, e1, except_ok_bind]
      rfl
    · have e : img.width.toNat = 0 := by omega
      refine ⟨[], ?_, h0⟩
      simp only [getRectanglesAndTrianglesFromImage, Image.getWidth, e,
        getRectanglesAndTrianglesRows]
      rfl
  obtain ⟨l, e, rects, tris, hl, hlen⟩ := hex
  refine ⟨l, rects, tris, e, hl, hlen, fun canvas => ?_⟩
  rw [hl]
  exact drawShapesToImage_append canvas _ _

/-- C29 on the second demo image (6x6). -/
theorem extraction_lists_rectangles_before_triangles_witness :
    img2.width = img2.height ∧
      ∃ (l : List ShapePtr) (rects tris : List Shape),
        getRectanglesAndTrianglesFromImage img2 = .ok l ∧
        l = rects.map ShapePtr.rectangle ++ tris.map ShapePtr.triangle ∧
        tris.length ≤ rects.length ∧
        ∀ canvas : Image, drawShapesToImage canvas l =
          match drawShapesToImage canvas (rects.map ShapePtr.rectangle) with
          | (.error e, canvas1) => (.error e, canvas1)
          | (.ok _, canvas1) => drawShapesToImage canvas1 (tris.map ShapePtr.triangle) :=
  ⟨by decide, extraction_lists_rectangles_before_triangles img2 (by decide)⟩

/-! ## The circle of the source and the circle of the specification -/

/-- The four spans of the specification are the four lines of `drawCirclePart`. -/
theorem specDrawSpans_eq (img : Image) (center : Vector2) (dx dy : Int) (color : Nat) :
    specDrawSpans img center dx dy color = drawCirclePart img center ⟨dx, dy⟩ color := rfl

/-- The bound on the rounds of the loop of the specification is enough: with more
rounds allowed the loop does the same. -/
theorem specCircleLoop_fuel (center : Vector2) (col : Nat) (n k : Nat) (x y d : Int)
    (img : Image) (h : (y - x).toNat ≤ n) :
    specCircleLoop center col (n + 1 + k) x y d img =
      specCircleLoop center col (n + 1) x y d img := by
  induction n generalizing x y d img with
  | zero =>
    rw [show 0 + 1 + k = k + 1 by omega]
    simp only [specCircleLoop]
    rcases specDrawSpans img center x y col with ⟨res, img1⟩
    cases res with
    | error e => rfl
    | ok u =>
      simp only
      have hlt : (if d > 0 then y - 1 else y) < x + 1 := by
        by_cases hd : d > 0
        · rw [if_pos hd]; omega
        · rw [if_neg hd]; omega
      simp only [if_pos hlt]
  | succ n ih =>
    rw [show n + 1 + 1 + k = (n + 1 + k) + 1 by omega]
    simp only [specCircleLoop]
    rcases specDrawSpans img center x y col with ⟨res, img1⟩
    cases res with
    | error e => rfl
    | ok u =>
      simp only
      by_cases hlt : (if d > 0 then y - 1 else y) < x + 1
      · simp only [if_pos hlt]
      · simp only [if_neg hlt]
        apply ih
        by_cases hd : d > 0
        · rw [if_pos hd]; omega
        · rw [if_neg hd]; omega

theorem circleLoop_exit (center : Vector2) (col : Nat) (n : Nat) (x y d : Int) (img : Image)
    (h : y < x) : circleLoop center col n ⟨x, y⟩ d img = (.ok (), img) := by
  have hn : ¬ (y ≥ x) := by omega
  cases n with
  | zero => rfl
  | succ n => simp only [circleLoop, if_neg hn]

theorem inCirclePart_swap (cx cy px py a b : Int) :
    inCirclePart cx cy px py a b ↔ inCirclePart cx cy py px a b := by
  simp only [inCirclePart]
  exact Or.comm

theorem Covered.swap (img : Image) (cx cy : Int) (col : Nat) (px py : Int)
    (h : Covered img cx cy col px py) : Covered img cx cy col py px :=
  fun a b hab => h a b ((inCirclePart_swap cx cy py px a b).1 hab)

theorem Covered.congr (img : Image) (cx cy : Int) (col : Nat) (px py qx qy : Int)
    (h : Covered img cx cy col px py) (ex : px = qx) (ey : py = qy) :
    Covered img cx cy col qx qy := by
  subst ex
  subst ey
  exact h

/-- After a `drawCirclePart` that returns normally, its spans hold the colour and the
spans that held the colour before still do. -/
theorem drawCirclePart_covered (img : Image) (cx cy : Int) (col : Nat) (px py : Int)
    (h : (drawCirclePart img ⟨cx, cy⟩ ⟨px, py⟩ col).1 = .ok ()) :
    Covered (drawCirclePart img ⟨cx, cy⟩ ⟨px, py⟩ col).2 cx cy col px py ∧
      ∀ qx qy : Int, Covered img cx cy col qx qy →
        Covered (drawCirclePart img ⟨cx, cy⟩ ⟨px, py⟩ col).2 cx cy col qx qy := by
  have hm := (drawCirclePart_of_ok img ⟨cx, cy⟩ ⟨px, py⟩ col h).2.2.2
  simp only at hm
  refine ⟨fun a b hab => ?_, fun qx qy hq a b hab => ?_⟩
  · rw [hm, if_pos hab]
  · rw [hm]
    by_cases hc : inCirclePart cx cy px py a b
    · rw [if_pos hc]
    · rw [if_neg hc]
      exact hq a b hab

/-- A `drawCirclePart` whose spans lie in the image and already hold the colour
changes nothing. -/
theorem drawCirclePart_of_covered (img : Image) (cx cy : Int) (col : Nat) (px py : Int)
    (hr : 0 ≤ px ∧ 0 ≤ py ∧ 0 ≤ cx - px ∧ cx + px < img.width ∧
      0 ≤ cx - py ∧ cx + py < img.width ∧
      0 ≤ cy - px ∧ cy + px < img.height ∧
      0 ≤ cy - py ∧ cy + py < img.height)
    (hc : Covered img cx cy col px py) :
    drawCirclePart img ⟨cx, cy⟩ ⟨px, py⟩ col = (.ok (), img) := by
  have hok := drawCirclePart_ok_of_range img ⟨cx, cy⟩ ⟨px, py⟩ col hr
  have hd := drawCirclePart_of_ok img ⟨cx, cy⟩ ⟨px, py⟩ col hok
  rcases he : drawCirclePart img ⟨cx, cy⟩ ⟨px, py⟩ col with ⟨res, img1⟩
  rw [he] at hok hd
  simp only at hok hd
  subst hok
  simp only [Prod.mk.injEq, true_and]
  refine Image.eq_of _ _ hd.2.2.1 hd.2.1 ?_
  intro y x
  rw [hd.2.2.2]
  by_cases hin : inCirclePart cx cy px py x y
  · rw [if_pos hin, hc x y hin]
  · rw [if_neg hin]

theorem circleSync_draw (cx cy r : Int) (col : Nat) (x y d : Int) (img : Image)
    (h : CircleSync cx cy r col x y d img) :
    (drawCirclePart img ⟨cx, cy⟩ ⟨x, y⟩ col).1 = .ok () := by
  obtain ⟨⟨_, hx, hy, _⟩, hyx, _, _, _, hsq⟩ := h
  exact drawCirclePart_ok_of_range img ⟨cx, cy⟩ ⟨x, y⟩ col (by simp only; omega)

/-- The state that ends the loop: its spans hold the colour already. -/
theorem circleSync_final (cx cy r : Int) (col : Nat) (hr : 1 ≤ r) (x y d : Int) (img : Image)
    (h : CircleSync cx cy r col x y d img)
    (hfin : (if d > 0 then y - 1 else y) < x + 1) :
    drawCirclePart (drawCirclePart img ⟨cx, cy⟩ ⟨x, y⟩ col).2 ⟨cx, cy⟩
        ⟨x + 1, if d > 0 then y - 1 else y⟩ col =
      (.ok (), (drawCirclePart img ⟨cx, cy⟩ ⟨x, y⟩ col).2) := by
  have hok := circleSync_draw cx cy r col x y d img h
  have hdims := drawCirclePart_of_ok img ⟨cx, cy⟩ ⟨x, y⟩ col hok
  have hcov := drawCirclePart_covered img cx cy col x y hok
  obtain ⟨⟨_, hx, hy, hxy⟩, hyx, h0, hI, hK, hsq⟩ := h
  by_cases hp : d > 0
  · simp only [if_pos hp] at hfin ⊢
    have hyr : y < r ∨ y = r := by omega
    by_cases e : y = x + 1
    · apply drawCirclePart_of_covered
      · rw [hdims.2.1, hdims.2.2.1]; omega
      · exact Covered.congr _ _ _ _ _ _ _ _ hcov.1.swap (by omega) (by omega)
    · have e1 : y = x := by omega
      have hx1 : 1 ≤ x := by
        by_contra hcon
        have := h0 (by omega)
        omega
      have hlt : y < r := by
        rcases hyr with h1 | h1
        · exact h1
        · have := hxy h1; omega
      rcases hK with ⟨_, hc⟩ | ⟨k1, k2⟩
      · apply drawCirclePart_of_covered
        · rw [hdims.2.1, hdims.2.2.1]; omega
        · exact Covered.congr _ _ _ _ _ _ _ _ (hcov.2 _ _ hc).swap (by omega) (by omega)
      · have := k1 hx1
        have := k2 hlt
        omega
  · simp only [if_neg hp] at hfin ⊢
    have e1 : y = x := by omega
    have hlt : y < r := by
      by_contra hcon
      have := hxy (by omega)
      omega
    have := hI hlt
    omega

/-- The state after a round that does not end the loop. -/
theorem circleSync_next (cx cy r : Int) (col : Nat) (hr : 1 ≤ r) (x y d : Int) (img : Image)
    (h : CircleSync cx cy r col x y d img)
    (hfin : ¬ ((if d > 0 then y - 1 else y) < x + 1)) :
    CircleSync cx cy r col (x + 1) (if d > 0 then y - 1 else y)
      (if d > 0 then d + (4 * (x + 1 - (if d > 0 then y - 1 else y)) + 10)
        else d + (4 * (x + 1) + 6))
      (drawCirclePart img ⟨cx, cy⟩ ⟨x, y⟩ col).2 := by
  have hok := circleSync_draw cx cy r col x y d img h
  have hdims := drawCirclePart_of_ok img ⟨cx, cy⟩ ⟨x, y⟩ col hok
  have hcov := drawCirclePart_covered img cx cy col x y hok
  obtain ⟨hA, hyx, h0, hI, hK, hsq⟩ := h
  have hstep := (circleArith_step r x y d hr hA hyx).1
  obtain ⟨_, hx, hy, hxy⟩ := hA
  refine ⟨hstep, by omega, fun e => by omega, ?_, ?_, by rw [hdims.2.1, hdims.2.2.1]; exact hsq⟩
  · by_cases hp : d > 0
    · simp only [if_pos hp]
      intro _
      omega
    · simp only [if_neg hp]
      intro hlt
      have := hI hlt
      omega
  · by_cases hp : d > 0
    · simp only [if_pos hp]
      exact Or.inl ⟨by omega, Covered.congr _ _ _ _ _ _ _ _ hcov.1 (by omega) (by omega)⟩
    · simp only [if_neg hp]
      refine Or.inr ⟨fun _ => by omega, fun hlt => ?_⟩
      have := hI hlt
      omega

/-- One round of the loop of `Circle::draw`. -/
theorem circleLoop_succ (center : Vector2) (col : Nat) (n : Nat) (x y d : Int) (img : Image) :
    circleLoop center col (n + 1) ⟨x, y⟩ d img =
      if y ≥ x then
        match drawCirclePart img center ⟨x + 1, if d > 0 then y - 1 else y⟩ col with
        | (.error e, img1) => (.error e, img1)
        | (.ok _, img1) =>
          circleLoop center col n ⟨x + 1, if d > 0 then y - 1 else y⟩
            (if d > 0 then d + (4 * (x + 1 - (if d > 0 then y - 1 else y)) + 10)
              else d + (4 * (x + 1) + 6)) img1
      else (.ok (), img) := rfl

/-- The loop of `Circle::draw`, entered after the spans of the state `(x, y)` are
drawn, does what the loop of the specification does from that state: the one draw
more that the source makes, for the state that ends the loop, falls on cells that
hold the colour already. -/
theorem circleLoop_eq_specCircleLoop (cx cy r : Int) (col : Nat) (hr : 1 ≤ r) (n : Nat)
    (x y d : Int) (img : Image) (h : CircleSync cx cy r col x y d img)
    (hn : (y - x).toNat ≤ n) :
    (match drawCirclePart img ⟨cx, cy⟩ ⟨x, y⟩ col with
      | (.error e, img1) => (.error e, img1)
      | (.ok _, img1) => circleLoop ⟨cx, cy⟩ col (n + 1) ⟨x, y⟩ d img1) =
      specCircleLoop ⟨cx, cy⟩ col (n + 1) x y d img := by
  induction n generalizing x y d img with
  | zero =>
    have hok := circleSync_draw cx cy r col x y d img h
    have hyx : y ≥ x := h.2.1
    have hfin : (if d > 0 then y - 1 else y) < x + 1 := by
      by_cases hp : d > 0
      · rw [if_pos hp]; omega
      · rw [if_neg hp]; omega
    have hlast := circleSync_final cx cy r col hr x y d img h hfin
    simp only [specCircleLoop, specDrawSpans_eq]
    rcases hd : drawCirclePart img ⟨cx, cy⟩ ⟨x, y⟩ col with ⟨res, img1⟩
    rw [hd] at hok hlast
    simp only at hok hlast
    subst hok
    simp only [circleLoop, if_pos hyx, hlast, if_pos hfin]
  | succ n ih =>
    have hok := circleSync_draw cx cy r col x y d img h
    have hyx : y ≥ x := h.2.1
    by_cases hfin : (if d > 0 then y - 1 else y) < x + 1
    · have hlast := circleSync_final cx cy r col hr x y d img h hfin
      simp only [specCircleLoop, specDrawSpans_eq]
      rcases hd : drawCirclePart img ⟨cx, cy⟩ ⟨x, y⟩ col with ⟨res, img1⟩
      rw [hd] at hok hlast
      simp only at hok hlast
      subst hok
      simp only [if_pos hfin]
      rw [circleLoop_succ, if_pos hyx, hlast]
      exact circleLoop_exit _ _ _ _ _ _ _ hfin
    · have hnext := circleSync_next cx cy r col hr x y d img h hfin
      have hrec := ih (x + 1) (if d > 0 then y - 1 else y)
        (if d > 0 then d + (4 * (x + 1 - (if d > 0 then y - 1 else y)) + 10)
          else d + (4 * (x + 1) + 6))
        (drawCirclePart img ⟨cx, cy⟩ ⟨x, y⟩ col).2 hnext (by
          by_cases hp : d > 0
          · rw [if_pos hp]; omega
          · rw [if_neg hp]; omega)
      rw [specCircleLoop]
      simp only [specDrawSpans_eq]
      rcases hd : drawCirclePart img ⟨cx, cy⟩ ⟨x, y⟩ col with ⟨res, img1⟩
      rw [hd] at hok hrec
      simp only at hok hrec
      subst hok
      simp only [if_neg hfin]
      rw [← hrec, circleLoop_succ, if_pos hyx]

/-- C25: for every radius `r >= 1`, `Circle::draw` (which draws the four spans before
its loop and again after every update, also for the state with `dy < dx` that ends
the loop) and the procedure of the specification (`repeat: draw 4 spans; dx += 1;
update; until dy < dx`, started from `dx = 0`, `dy = r`, `decision = 3 - 2r`) have
the same outcome and leave the same grid, on every grid and for every colour, so
they write the same set of cells; on a grid containing the square
[cx-r..cx+r]x[cy-r..cy+r] both return normally; and the loop of the specification
ends by its own test: allowing it more rounds than the `r + 1` of the embedding
changes nothing. -/
theorem circle_draw_eq_specCircleDraw (cx cy r : Int) (col : Nat) (img : Image) (hr : 1 ≤ r) :
    (Circle.mk3 ⟨cx, cy⟩ r col).draw img = specCircleDraw ⟨cx, cy⟩ r col img ∧
      ((0 ≤ cx - r ∧ cx + r < img.width ∧ 0 ≤ cy - r ∧ cy + r < img.height) →
        (specCircleDraw ⟨cx, cy⟩ r col img).1 = .ok ()) ∧
      ∀ (k : Nat) (img1 : Image),
        specCircleLoop ⟨cx, cy⟩ col ((r + 1).toNat + k) 0 r (3 - 2 * r) img1 =
          specCircleLoop ⟨cx, cy⟩ col (r + 1).toNat 0 r (3 - 2 * r) img1 := by
  have hfuel : (r + 1).toNat = r.toNat + 1 := by omega
  have hne : ¬ (r = -1) := by omega
  have heq : (Circle.mk3 ⟨cx, cy⟩ r col).draw img = specCircleDraw ⟨cx, cy⟩ r col img := by
    rw [circle_draw_unfold cx cy r col img hr]
    simp only [specCircleDraw, if_neg hne, hfuel]
    by_cases hsq : 0 ≤ cx - r ∧ cx + r < img.width ∧ 0 ≤ cy - r ∧ cy + r < img.height
    · exact circleLoop_eq_specCircleLoop cx cy r col hr r.toNat 0 r (3 - 2 * r) img
        ⟨circleArith_init r hr, by omega, fun _ => rfl, fun h => by omega,
          Or.inr ⟨fun h => by omega, fun h => by omega⟩, hsq⟩ (by omega)
    · have herr : (drawCirclePart img ⟨cx, cy⟩ ⟨0, r⟩ col).1 ≠ .ok () := by
        intro hok
        have := (drawCirclePart_of_ok img ⟨cx, cy⟩ ⟨0, r⟩ col hok).1
        simp only at this
        omega
      simp only [specCircleLoop, specDrawSpans_eq]
      rcases hd : drawCirclePart img ⟨cx, cy⟩ ⟨0, r⟩ col with ⟨res, img1⟩
      rw [hd] at herr
      cases res with
      | error e => rfl
      | ok u => exact absurd rfl herr
  refine ⟨heq, fun hsq => ?_, fun k img1 => ?_⟩
  · rw [← heq]
    exact circle_draw_ok_of_square cx cy r col img hr hsq
  · rw [hfuel]
    exact specCircleLoop_fuel _ _ _ _ _ _ _ _ (by omega)

/-- C25 for the circle of centre (3,3) and radius 3 on a blank 7x7 grid. -/
theorem circle_draw_eq_specCircleDraw_witness :
    (1 : Int) ≤ 3 ∧
      ((Circle.mk3 ⟨3, 3⟩ 3 9).draw (Image.create 7 7 0) =
          specCircleDraw ⟨3, 3⟩ 3 9 (Image.create 7 7 0) ∧
        (((0 : Int) ≤ 3 - 3 ∧ (3 : Int) + 3 < (Image.create 7 7 0).width ∧ (0 : Int) ≤ 3 - 3 ∧
            (3 : Int) + 3 < (Image.create 7 7 0).height) →
          (specCircleDraw ⟨3, 3⟩ 3 9 (Image.create 7 7 0)).1 = .ok ()) ∧
        ∀ (k : Nat) (img1 : Image),
          specCircleLoop ⟨3, 3⟩ 9 (((3 : Int) + 1).toNat + k) 0 3 (3 - 2 * 3) img1 =
            specCircleLoop ⟨3, 3⟩ 9 ((3 : Int) + 1).toNat 0 3 (3 - 2 * 3) img1) :=
  ⟨by decide, circle_draw_eq_specCircleDraw 3 3 3 9 (Image.create 7 7 0) (by decide)⟩

/-- For radius 0 the two procedures differ: the specification draws the centre cell
and stops, `Circle::draw` goes on to the state `(1, -1)` and throws. -/
theorem circle_draw_radius_zero_differs :
    ((Circle.mk3 ⟨1, 1⟩ 0 9).draw (Image.create 3 3 0)).1 = .error .mk ∧
      (specCircleDraw ⟨1, 1⟩ 0 9 (Image.create 3 3 0)).1 = .ok () ∧
      (specCircleDraw ⟨1, 1⟩ 0 9 (Image.create 3 3 0)).2.toRows =
        [[0, 0, 0], [0, 9, 0], [0, 0, 0]] := by
  decide

/-! ## The containment test as compiled and on the integers -/

theorem wrapInt32_of_inInt32 (z : Int) (h : inInt32 z) : wrapInt32 z = z := by
  unfold inInt32 at h
  unfold wrapInt32
  omega

theorem crossInt32_eq_cross (a b p : Vector2) (h : EdgeNoOverflow a b p) :
    crossInt32 a b p = cross a b p := by
  obtain ⟨h1, h2, h3, h4, h5, h6, h7⟩ := h
  unfold crossInt32
  rw [wrapInt32_of_inInt32 _ h1, wrapInt32_of_inInt32 _ h2, wrapInt32_of_inInt32 _ h3,
    wrapInt32_of_inInt32 _ h4, wrapInt32_of_inInt32 _ h5, wrapInt32_of_inInt32 _ h6]
  exact wrapInt32_of_inInt32 _ h7

theorem mul_bound_32766 (u v : Int) (hu : -32766 ≤ u ∧ u ≤ 32766) (hv : -32766 ≤ v ∧ v ≤ 32766) :
    -1073610756 ≤ u * v ∧ u * v ≤ 1073610756 := by
  obtain ⟨hu1, hu2⟩ := hu
  obtain ⟨hv1, hv2⟩ := hv
  constructor
  · rcases le_total 0 v with h | h
    · nlinarith [mul_nonneg (by omega : (0 : Int) ≤ u + 32766) h]
    · nlinarith [mul_nonneg (by omega : (0 : Int) ≤ 32766 - u) (by omega : (0 : Int) ≤ -v)]
  · rcases le_total 0 v with h | h
    · nlinarith [mul_nonneg (by omega : (0 : Int) ≤ 32766 - u) h]
    · nlinarith [mul_nonneg (by omega : (0 : Int) ≤ u + 32766) (by omega : (0 : Int) ≤ -v)]

/-- With all coordinates in -16383 .. 16383 no operation of the half-space test
overflows. -/
theorem edgeNoOverflow_of_small (a b p : Vector2) (ha : a.small) (hb : b.small) (hp : p.small) :
    EdgeNoOverflow a b p := by
  obtain ⟨a1, a2, a3, a4⟩ := ha
  obtain ⟨b1, b2, b3, b4⟩ := hb
  obtain ⟨p1, p2, p3, p4⟩ := hp
  have m1 := mul_bound_32766 (p.x - a.x) (b.y - a.y) (by omega) (by omega)
  have m2 := mul_bound_32766 (p.y - a.y) (b.x - a.x) (by omega) (by omega)
  simp only [EdgeNoOverflow, inInt32, cross]
  omega

theorem vertex_small (s : Shape) (i : Nat) (h : ∀ v ∈ s.vertices, v.small) :
    (s.vertex i).small := by
  unfold Shape.vertex
  by_cases hi : i < s.vertices.length
  · rw [List.getD_eq_getElem _ _ hi]
    exact h _ (List.getElem_mem _)
  · rw [List.getD_eq_default _ _ (by omega)]
    decide

/-- With all coordinates in -16383 .. 16383 no operation of the containment test
overflows. -/
theorem noOverflowAt_of_small (s : Shape) (p : Vector2) (h : ∀ v ∈ s.vertices, v.small)
    (hp : p.small) : s.NoOverflowAt p :=
  ⟨fun _ _ => edgeNoOverflow_of_small _ _ _ (vertex_small s _ h) (vertex_small s _ h) hp,
    edgeNoOverflow_of_small _ _ _ (vertex_small s _ h) (vertex_small s _ h) hp⟩

theorem isPointInShapeLoopInt32_eq (s : Shape) (p : Vector2) (n i : Nat)
    (h : s.NoOverflowAt p) (hi : i + n ≤ s.verticesSize) :
    s.isPointInShapeLoopInt32 p n i = s.isPointInShapeLoop p n i := by
  induction n generalizing i with
  | zero =>
    simp only [Shape.isPointInShapeLoopInt32, Shape.isPointInShapeLoop, isPointInHalfSpaceInt32,
      isPointInHalfSpace, crossInt32_eq_cross _ _ _ h.2]
  | succ n ih =>
    simp only [Shape.isPointInShapeLoopInt32, Shape.isPointInShapeLoop, isPointInHalfSpaceInt32,
      isPointInHalfSpace, crossInt32_eq_cross _ _ _ (h.1 i (by omega)), ih (i + 1) (by omega)]

/-- Where no operation overflows, the containment test as compiled is the test on
the integers. -/
theorem isPointInShapeInt32_eq (s : Shape) (p : Vector2) (h : s.NoOverflowAt p) :
    s._isPointInShapeInt32 p = s._isPointInShape p := by
  unfold Shape._isPointInShapeInt32 Shape._isPointInShape
  rcases hn : s.verticesSize with _ | m
  · simp only [Nat.zero_sub, Shape.isPointInShapeLoopInt32, Shape.isPointInShapeLoop,
      isPointInHalfSpaceInt32, isPointInHalfSpace]
    have := h.2
    rw [hn] at this
    rw [hn, crossInt32_eq_cross _ _ _ this]
  · exact isPointInShapeLoopInt32_eq s p _ 1 h (by omega)

theorem rectangle_vertices_small (x0 y0 x1 y1 : Int) (c : Nat)
    (h0 : (⟨x0, y0⟩ : Vector2).small) (h1 : (⟨x1, y1⟩ : Vector2).small) :
    ∀ v ∈ (Rectangle.mk2 ⟨x0, y0⟩ ⟨x1, y1⟩ c).vertices, v.small := by
  intro v hv
  simp only [Rectangle.mk2, Rectangle.mk4, List.mem_cons, List.mem_singleton, List.mem_nil_iff,
    or_false] at hv
  simp only [Vector2.small] at h0 h1 ⊢
  rcases hv with rfl | rfl | rfl | rfl <;> simp only <;> omega

/-- C2 (as stated, refuted): for the one-column rectangle with corners (1,1)-(1,3)
the containment test accepts the point (1,10), which is outside the box, although
topLeft.x <= bottomRight.x and topLeft.y <= bottomRight.y hold; this is so on the
integers and as compiled.  And for the rectangle with corners (0,0)-(50000,50000)
the test as compiled rejects the corner (0,0), a point of the box: the product
-50000 * 50000 of its second edge wraps to a positive `int`. -/
theorem rectangle_contains_box_counterexample :
    ((1 : Int) ≤ 1 ∧ (1 : Int) ≤ 3) ∧
      ¬ ((Rectangle.mk2 ⟨1, 1⟩ ⟨1, 3⟩ 70)._isPointInShape ⟨1, 10⟩ = true ↔
          ((1 : Int) ≤ 1 ∧ (1 : Int) ≤ 1 ∧ (1 : Int) ≤ 10 ∧ (10 : Int) ≤ 3)) ∧
      ¬ ((Rectangle.mk2 ⟨1, 1⟩ ⟨1, 3⟩ 70)._isPointInShapeInt32 ⟨1, 10⟩ = true ↔
          ((1 : Int) ≤ 1 ∧ (1 : Int) ≤ 1 ∧ (1 : Int) ≤ 10 ∧ (10 : Int) ≤ 3)) ∧
      ((0 : Int) ≤ 50000 ∧ (0 : Int) ≤ 50000) ∧
      ¬ ((Rectangle.mk2 ⟨0, 0⟩ ⟨50000, 50000⟩ 70)._isPointInShapeInt32 ⟨0, 0⟩ = true ↔
          ((0 : Int) ≤ 0 ∧ (0 : Int) ≤ 50000 ∧ (0 : Int) ≤ 0 ∧ (0 : Int) ≤ 50000)) := by
  decide

/-- C2 (amended): for a rectangle built from two corners with
topLeft.x <= bottomRight.x and topLeft.y <= bottomRight.y and a point p at which no
`int` operation of the containment test overflows, the test as compiled accepts p
exactly when (the rectangle has zero width or topLeft.y <= p.y <= bottomRight.y) and
(it has zero height or topLeft.x <= p.x <= bottomRight.x); so when both inequalities
are strict it accepts exactly the points of the box.  No operation overflows when
the coordinates of the two corners and of p lie in -16383 .. 16383.  For the corners
(1,1)-(3,2) the point (2,1) is inside and (4,1) is outside. -/
theorem rectangle_contains_iff (x0 y0 x1 y1 : Int) (c : Nat) (p : Vector2)
    (hx : x0 ≤ x1) (hy : y0 ≤ y1) :
    ((Rectangle.mk2 ⟨x0, y0⟩ ⟨x1, y1⟩ c).NoOverflowAt p →
        ((Rectangle.mk2 ⟨x0, y0⟩ ⟨x1, y1⟩ c)._isPointInShapeInt32 p = true ↔
          ((x0 = x1 ∨ (y0 ≤ p.y ∧ p.y ≤ y1)) ∧ (y0 = y1 ∨ (x0 ≤ p.x ∧ p.x ≤ x1)))) ∧
        (x0 < x1 → y0 < y1 →
          ((Rectangle.mk2 ⟨x0, y0⟩ ⟨x1, y1⟩ c)._isPointInShapeInt32 p = true ↔
            (x0 ≤ p.x ∧ p.x ≤ x1 ∧ y0 ≤ p.y ∧ p.y ≤ y1)))) ∧
      ((⟨x0, y0⟩ : Vector2).small → (⟨x1, y1⟩ : Vector2).small → p.small →
        (Rectangle.mk2 ⟨x0, y0⟩ ⟨x1, y1⟩ c).NoOverflowAt p) ∧
      (Rectangle.mk2 ⟨1, 1⟩ ⟨3, 2⟩ c)._isPointInShapeInt32 ⟨2, 1⟩ = true ∧
      (Rectangle.mk2 ⟨1, 1⟩ ⟨3, 2⟩ c)._isPointInShapeInt32 ⟨4, 1⟩ = false := by
  have hdemo : ∀ q : Vector2, q.small → (Rectangle.mk2 ⟨1, 1⟩ ⟨3, 2⟩ c).NoOverflowAt q :=
    fun q hq => noOverflowAt_of_small _ q
      (rectangle_vertices_small 1 1 3 2 c (by decide) (by decide)) hq
  refine ⟨fun hno => ⟨?_, fun h1 h2 => ?_⟩, fun h0 h1 hp => ?_, ?_, ?_⟩
  · rw [isPointInShapeInt32_eq _ _ hno]
    exact rectangle_isPointInShape_char x0 y0 x1 y1 c p hx hy
  · rw [isPointInShapeInt32_eq _ _ hno, rectangle_isPointInShape_char x0 y0 x1 y1 c p hx hy]
    constructor
    · rintro ⟨h3 | ⟨h3, h4⟩, h5 | ⟨h5, h6⟩⟩ <;> omega
    · rintro ⟨h3, h4, h5, h6⟩
      exact ⟨Or.inr ⟨h5, h6⟩, Or.inr ⟨h3, h4⟩⟩
  · exact noOverflowAt_of_small _ p (rectangle_vertices_small x0 y0 x1 y1 c h0 h1) hp
  · rw [isPointInShapeInt32_eq _ _ (hdemo _ (by decide)),
      rectangle_isPointInShape_char 1 1 3 2 c ⟨2, 1⟩ (by omega) (by omega)]
    decide
  · rw [isPointInShapeInt32_eq _ _ (hdemo _ (by decide)), ← Bool.not_eq_true,
      rectangle_isPointInShape_char 1 1 3 2 c ⟨4, 1⟩ (by omega) (by omega)]
    decide

/-- C2 (amended), applied to the corners (1,1)-(3,2) and the point (2,1): no
operation overflows there and the point is inside. -/
theorem rectangle_contains_iff_witness :
    ((1 : Int) ≤ 3 ∧ (1 : Int) ≤ 2) ∧
      (Rectangle.mk2 ⟨1, 1⟩ ⟨3, 2⟩ 70).NoOverflowAt ⟨2, 1⟩ ∧
      ((Rectangle.mk2 ⟨1, 1⟩ ⟨3, 2⟩ 70)._isPointInShapeInt32 ⟨2, 1⟩ = true ↔
        (((1 : Int) = 3 ∨ ((1 : Int) ≤ 1 ∧ (1 : Int) ≤ 2)) ∧
          ((1 : Int) = 2 ∨ ((1 : Int) ≤ 2 ∧ (2 : Int) ≤ 3)))) ∧
      (Rectangle.mk2 ⟨1, 1⟩ ⟨3, 2⟩ 70)._isPointInShapeInt32 ⟨2, 1⟩ = true :=
  ⟨by decide, by decide,
    ((rectangle_contains_iff 1 1 3 2 70 ⟨2, 1⟩ (by decide) (by decide)).1 (by decide)).1,
    (rectangle_contains_iff 1 1 3 2 70 ⟨2, 1⟩ (by decide) (by decide)).2.2.1⟩

end Shapes
